import Mathlib

/-!
# GPU allocation webhook: a shallow embedding of `webhook/main.go`

The mutating admission webhook rewrites a pod's `nvidia.com/mig-2g.20gb`
requests to a fallback resource when no node has that MIG partition
allocatable.  This file embeds `handleMutate` and `checkMIGAvailability`
as Lean functions and proves properties of the emitted JSON-Patch list.

Conventions of the embedding:

* a Go map is an association list under `Option`; `none` is the nil map;
* the cluster API (`clientset.CoreV1().Nodes().List`) is a state-passing
  function on an arbitrary world type `σ`, so two listings may differ;
* `klog` calls have no effect on the result and are left out;
* a patch operation (`map[string]interface{}` with keys `op`, `path`,
  `value`) is a record.
-/

namespace GpuWebhook

/-! ## `resource.Quantity` -/

/-- The type `resource.Format`: how a quantity was written and is written
back.  Every quantity the parser makes has one of these three. -/
inductive Format where
  | DecimalExponent
  | BinarySI
  | DecimalSI
deriving DecidableEq, Repr

/-- A `resource.Quantity`: its numeric value in units of `10^-9` (the parser
keeps nothing finer), the format it was parsed in, and the cached text `s`.
The parser stores the input text in `s` when it takes that text for canonical
(`1`, `1Ki`, `1e3`, but also `+1`); `String()` returns `s` when it is there. -/
structure Quantity where
  nano : Int
  format : Format
  s : String
deriving DecidableEq, Repr

/-- The quantity with the given whole number of units, in decimal SI format and
without cached text. -/
def Quantity.ofUnits (n : Int) : Quantity := ⟨n * 1000000000, Format.DecimalSI, ""⟩

/-- The method `Quantity.IsZero`. -/
def Quantity.IsZero (q : Quantity) : Bool := q.nano == 0

/-- The method `Quantity.Cmp`: `-1`, `0` or `1`. -/
def Quantity.Cmp (q y : Quantity) : Int :=
  if q.nano < y.nano then -1 else if q.nano = y.nano then 0 else 1

/-- Strips factors of ten from a mantissa, counting them
(`removeInt64Factors(value, 10)`); the first argument bounds the loop. -/
def removeFactors10 : Nat → Nat → Nat × Nat
  | 0, m => (m, 0)
  | fuel + 1, m =>
    if m % 10 = 0 ∧ m ≠ 0 then
      ((removeFactors10 fuel (m / 10)).1, (removeFactors10 fuel (m / 10)).2 + 1)
    else (m, 0)

/-- Strips factors of 1024 from a mantissa, counting them
(`removeInt64Factors(value, 1024)`); the first argument bounds the loop. -/
def removeFactors1024 : Nat → Nat → Nat × Nat
  | 0, m => (m, 0)
  | fuel + 1, m =>
    if m % 1024 = 0 ∧ m ≠ 0 then
      ((removeFactors1024 fuel (m / 1024)).1, (removeFactors1024 fuel (m / 1024)).2 + 1)
    else (m, 0)

/-- The decimal SI suffix of an exponent; an exponent outside the table (above
`E`) gets no suffix at all. -/
def siSuffix (exponent : Int) : String :=
  if exponent = -9 then "n"
  else if exponent = -6 then "u"
  else if exponent = -3 then "m"
  else if exponent = 0 then ""
  else if exponent = 3 then "k"
  else if exponent = 6 then "M"
  else if exponent = 9 then "G"
  else if exponent = 12 then "T"
  else if exponent = 15 then "P"
  else if exponent = 18 then "E"
  else ""

/-- The suffix of the decimal exponent format: none for exponent zero, else `e`
and the exponent. -/
def exponentSuffix (exponent : Int) : String :=
  if exponent = 0 then "" else "e" ++ toString exponent

/-- The binary SI suffix of a power of 1024; a power outside the table gets no
suffix. -/
def binarySuffix (power : Nat) : String :=
  if power = 1 then "Ki"
  else if power = 2 then "Mi"
  else if power = 3 then "Gi"
  else if power = 4 then "Ti"
  else if power = 5 then "Pi"
  else if power = 6 then "Ei"
  else ""

/-- The mantissa and exponent of `AsCanonicalBytes`: the mantissa loses its
factors of ten, then the exponent is lowered to a multiple of three. -/
def Quantity.decimalAmount (q : Quantity) : Nat × Int :=
  let r := removeFactors10 q.nano.natAbs q.nano.natAbs
  let exponent : Int := -9 + (r.2 : Int)
  let shift : Nat := (exponent % 3).toNat
  (r.1 * 10 ^ shift, exponent - shift)

/-- The sign written before the digits: only a minus. -/
def Quantity.signText (q : Quantity) : String := if q.nano < 0 then "-" else ""

/-- The decimal form with the suffix the format gives to the exponent. -/
def Quantity.decimalText (q : Quantity) (suffix : Int → String) : String :=
  q.signText ++ toString q.decimalAmount.1 ++ suffix q.decimalAmount.2

/-- The mantissa and power of `AsCanonicalBase1024Bytes`, for a quantity that
is a whole number of units. -/
def Quantity.binaryAmount (q : Quantity) : Nat × Nat :=
  removeFactors1024 (q.nano.natAbs / 1000000000) (q.nano.natAbs / 1000000000)

/-- The binary form: mantissa and binary suffix. -/
def Quantity.binaryText (q : Quantity) : String :=
  q.signText ++ toString q.binaryAmount.1 ++ binarySuffix q.binaryAmount.2

/-- A binary SI quantity is written in decimal SI when it lies strictly between
`-1024` and `1024` or is not a whole number of units. -/
def Quantity.binaryAsDecimal (q : Quantity) : Bool :=
  (decide (-1024 * 1000000000 < q.nano) && decide (q.nano < 1024 * 1000000000))
    || decide (q.nano % 1000000000 ≠ 0)

/-- The canonical form `CanonicalizeBytes` builds: `0` for zero, else the
digits and the suffix of the format. -/
def Quantity.canonical (q : Quantity) : String :=
  if q.nano = 0 then "0"
  else
    match q.format with
    | Format.DecimalSI => q.decimalText siSuffix
    | Format.DecimalExponent => q.decimalText exponentSuffix
    | Format.BinarySI =>
      if q.binaryAsDecimal then q.decimalText siSuffix else q.binaryText

/-- The method `Quantity.String`: the cached text when there is one, else the
canonical form. -/
def Quantity.String (q : Quantity) : String :=
  if q.s.length = 0 then q.canonical else q.s

/-! ## The objects the webhook reads -/

/-- The type `corev1.ResourceList`, the entries of a `map[ResourceName]Quantity`. -/
abbrev ResourceList := List (String × Quantity)

/-- Indexing a Go map with the comma-ok form: `none` when the key is absent
or the map is nil. -/
def mapIndex {α : Type} (m : Option (List (String × α))) (key : String) : Option α :=
  match m with
  | none => none
  | some kvs => kvs.lookup key

/-- The type `corev1.ResourceRequirements`. -/
structure ResourceRequirements where
  Limits : Option ResourceList
  Requests : Option ResourceList
deriving DecidableEq, Repr

/-- The type `corev1.Container`, with the fields the webhook reads. -/
structure Container where
  Name : String
  Resources : ResourceRequirements
deriving DecidableEq, Repr

/-- The type `corev1.PodSpec`. -/
structure PodSpec where
  Containers : List Container
deriving DecidableEq, Repr

/-- The type `corev1.Pod`, with the fields the webhook reads. -/
structure Pod where
  Namespace : String
  Name : String
  Annotations : Option (List (String × String))
  Spec : PodSpec
deriving DecidableEq, Repr

/-- The type `corev1.Node`: `Status.Allocatable`. -/
structure Node where
  Allocatable : Option ResourceList
deriving DecidableEq, Repr

/-- The type `admissionv1.AdmissionRequest`.  `Object` stands for `Object.Raw`
together with what `json.Unmarshal` makes of it: the pod, or the decoding
error. -/
structure AdmissionRequest where
  UID : String
  Object : Except String Pod

/-- The type `admissionv1.AdmissionReview`. -/
structure AdmissionReview where
  Request : AdmissionRequest

/-- The `value` member of a patch operation: a string, or the empty
`map[string]string`. -/
inductive PatchValue where
  | str (s : String)
  | emptyMap
deriving DecidableEq, Repr

/-- One JSON-Patch operation. -/
structure PatchOp where
  op : String
  path : String
  value : Option PatchValue
deriving DecidableEq, Repr

/-- The type `metav1.Status`. -/
structure Status where
  Message : String
deriving DecidableEq, Repr

/-- The type `admissionv1.PatchType`. -/
inductive PatchType where
  | JSONPatch
deriving DecidableEq, Repr

/-- The type `admissionv1.AdmissionResponse`.  `Patch` is the patch document handed to
`json.Marshal`; `none` is the field left unset. -/
structure AdmissionResponse where
  UID : String
  Allowed : Bool
  Result : Option Status
  Patch : Option (List PatchOp)
  PatchType : Option PatchType
deriving DecidableEq, Repr

/-! ## Resource names and fixed strings -/

/-- The medium MIG partition, the one resource the webhook looks for. -/
def mediumMIG : String := "nvidia.com/mig-2g.20gb"

/-- The small MIG partition, the first fallback. -/
def smallMIG : String := "nvidia.com/mig-1g.10gb"

/-- The whole GPU, the last fallback. -/
def wholeGPU : String := "nvidia.com/gpu"

/-- The provenance label of the fallback to the small MIG partition. -/
def labelSmall : String := "2g.20gb->1g.10gb"

/-- The provenance label of the fallback to the whole GPU. -/
def labelGPU : String := "2g.20gb->gpu"

/-- The path of the annotations map. -/
def annotationsPath : String := "/metadata/annotations"

/-- The path of the provenance annotation. -/
def provenancePath : String := "/metadata/annotations/gpu-webhook.k8s.io~1fallback"

/-- The call `fmt.Sprintf` with one `%d` between two literal parts. -/
def sprintfD (before : String) (d : Nat) (after : String) : String :=
  before ++ toString d ++ after

/-- The call `fmt.Sprintf` with `%d` then `%s`: `before`, the number, `mid`, the string. -/
def sprintfDS (before : String) (d : Nat) (mid : String) (s : String) : String :=
  before ++ toString d ++ mid ++ s

/-! ## `checkMIGAvailability` -/

/-- The node listing of the cluster API: the nodes or an error, and the next
state of the world. -/
abbrev NodeLister (σ : Type) := σ → Except String (List Node) × σ

/-- The loop over `nodes.Items`: true at the first node whose allocatable
table has the resource with a quantity comparing `>= 1`.  The quantity
`Quantity.ofUnits 1` has the value of `resource.MustParse("1")`, and `Cmp`
reads nothing but the value. -/
def scanNodes (resourceName : String) : List Node → Bool
  | [] => false
  | node :: rest =>
    match mapIndex node.Allocatable resourceName with
    | some allocatable =>
      if allocatable.Cmp (Quantity.ofUnits 1) ≥ 0 then true
      else scanNodes resourceName rest
    | none => scanNodes resourceName rest

/-- The function `checkMIGAvailability`: the boolean and the error (`none` for nil), and
the state after the listing. -/
def checkMIGAvailability {σ : Type} (listNodes : NodeLister σ) (resourceName : String)
    (s : σ) : (Bool × Option String) × σ :=
  match listNodes s with
  | (Except.error err, s1) => ((false, some err), s1)
  | (Except.ok nodes, s1) => ((scanNodes resourceName nodes, none), s1)

/-! ## `handleMutate` -/

/-- The variables of the container loop: the patch list, the `modified`
flag, and the state of the world. -/
structure LoopState (σ : Type) where
  patches : List PatchOp
  modified : Bool
  world : σ

/-- The type of the method `checkMIGAvailability` as the loop calls it: from a
resource name and the state of the world to the boolean, the error and the
state after the call. -/
abbrev AvailabilityCheck (σ : Type) : Type := String → σ → (Bool × Option String) × σ

/-- The escaping of the fallback resource name, as the two-branch
conditional of the source. -/
def escapeFallback (fallbackResource : String) : String :=
  if fallbackResource = "nvidia.com/gpu" then "nvidia.com~1gpu"
  else if fallbackResource = "nvidia.com/mig-1g.10gb" then "nvidia.com~1mig-1g.10gb"
  else fallbackResource

/-- The operations appended for a container being substituted: the requests
pair, the limits pair when the limits hold the medium-MIG key, the creation
of the annotations map when the pod has none, and the provenance. -/
def appendFallback (pod : Pod) (containerIdx : Nat) (container : Container)
    (qty : Quantity) (fallback1g : Bool) (patches : List PatchOp) : List PatchOp :=
  let fallbackResource := "nvidia.com/mig-1g.10gb"
  let fallbackLabel := "2g.20gb->1g.10gb"
  let fallbackResource := if !fallback1g then "nvidia.com/gpu" else fallbackResource
  let fallbackLabel := if !fallback1g then "2g.20gb->gpu" else fallbackLabel
  let escapedFallback := escapeFallback fallbackResource
  let patches := patches ++ [
    { op := "remove",
      path := sprintfD "/spec/containers/" containerIdx
        "/resources/requests/nvidia.com~1mig-2g.20gb",
      value := none }]
  let patches := patches ++ [
    { op := "add",
      path := sprintfDS "/spec/containers/" containerIdx "/resources/requests/"
        escapedFallback,
      value := some (PatchValue.str qty.String) }]
  let patches :=
    match container.Resources.Limits with
    | none => patches
    | some limits =>
      match limits.lookup "nvidia.com/mig-2g.20gb" with
      | none => patches
      | some limitQty =>
        patches ++ [
          { op := "remove",
            path := sprintfD "/spec/containers/" containerIdx
              "/resources/limits/nvidia.com~1mig-2g.20gb",
            value := none }] ++ [
          { op := "add",
            path := sprintfDS "/spec/containers/" containerIdx "/resources/limits/"
              escapedFallback,
            value := some (PatchValue.str limitQty.String) }]
  let patches :=
    match pod.Annotations with
    | none => patches ++ [
        { op := "add", path := "/metadata/annotations", value := some PatchValue.emptyMap }]
    | some _ => patches
  patches ++ [
    { op := "add",
      path := "/metadata/annotations/gpu-webhook.k8s.io~1fallback",
      value := some (PatchValue.str fallbackLabel) }]

/-- One iteration of the loop over `pod.Spec.Containers`.  The argument
`check` stands for the method `w.checkMIGAvailability`; the body has no other
way to the cluster. -/
def loopBody {σ : Type} (check : AvailabilityCheck σ) (pod : Pod) (containerIdx : Nat)
    (container : Container) (st : LoopState σ) : LoopState σ :=
  match container.Resources.Requests with
  | none => st
  | some requests =>
    match requests.lookup "nvidia.com/mig-2g.20gb" with
    | none => st
    | some qty =>
      if qty.IsZero then st
      else
        let r1 := check "nvidia.com/mig-2g.20gb" st.world
        let available := r1.1.1
        if !available then
          let r2 := check "nvidia.com/mig-1g.10gb" r1.2
          let fallback1g := r2.1.1
          { patches := appendFallback pod containerIdx container qty fallback1g st.patches,
            modified := true,
            world := r2.2 }
        else
          { st with world := r1.2 }

/-- The loop `for containerIdx, container := range pod.Spec.Containers`,
from index `containerIdx` on. -/
def containerLoop {σ : Type} (check : AvailabilityCheck σ) (pod : Pod) :
    Nat → List Container → LoopState σ → LoopState σ
  | _, [], st => st
  | containerIdx, container :: rest, st =>
    containerLoop check pod (containerIdx + 1) rest
      (loopBody check pod containerIdx container st)

/-- The state of the loop variables when the loop over all containers ends. -/
def runLoop {σ : Type} (check : AvailabilityCheck σ) (pod : Pod) (s : σ) : LoopState σ :=
  containerLoop check pod 0 pod.Spec.Containers
    { patches := [], modified := false, world := s }

/-- The call `json.Marshal` of the patch list.  Every value in it is a string or an
empty string map, so the encoding always succeeds. -/
def jsonMarshal (patches : List PatchOp) : Except String (List PatchOp) :=
  Except.ok patches

/-- The response for a decoded pod once the loop has ended. -/
def respond (uid : String) (patches : List PatchOp) (modified : Bool) : AdmissionResponse :=
  let response : AdmissionResponse :=
    { UID := uid, Allowed := true, Result := none, Patch := none, PatchType := none }
  if modified then
    match jsonMarshal patches with
    | Except.error err =>
      { UID := "", Allowed := false, Result := some { Message := err },
        Patch := none, PatchType := none }
    | Except.ok patchBytes =>
      { response with Patch := some patchBytes, PatchType := some PatchType.JSONPatch }
  else response

/-- The function `handleMutate`, run from the state `s` of the world. -/
def handleMutate {σ : Type} (listNodes : NodeLister σ) (ar : AdmissionReview) (s : σ) :
    AdmissionResponse :=
  match ar.Request.Object with
  | Except.error err =>
    { UID := "", Allowed := false, Result := some { Message := err },
      Patch := none, PatchType := none }
  | Except.ok pod =>
    let st := runLoop (checkMIGAvailability listNodes) pod s
    respond ar.Request.UID st.patches st.modified

/-- The patch list `handleMutate` has built for a decoded pod when its loop ends. -/
def emittedPatches {σ : Type} (listNodes : NodeLister σ) (pod : Pod) (s : σ) : List PatchOp :=
  (runLoop (checkMIGAvailability listNodes) pod s).patches

/-! ## Observing the calls of the loop -/

/-- A lister that counts its calls: the state of the world carries the number
of listings made so far. -/
def countingLister {σ : Type} (listNodes : NodeLister σ) : NodeLister (σ × Nat) :=
  fun s => ((listNodes s.1).1, ((listNodes s.1).2, s.2 + 1))

/-- An availability check that logs its calls: the state of the world carries
the resource names the check was called with so far, oldest first. -/
def loggingCheck {σ : Type} (check : AvailabilityCheck σ) :
    AvailabilityCheck (σ × List String) :=
  fun resourceName s =>
    ((check resourceName s.1).1, ((check resourceName s.1).2, s.2 ++ [resourceName]))

/-- The loop of `handleMutate` for a decoded pod, run with the calls of
`checkMIGAvailability` logged and the listings of nodes counted. -/
def observedLoop {σ : Type} (listNodes : NodeLister σ) (pod : Pod) (s : σ) :
    LoopState ((σ × Nat) × List String) :=
  runLoop (loggingCheck (checkMIGAvailability (countingLister listNodes))) pod ((s, 0), [])

/-- An observed state of the loop with the log and the count dropped. -/
def LoopState.unobserved {σ : Type} (st : LoopState ((σ × Nat) × List String)) :
    LoopState σ :=
  { patches := st.patches, modified := st.modified, world := st.world.1.1 }

/-- The availability queries `handleMutate` issues for a decoded pod: the
resource names of its calls of `checkMIGAvailability`, in order. -/
def issuedQueries {σ : Type} (listNodes : NodeLister σ) (pod : Pod) (s : σ) : List String :=
  (observedLoop listNodes pod s).world.2

/-- The number of times `handleMutate` lists the nodes for a decoded pod. -/
def issuedListings {σ : Type} (listNodes : NodeLister σ) (pod : Pod) (s : σ) : Nat :=
  (observedLoop listNodes pod s).world.1.2

/-! ## Paths and the operations of one iteration -/

/-- The path prefix of everything inside container `i`. -/
def containerPrefix (i : Nat) : String := sprintfD "/spec/containers/" i "/"

/-- The path prefix of the keys of the requests map of container `i`. -/
def requestsPrefix (i : Nat) : String := sprintfD "/spec/containers/" i "/resources/requests/"

/-- The path prefix of the keys of the limits map of container `i`. -/
def limitsPrefix (i : Nat) : String := sprintfD "/spec/containers/" i "/resources/limits/"

/-- The path `path` lies under the prefix `pfx`. -/
def liesUnder (pfx path : String) : Prop := pfx.data <+: path.data

instance (pfx path : String) : Decidable (liesUnder pfx path) :=
  inferInstanceAs (Decidable (pfx.data <+: path.data))

/-- The operations one iteration appends, for a container at `containerIdx`
when the world is in state `w`. -/
def iterBlock {σ : Type} (listNodes : NodeLister σ) (pod : Pod) (containerIdx : Nat)
    (container : Container) (w : σ) : List PatchOp :=
  (loopBody (checkMIGAvailability listNodes) pod containerIdx container
    { patches := [], modified := false, world := w }).patches

/-- The container requests medium-MIG with a non-zero quantity `qty`. -/
def requestsMedium (container : Container) (qty : Quantity) : Prop :=
  mapIndex container.Resources.Requests mediumMIG = some qty ∧ qty.IsZero = false

instance (container : Container) (qty : Quantity) : Decidable (requestsMedium container qty) :=
  inferInstanceAs (Decidable (_ ∧ _))


/-- The limits pair of a substituted container: empty unless the limits hold
the medium-MIG key. -/
def limitsOps (idx : Nat) (c : Container) (escaped : String) : List PatchOp :=
  match mapIndex c.Resources.Limits mediumMIG with
  | none => []
  | some limitQty =>
    [{ op := "remove",
       path := sprintfD "/spec/containers/" idx "/resources/limits/nvidia.com~1mig-2g.20gb",
       value := none },
     { op := "add",
       path := sprintfDS "/spec/containers/" idx "/resources/limits/" escaped,
       value := some (PatchValue.str limitQty.String) }]

/-- The creation of the annotations map, emitted only for a pod without one. -/
def annotationOps (pod : Pod) : List PatchOp :=
  match pod.Annotations with
  | none => [{ op := "add", path := "/metadata/annotations", value := some PatchValue.emptyMap }]
  | some _ => []

/-! ## JSON Pointer and JSON Patch on the pod document -/

/-- The number a list of decimal digits writes. -/
def decimalValue (l : List Char) : Nat :=
  l.foldl (fun a c => 10 * a + (c.toNat - 48)) 0

/-- Splits the characters of a pointer at every `/`. -/
def splitSlash : List Char → List (List Char)
  | [] => [[]]
  | c :: cs =>
    if c = '/' then [] :: splitSlash cs
    else
      match splitSlash cs with
      | [] => [[c]]
      | t :: ts => (c :: t) :: ts

/-- Replaces every occurrence of the two characters `a b` by `r`, left to
right. -/
def replacePair (a b r : Char) : List Char → List Char
  | [] => []
  | [x] => [x]
  | x :: y :: cs =>
    if x = a ∧ y = b then r :: replacePair a b r cs
    else x :: replacePair a b r (y :: cs)

/-- Unescapes a reference token (RFC 6901, section 4): first every `~1`
becomes `/`, then every `~0` becomes `~`. -/
def unescapeToken (t : List Char) : List Char :=
  replacePair '~' '0' '~' (replacePair '~' '1' '/' t)

/-- The reference tokens of a JSON Pointer, unescaped: the empty pointer has
none, any other pointer starts with `/`. -/
def pointerTokens (path : String) : Option (List String) :=
  match path.data with
  | [] => some []
  | c :: rest =>
    if c = '/' then some ((splitSlash rest).map (fun t => String.mk (unescapeToken t)))
    else none

/-- An array index token (RFC 6901): `0`, or digits without a leading zero. -/
def parseIndex (tok : String) : Option Nat :=
  match tok.data with
  | [] => none
  | c :: cs =>
    if (c :: cs).all Char.isDigit ∧ (c = '0' → cs = []) then some (decimalValue (c :: cs))
    else none

/-- A container of the pod document: its `resources.limits` and
`resources.requests` objects, absent or with string members. -/
structure ContainerDoc where
  limits : Option (List (String × String))
  requests : Option (List (String × String))
deriving DecidableEq, Repr

/-- The pod document a patch is applied to: `metadata.annotations` (absent or
an object) and `spec.containers`. -/
structure PodDoc where
  annotations : Option (List (String × String))
  containers : List ContainerDoc
deriving DecidableEq, Repr

/-- A resource list as a JSON object: every quantity by its canonical string. -/
def renderResources (m : Option ResourceList) : Option (List (String × String)) :=
  m.map (fun kvs => kvs.map (fun e => (e.1, e.2.String)))

/-- The document of a container. -/
def Container.toDoc (c : Container) : ContainerDoc :=
  { limits := renderResources c.Resources.Limits,
    requests := renderResources c.Resources.Requests }

/-- The document of a pod: the original object the patch is applied to. -/
def Pod.toDoc (pod : Pod) : PodDoc :=
  { annotations := pod.Annotations,
    containers := pod.Spec.Containers.map Container.toDoc }

/-- Deletes a member of an object. -/
def eraseKey (m : List (String × String)) (key : String) : List (String × String) :=
  m.filter (fun e => e.1 != key)

/-- Sets a member of an object, replacing it when present. -/
def setKey (m : List (String × String)) (key value : String) : List (String × String) :=
  (key, value) :: eraseKey m key

/-- An operation on the member `key` of an object (RFC 6902): `add` sets the
member, replacing it if present; `remove` deletes a member that exists and
fails otherwise. -/
def applyToObject (op : PatchOp) (key : String) (m : List (String × String)) :
    Option (List (String × String)) :=
  if op.op = "add" then
    match op.value with
    | some (PatchValue.str v) => some (setKey m key v)
    | _ => none
  else if op.op = "remove" then
    if (m.lookup key).isSome then some (eraseKey m key) else none
  else none

/-- One operation applied to the pod document.  The target is resolved from
the pointer; the parent of the target must exist.  Paths and values outside
the fields the document holds are rejected. -/
def applyOp (doc : PodDoc) (op : PatchOp) : Option PodDoc :=
  match pointerTokens op.path with
  | some [a, b] =>
    if a = "metadata" ∧ b = "annotations" then
      if op.op = "add" then
        match op.value with
        | some PatchValue.emptyMap => some { doc with annotations := some [] }
        | _ => none
      else if op.op = "remove" then
        if doc.annotations.isSome then some { doc with annotations := none } else none
      else none
    else none
  | some [a, b, key] =>
    if a = "metadata" ∧ b = "annotations" then
      match doc.annotations with
      | none => none
      | some m => (applyToObject op key m).map (fun m1 => { doc with annotations := some m1 })
    else none
  | some [a, b, idx, d, sec, key] =>
    if a = "spec" ∧ b = "containers" ∧ d = "resources" then
      match parseIndex idx with
      | none => none
      | some i =>
        match doc.containers[i]? with
        | none => none
        | some cd =>
          if sec = "requests" then
            match cd.requests with
            | none => none
            | some m =>
              (applyToObject op key m).map (fun m1 =>
                { doc with containers := doc.containers.set i { cd with requests := some m1 } })
          else if sec = "limits" then
            match cd.limits with
            | none => none
            | some m =>
              (applyToObject op key m).map (fun m1 =>
                { doc with containers := doc.containers.set i { cd with limits := some m1 } })
          else none
    else none
  | _ => none

/-- A patch list applied in order; `none` as soon as one operation fails. -/
def applyPatch : PodDoc → List PatchOp → Option PodDoc
  | doc, [] => some doc
  | doc, op :: ops =>
    match applyOp doc op with
    | none => none
    | some doc1 => applyPatch doc1 ops

/-- The replacement resource of a rung: small-MIG when it was available,
whole-GPU otherwise. -/
def fallbackKey (fallback1g : Bool) : String :=
  if fallback1g then "nvidia.com/mig-1g.10gb" else "nvidia.com/gpu"

/-- The escaped replacement resource of a rung. -/
def fallbackEscaped (fallback1g : Bool) : String :=
  if fallback1g then "nvidia.com~1mig-1g.10gb" else "nvidia.com~1gpu"

/-- The provenance label of a rung. -/
def fallbackLabel (fallback1g : Bool) : String :=
  if fallback1g then "2g.20gb->1g.10gb" else "2g.20gb->gpu"

/-- An object after the medium-MIG member is deleted and the replacement
member set to `value`. -/
def substituteObject (m : List (String × String)) (fallback1g : Bool) (value : String) :
    List (String × String) :=
  setKey (eraseKey m "nvidia.com/mig-2g.20gb") (fallbackKey fallback1g) value

/-- The document of a substituted container: the requests always change, the
limits only when they hold the medium-MIG key. -/
def substitutedDoc (c : Container) (qty : Quantity) (fallback1g : Bool) : ContainerDoc :=
  { requests :=
      (renderResources c.Resources.Requests).map
        (fun m => substituteObject m fallback1g qty.String),
    limits :=
      match mapIndex c.Resources.Limits mediumMIG with
      | none => renderResources c.Resources.Limits
      | some limitQty =>
        (renderResources c.Resources.Limits).map
          (fun m => substituteObject m fallback1g limitQty.String) }

/-- The annotations a provenance `add` of the pod finds: empty when the pod
had no annotations map (the block creates one first), those of the document
otherwise. -/
def annotationBase (pod : Pod) (doc : PodDoc) : List (String × String) :=
  match pod.Annotations with
  | none => []
  | some _ => doc.annotations.getD []

/-- The document after the block of a substituted container `i`. -/
def afterBlock (pod : Pod) (doc : PodDoc) (i : Nat) (c : Container) (qty : Quantity)
    (fallback1g : Bool) : PodDoc :=
  { annotations := some (setKey (annotationBase pod doc) "gpu-webhook.k8s.io/fallback"
      (fallbackLabel fallback1g)),
    containers := doc.containers.set i (substitutedDoc c qty fallback1g) }

/-- The annotation key of the provenance. -/
def fallbackAnnotation : String := "gpu-webhook.k8s.io/fallback"

/-- The states of the world at the start of each iteration of the loop, from
index `containerIdx` on. -/
def worldsFrom {σ : Type} (listNodes : NodeLister σ) (pod : Pod) :
    Nat → List Container → σ → List σ
  | _, [], _ => []
  | containerIdx, container :: rest, w =>
    w :: worldsFrom listNodes pod (containerIdx + 1) rest
      (loopBody (checkMIGAvailability listNodes) pod containerIdx container
        { patches := [], modified := false, world := w }).world

/-- The blocks of the containers from index `containerIdx` on, one after the
other, each for its own state of the world. -/
def blocksFrom {σ : Type} (listNodes : NodeLister σ) (pod : Pod) :
    Nat → List Container → List σ → List PatchOp
  | containerIdx, container :: rest, w :: ws =>
    iterBlock listNodes pod containerIdx container w
      ++ blocksFrom listNodes pod (containerIdx + 1) rest ws
  | _, _, _ => []

/-- Container `i` is substituted in the run: the patch list holds an operation
whose path lies under `/spec/containers/i/`. -/
def substituted {σ : Type} (listNodes : NodeLister σ) (pod : Pod) (s : σ) (i : Nat) : Prop :=
  ∃ op ∈ emittedPatches listNodes pod s, liesUnder (containerPrefix i) op.path

instance {σ : Type} (listNodes : NodeLister σ) (pod : Pod) (s : σ) (i : Nat) :
    Decidable (substituted listNodes pod s i) :=
  inferInstanceAs (Decidable (∃ op ∈ emittedPatches listNodes pod s,
    liesUnder (containerPrefix i) op.path))

/-- Every substituted container of the run used the rung `fallback1g`: each
requests `add` of the patch list targets the replacement resource of that
rung. -/
def usedRung {σ : Type} (listNodes : NodeLister σ) (pod : Pod) (s : σ)
    (fallback1g : Bool) : Prop :=
  ∀ op ∈ emittedPatches listNodes pod s, op.op = "add" →
    ∀ i < pod.Spec.Containers.length, liesUnder (requestsPrefix i) op.path →
      op.path = sprintfDS "/spec/containers/" i "/resources/requests/"
        (fallbackEscaped fallback1g)

instance {σ : Type} (listNodes : NodeLister σ) (pod : Pod) (s : σ) (fallback1g : Bool) :
    Decidable (usedRung listNodes pod s fallback1g) :=
  inferInstanceAs (Decidable (∀ op ∈ emittedPatches listNodes pod s, op.op = "add" →
    ∀ i < pod.Spec.Containers.length, liesUnder (requestsPrefix i) op.path →
      op.path = sprintfDS "/spec/containers/" i "/resources/requests/"
        (fallbackEscaped fallback1g)))

/-! ## JSON Pointer escaping -/

/-- Replaces every occurrence of the character `a` by the characters `r`. -/
def replaceChar (a : Char) (r : List Char) : List Char → List Char
  | [] => []
  | c :: cs => if c = a then r ++ replaceChar a r cs else c :: replaceChar a r cs

/-- The escaping of a key for a JSON Pointer (RFC 6901): every `~` is replaced
by `~0`, then every `/` by `~1`. -/
def escape (key : String) : String :=
  String.mk (replaceChar '/' ['~', '1'] (replaceChar '~' ['~', '0'] key.data))

/-! ## The availability queries of the fallback policy -/

/-- The queries the fallback policy issues for one container when the world is
in state `w`: none unless the container requests a non-zero medium-MIG
quantity; then one for medium-MIG and, only if that is unavailable, one for
small-MIG. -/
def containerQueries {σ : Type} (listNodes : NodeLister σ) (c : Container) (w : σ) :
    List String :=
  match mapIndex c.Resources.Requests "nvidia.com/mig-2g.20gb" with
  | none => []
  | some qty =>
    if qty.IsZero then []
    else if (checkMIGAvailability listNodes "nvidia.com/mig-2g.20gb" w).1.1 then
      ["nvidia.com/mig-2g.20gb"]
    else ["nvidia.com/mig-2g.20gb", "nvidia.com/mig-1g.10gb"]

/-- The queries of the containers one after the other, each for its own state
of the world. -/
def queriesFrom {σ : Type} (listNodes : NodeLister σ) : List Container → List σ → List String
  | c :: cs, w :: ws => containerQueries listNodes c w ++ queriesFrom listNodes cs ws
  | _, _ => []

/-! ## The patch list as the specification describes it -/

/-- The decision of the fallback policy for one container when the world is in
state `w`: nothing unless the container requests a non-zero medium-MIG quantity
and medium-MIG is unavailable; then the requested quantity and whether
small-MIG is available. -/
def fallbackDecision {σ : Type} (listNodes : NodeLister σ) (c : Container) (w : σ) :
    Option (Quantity × Bool) :=
  match mapIndex c.Resources.Requests "nvidia.com/mig-2g.20gb" with
  | none => none
  | some qty =>
    if qty.IsZero then none
    else if (checkMIGAvailability listNodes "nvidia.com/mig-2g.20gb" w).1.1 then none
    else some (qty, (checkMIGAvailability listNodes "nvidia.com/mig-1g.10gb"
      (checkMIGAvailability listNodes "nvidia.com/mig-2g.20gb" w).2).1.1)

/-- The block of the patch builder for a substituted container at position `i`:
the requests pair, the limits pair if and only if the limits declare medium-MIG,
the creation of the annotations map if and only if the pod has none, and the
provenance. -/
def specBlock (pod : Pod) (i : Nat) (c : Container) (qty : Quantity) (fallback1g : Bool) :
    List PatchOp :=
  [⟨"remove", requestsPrefix i ++ escape "nvidia.com/mig-2g.20gb", none⟩,
   ⟨"add", requestsPrefix i ++ escape (fallbackKey fallback1g),
     some (PatchValue.str qty.String)⟩]
  ++ (match mapIndex c.Resources.Limits "nvidia.com/mig-2g.20gb" with
      | some limitQty =>
        [⟨"remove", limitsPrefix i ++ escape "nvidia.com/mig-2g.20gb", none⟩,
         ⟨"add", limitsPrefix i ++ escape (fallbackKey fallback1g),
           some (PatchValue.str limitQty.String)⟩]
      | none => [])
  ++ (match pod.Annotations with
      | none => [⟨"add", "/metadata/annotations", some PatchValue.emptyMap⟩]
      | some _ => [])
  ++ [⟨"add", "/metadata/annotations/" ++ escape "gpu-webhook.k8s.io/fallback",
        some (PatchValue.str (fallbackLabel fallback1g))⟩]

/-- The block of the container at position `i`, empty when the policy takes no
decision for it. -/
def decidedBlock {σ : Type} (listNodes : NodeLister σ) (pod : Pod) (i : Nat) (c : Container)
    (w : σ) : List PatchOp :=
  match fallbackDecision listNodes c w with
  | none => []
  | some d => specBlock pod i c d.1 d.2

/-- The block of position `i` in the lists of containers and of states of the
world. -/
def blockAt {σ : Type} (listNodes : NodeLister σ) (pod : Pod) (cs : List Container)
    (ws : List σ) (offset i : Nat) : List PatchOp :=
  match cs[i]?, ws[i]? with
  | some c, some w => decidedBlock listNodes pod (offset + i) c w
  | _, _ => []

/-! ## Reading the text of a quantity (specification side) -/

/-- The multiplier, in units of `10^-9`, of a suffix of the decimal SI and the
binary SI tables. -/
def suffixMultiplier (suffix : List Char) : Option Nat :=
  if suffix = [] then some 1000000000
  else if suffix = ['n'] then some 1
  else if suffix = ['u'] then some 1000
  else if suffix = ['m'] then some 1000000
  else if suffix = ['k'] then some (10 ^ 12)
  else if suffix = ['M'] then some (10 ^ 15)
  else if suffix = ['G'] then some (10 ^ 18)
  else if suffix = ['T'] then some (10 ^ 21)
  else if suffix = ['P'] then some (10 ^ 24)
  else if suffix = ['E'] then some (10 ^ 27)
  else if suffix = ['K', 'i'] then some (1024 ^ 1 * 1000000000)
  else if suffix = ['M', 'i'] then some (1024 ^ 2 * 1000000000)
  else if suffix = ['G', 'i'] then some (1024 ^ 3 * 1000000000)
  else if suffix = ['T', 'i'] then some (1024 ^ 4 * 1000000000)
  else if suffix = ['P', 'i'] then some (1024 ^ 5 * 1000000000)
  else if suffix = ['E', 'i'] then some (1024 ^ 6 * 1000000000)
  else none

/-- The multiplier, in units of `10^-9`, of a decimal exponent written after
`e` or `E`; none for an exponent below `-9`. -/
def exponentMultiplier (cs : List Char) : Option Nat :=
  match cs with
  | '-' :: ds =>
    if ds ≠ [] ∧ ds.all Char.isDigit = true ∧ decimalValue ds ≤ 9 then
      some (10 ^ (9 - decimalValue ds))
    else none
  | '+' :: ds =>
    if ds ≠ [] ∧ ds.all Char.isDigit = true then some (10 ^ (9 + decimalValue ds)) else none
  | ds =>
    if ds ≠ [] ∧ ds.all Char.isDigit = true then some (10 ^ (9 + decimalValue ds)) else none

/-- The multiplier of a suffix: that of the tables, else that of a decimal
exponent. -/
def readSuffix (suffix : List Char) : Option Nat :=
  match suffixMultiplier suffix with
  | some mult => some mult
  | none =>
    match suffix with
    | 'e' :: cs => exponentMultiplier cs
    | 'E' :: cs => exponentMultiplier cs
    | _ => none

/-- The digits of the fraction of a quantity text, given what follows its
leading digits. -/
def fractionOf (rest : List Char) : List Char :=
  match rest with
  | '.' :: t => t.takeWhile Char.isDigit
  | _ => []

/-- The suffix of a quantity text, given what follows its leading digits. -/
def suffixOf (rest : List Char) : List Char :=
  match rest with
  | '.' :: t => t.dropWhile Char.isDigit
  | _ => rest

/-- The value, in units of `10^-9`, of an unsigned quantity text: digits, an
optional fraction, and a suffix; none when the text is no quantity or is finer
than `10^-9`. -/
def readUnsigned (body : List Char) : Option Nat :=
  let num := body.takeWhile Char.isDigit
  let frac := fractionOf (body.dropWhile Char.isDigit)
  if num ++ frac = [] then none
  else
    match readSuffix (suffixOf (body.dropWhile Char.isDigit)) with
    | none => none
    | some mult =>
      if (decimalValue (num ++ frac) * mult) % 10 ^ frac.length = 0 then
        some (decimalValue (num ++ frac) * mult / 10 ^ frac.length)
      else none

/-- The value a list of characters denotes as a quantity text: an optional
sign, then the unsigned text. -/
def readChars (cs : List Char) : Option Int :=
  match cs with
  | '-' :: body => (readUnsigned body).map (fun (n : Nat) => -(n : Int))
  | '+' :: body => (readUnsigned body).map (fun (n : Nat) => (n : Int))
  | body => (readUnsigned body).map (fun (n : Nat) => (n : Int))

/-- The value, in units of `10^-9`, a quantity text denotes. -/
def readText (text : String) : Option Int := readChars text.data

/-- The canonical exponent of the quantity has a suffix in the table of its
format (always so in the decimal exponent format). -/
def Quantity.hasSuffix (q : Quantity) : Bool :=
  match q.format with
  | Format.DecimalSI => decide (q.decimalAmount.2 ≤ 18)
  | Format.DecimalExponent => true
  | Format.BinarySI =>
    if q.binaryAsDecimal then decide (q.decimalAmount.2 ≤ 18)
    else decide (q.binaryAmount.2 ≤ 6)

/-- The text `String()` gives can be trusted: a cached text reads back as the
quantity (as the parser that caches it guarantees), and without cached text the
canonical exponent has a suffix. -/
def Quantity.printable (q : Quantity) : Prop :=
  if q.s.length = 0 then q.hasSuffix = true else readText q.s = some q.nano

instance (q : Quantity) : Decidable q.printable := by
  unfold Quantity.printable; exact inferInstance

/-! ## Concrete clusters and pods -/

/-- A cluster without nodes: nothing is available. -/
def clusterEmpty : NodeLister Unit := fun s => (Except.ok [], s)

/-- A cluster whose API cannot be reached. -/
def clusterDown : NodeLister Unit := fun s => (Except.error "connection refused", s)

/-- A cluster with one node offering one medium MIG partition. -/
def clusterMedium : NodeLister Unit := fun s =>
  (Except.ok [{ Allocatable := some [("nvidia.com/mig-2g.20gb", Quantity.ofUnits 1)] }], s)

/-- A cluster with one node offering one small MIG partition and no medium one. -/
def clusterSmall : NodeLister Unit := fun s =>
  (Except.ok [{ Allocatable := some [("nvidia.com/mig-1g.10gb", Quantity.ofUnits 1)] }], s)

/-- A container requesting one medium MIG partition, without limits. -/
def containerMedium : Container :=
  { Name := "cuda",
    Resources := { Limits := none,
                   Requests := some [("nvidia.com/mig-2g.20gb", Quantity.ofUnits 1)] } }

/-- A container requesting one medium MIG partition with a limit of two. -/
def containerLimited : Container :=
  { Name := "cuda",
    Resources := { Limits := some [("nvidia.com/mig-2g.20gb", Quantity.ofUnits 2)],
                   Requests := some [("nvidia.com/mig-2g.20gb", Quantity.ofUnits 1)] } }

/-- A container requesting one whole GPU. -/
def containerGPU : Container :=
  { Name := "cuda",
    Resources := { Limits := none, Requests := some [("nvidia.com/gpu", Quantity.ofUnits 1)] } }

/-- A pod with the one container `containerMedium` and no annotations. -/
def podMedium : Pod :=
  { Namespace := "default", Name := "job", Annotations := none,
    Spec := { Containers := [containerMedium] } }

/-- A pod with the one container `containerLimited` and no annotations. -/
def podLimited : Pod :=
  { Namespace := "default", Name := "job", Annotations := none,
    Spec := { Containers := [containerLimited] } }

/-- A pod with the one container `containerGPU` and no annotations. -/
def podGPU : Pod :=
  { Namespace := "default", Name := "job", Annotations := none,
    Spec := { Containers := [containerGPU] } }

/-- A container requesting two medium MIG partitions and, already, one whole
GPU. -/
def containerBoth : Container :=
  { Name := "cuda",
    Resources := { Limits := none,
                   Requests := some [("nvidia.com/mig-2g.20gb", Quantity.ofUnits 2),
                                     ("nvidia.com/gpu", Quantity.ofUnits 1)] } }

/-- A pod with the containers `containerBoth` and `containerLimited`, and an
annotations map holding one entry. -/
def podBoth : Pod :=
  { Namespace := "default", Name := "job", Annotations := some [("team", "ml")],
    Spec := { Containers := [containerBoth, containerLimited] } }

/-- A cluster with two nodes: one offers half a medium MIG partition, the other
none at all. -/
def clusterHalf : NodeLister Unit := fun s =>
  (Except.ok [{ Allocatable := some [("nvidia.com/mig-2g.20gb",
                  ⟨500000000, Format.DecimalSI, "500m"⟩)] },
              { Allocatable := some [("nvidia.com/mig-2g.20gb",
                  ⟨0, Format.DecimalSI, "0"⟩)] },
              { Allocatable := none }], s)

/-- A pod with three containers: one requesting a whole GPU and two requesting
one medium MIG partition each; no annotations. -/
def podThree : Pod :=
  { Namespace := "default", Name := "job", Annotations := none,
    Spec := { Containers := [containerGPU, containerMedium, containerLimited] } }

/-- A pod with two containers requesting one medium MIG partition each, and no
annotations. -/
def podTwo : Pod :=
  { Namespace := "default", Name := "job", Annotations := none,
    Spec := { Containers := [containerMedium, containerMedium] } }

/-- The quantity the parser makes of the text `+1`: one unit, in decimal SI
format, with the text cached. -/
def quantityPlus : Quantity := ⟨1000000000, Format.DecimalSI, "+1"⟩

/-- The quantity the parser makes of the text `1000E`: ten to the power 21
units, in decimal SI format; the text is not cached, as its digits end in
`000`. -/
def quantityHuge : Quantity :=
  ⟨1000000000000000000000000000000, Format.DecimalSI, ""⟩

/-- The quantity the parser makes of the text `1024`, with the text cached. -/
def quantity1024 : Quantity := ⟨1024000000000, Format.DecimalSI, "1024"⟩

/-- The quantity the parser makes of the text `1Ki`: 1024 units in binary SI
format, with the text cached. -/
def quantityKi : Quantity := ⟨1024000000000, Format.BinarySI, "1Ki"⟩

/-- A container whose medium-MIG request and limit were both written `+1`. -/
def containerPlus : Container :=
  { Name := "cuda",
    Resources := { Limits := some [("nvidia.com/mig-2g.20gb", quantityPlus)],
                   Requests := some [("nvidia.com/mig-2g.20gb", quantityPlus)] } }

/-- A pod with the one container `containerPlus` and no annotations. -/
def podPlus : Pod :=
  { Namespace := "default", Name := "job", Annotations := none,
    Spec := { Containers := [containerPlus] } }

/-- A container whose medium-MIG request and limit were both written `1000E`. -/
def containerHuge : Container :=
  { Name := "cuda",
    Resources := { Limits := some [("nvidia.com/mig-2g.20gb", quantityHuge)],
                   Requests := some [("nvidia.com/mig-2g.20gb", quantityHuge)] } }

/-- A pod with the one container `containerHuge` and no annotations. -/
def podHuge : Pod :=
  { Namespace := "default", Name := "job", Annotations := none,
    Spec := { Containers := [containerHuge] } }

/-- A container whose medium-MIG request was written `1024` and whose
medium-MIG limit was written `1Ki`. -/
def containerKi : Container :=
  { Name := "cuda",
    Resources := { Limits := some [("nvidia.com/mig-2g.20gb", quantityKi)],
                   Requests := some [("nvidia.com/mig-2g.20gb", quantity1024)] } }

/-- A pod with the one container `containerKi` and no annotations. -/
def podKi : Pod :=
  { Namespace := "default", Name := "job", Annotations := none,
    Spec := { Containers := [containerKi] } }

theorem digitChar_spec (k : Nat) (hk : k < 10) :
    (Nat.digitChar k).toNat - 48 = k ∧ (Nat.digitChar k).isDigit = true ∧
      (k ≠ 0 → Nat.digitChar k ≠ '0') := by
  interval_cases k <;> decide

theorem decimalValue_append (l : List Char) (c : Char) :
    decimalValue (l ++ [c]) = 10 * decimalValue l + (c.toNat - 48) := by
  simp [decimalValue, List.foldl_append]

theorem toDigitsCore_spec (fuel : Nat) : ∀ (n : Nat) (ds : List Char), n < fuel →
    ∃ l : List Char, Nat.toDigitsCore 10 fuel n ds = l ++ ds ∧ decimalValue l = n ∧
      (∀ c ∈ l, c.isDigit = true) ∧ l ≠ [] ∧ (n ≠ 0 → l.head? ≠ some '0') := by
  induction fuel with
  | zero => intro n ds h; omega
  | succ fuel ih =>
    intro n ds hn
    have hd := digitChar_spec (n % 10) (Nat.mod_lt _ (by decide))
    by_cases h0 : n / 10 = 0
    · have hlt : n < 10 := by omega
      have hmod : n % 10 = n := Nat.mod_eq_of_lt hlt
      refine ⟨[Nat.digitChar (n % 10)], ?_, ?_, ?_, ?_, ?_⟩
      · simp [Nat.toDigitsCore, h0]
      · rw [hmod] at hd
        simp [decimalValue, hd.1, hmod]
      · intro c hc
        simp at hc
        rw [hc]; exact hd.2.1
      · simp
      · intro hne
        rw [hmod] at hd ⊢
        simpa using hd.2.2 hne
    · have hlt : n / 10 < fuel := by omega
      obtain ⟨l, hl, hv, hdig, hne, hhead⟩ := ih (n / 10) (Nat.digitChar (n % 10) :: ds) hlt
      refine ⟨l ++ [Nat.digitChar (n % 10)], ?_, ?_, ?_, ?_, ?_⟩
      · simp [Nat.toDigitsCore, h0, hl]
      · rw [decimalValue_append, hv, hd.1]; omega
      · intro c hc
        rcases List.mem_append.1 hc with h | h
        · exact hdig c h
        · simp at h; rw [h]; exact hd.2.1
      · simp
      · intro _
        cases l with
        | nil => exact absurd rfl hne
        | cons a t => simpa using hhead h0

theorem toDigits_spec (n : Nat) :
    decimalValue (Nat.toDigits 10 n) = n ∧ (∀ c ∈ Nat.toDigits 10 n, c.isDigit = true) ∧
      Nat.toDigits 10 n ≠ [] ∧ (n ≠ 0 → (Nat.toDigits 10 n).head? ≠ some '0') := by
  obtain ⟨l, hl, h⟩ := toDigitsCore_spec (n + 1) n [] (Nat.lt_succ_self n)
  have : Nat.toDigits 10 n = l := by simpa [Nat.toDigits] using hl
  rw [this]; exact h

theorem toDigits_injective {i j : Nat} (h : Nat.toDigits 10 i = Nat.toDigits 10 j) : i = j := by
  have hi := (toDigits_spec i).1
  have hj := (toDigits_spec j).1
  rw [h] at hi; omega

theorem appendFallback_append (pod : Pod) (idx : Nat) (c : Container) (qty : Quantity)
    (f : Bool) (patches : List PatchOp) :
    appendFallback pod idx c qty f patches = patches ++ appendFallback pod idx c qty f [] := by
  unfold appendFallback
  cases hl : c.Resources.Limits with
  | none => cases ha : pod.Annotations <;> simp
  | some limits =>
    cases hq : limits.lookup "nvidia.com/mig-2g.20gb" <;> cases ha : pod.Annotations <;>
      simp [hq]

theorem loopBody_patches {σ : Type} (listNodes : NodeLister σ) (pod : Pod) (idx : Nat)
    (c : Container) (st : LoopState σ) :
    (loopBody (checkMIGAvailability listNodes) pod idx c st).patches
      = st.patches ++ iterBlock listNodes pod idx c st.world := by
  unfold iterBlock loopBody
  cases hr : c.Resources.Requests with
  | none => simp
  | some requests =>
    cases hq : requests.lookup "nvidia.com/mig-2g.20gb" with
    | none => simp [hq]
    | some qty =>
      by_cases hz : qty.IsZero = true
      · simp [hq, hz]
      · by_cases ha : (checkMIGAvailability listNodes "nvidia.com/mig-2g.20gb" st.world).1.1 = true
        · simp [hq, hz, ha]
        · simp only [hq, hz, ha, Bool.false_eq_true, if_false, Bool.not_eq_true, Bool.not_false,
            if_true]
          exact appendFallback_append _ _ _ _ _ _

theorem loopBody_world {σ : Type} (listNodes : NodeLister σ) (pod : Pod) (idx : Nat)
    (c : Container) (st : LoopState σ) :
    (loopBody (checkMIGAvailability listNodes) pod idx c st).world
      = (loopBody (checkMIGAvailability listNodes) pod idx c
          { patches := [], modified := false, world := st.world }).world := by
  unfold loopBody
  cases hr : c.Resources.Requests with
  | none => simp
  | some requests =>
    cases hq : requests.lookup "nvidia.com/mig-2g.20gb" with
    | none => simp [hq]
    | some qty =>
      by_cases hz : qty.IsZero = true
      · simp [hq, hz]
      · by_cases ha : (checkMIGAvailability listNodes "nvidia.com/mig-2g.20gb" st.world).1.1 = true
        · simp [hq, hz, ha]
        · simp [hq, hz, ha]

theorem appendFallback_nil (pod : Pod) (idx : Nat) (c : Container) (qty : Quantity) (f : Bool) :
    appendFallback pod idx c qty f [] =
      [{ op := "remove",
         path := sprintfD "/spec/containers/" idx "/resources/requests/nvidia.com~1mig-2g.20gb",
         value := none },
       { op := "add",
         path := sprintfDS "/spec/containers/" idx "/resources/requests/"
           (if f then "nvidia.com~1mig-1g.10gb" else "nvidia.com~1gpu"),
         value := some (PatchValue.str qty.String) }]
      ++ limitsOps idx c (if f then "nvidia.com~1mig-1g.10gb" else "nvidia.com~1gpu")
      ++ annotationOps pod
      ++ [{ op := "add", path := "/metadata/annotations/gpu-webhook.k8s.io~1fallback",
            value := some (PatchValue.str (if f then labelSmall else labelGPU)) }] := by
  unfold appendFallback limitsOps annotationOps mapIndex
  cases f <;> cases hl : c.Resources.Limits with
  | none => cases ha : pod.Annotations <;> simp [escapeFallback, labelSmall, labelGPU, mediumMIG]
  | some limits =>
    cases hq : limits.lookup "nvidia.com/mig-2g.20gb" <;> cases ha : pod.Annotations <;>
      simp [hq, escapeFallback, labelSmall, labelGPU, mediumMIG]

theorem iterBlock_of_substituted {σ : Type} (listNodes : NodeLister σ) (pod : Pod) (idx : Nat)
    (c : Container) (w : σ) (qty : Quantity) (hq : requestsMedium c qty)
    (ha : (checkMIGAvailability listNodes mediumMIG w).1.1 = false) :
    iterBlock listNodes pod idx c w = appendFallback pod idx c qty
      (checkMIGAvailability listNodes smallMIG (checkMIGAvailability listNodes mediumMIG w).2).1.1
      [] := by
  obtain ⟨h1, h2⟩ := hq
  unfold mapIndex at h1
  unfold iterBlock loopBody
  cases hr : c.Resources.Requests with
  | none => simp [hr] at h1
  | some requests =>
    rw [hr] at h1
    simp only [mediumMIG] at h1 ha
    simp [h1, h2, ha, smallMIG, mediumMIG]

theorem iterBlock_cases {σ : Type} (listNodes : NodeLister σ) (pod : Pod) (idx : Nat)
    (c : Container) (w : σ) :
    iterBlock listNodes pod idx c w = [] ∨
      ∃ qty, requestsMedium c qty ∧ (checkMIGAvailability listNodes mediumMIG w).1.1 = false ∧
        iterBlock listNodes pod idx c w = appendFallback pod idx c qty
          (checkMIGAvailability listNodes smallMIG
            (checkMIGAvailability listNodes mediumMIG w).2).1.1 [] := by
  cases hr : c.Resources.Requests with
  | none => left; simp [iterBlock, loopBody, hr]
  | some requests =>
    cases hq : requests.lookup "nvidia.com/mig-2g.20gb" with
    | none => left; simp [iterBlock, loopBody, hr, hq]
    | some qty =>
      by_cases hz : qty.IsZero = true
      · left; simp [iterBlock, loopBody, hr, hq, hz]
      · by_cases ha : (checkMIGAvailability listNodes "nvidia.com/mig-2g.20gb" w).1.1 = true
        · left; simp [iterBlock, loopBody, hr, hq, hz, ha]
        · right
          have hm : requestsMedium c qty := by
            refine ⟨?_, by simpa using hz⟩
            simp [mapIndex, hr, mediumMIG, hq]
          have ha2 : (checkMIGAvailability listNodes mediumMIG w).1.1 = false := by
            simpa [mediumMIG] using ha
          exact ⟨qty, hm, ha2, iterBlock_of_substituted listNodes pod idx c w qty hm ha2⟩

theorem iterBlock_of_available {σ : Type} (listNodes : NodeLister σ) (pod : Pod) (idx : Nat)
    (c : Container) (w : σ)
    (ha : (checkMIGAvailability listNodes mediumMIG w).1.1 = true) :
    iterBlock listNodes pod idx c w = [] := by
  rcases iterBlock_cases listNodes pod idx c w with h | ⟨_, _, h, _⟩
  · exact h
  · rw [ha] at h; exact absurd h (by decide)

theorem iterBlock_of_not_requested {σ : Type} (listNodes : NodeLister σ) (pod : Pod) (idx : Nat)
    (c : Container) (w : σ) (hn : ∀ qty, ¬ requestsMedium c qty) :
    iterBlock listNodes pod idx c w = [] := by
  rcases iterBlock_cases listNodes pod idx c w with h | ⟨qty, hq, _, _⟩
  · exact h
  · exact absurd hq (hn qty)

theorem containerLoop_patches {σ : Type} (listNodes : NodeLister σ) (pod : Pod)
    (cs : List Container) : ∀ (idx : Nat) (st : LoopState σ),
    ∃ post, (containerLoop (checkMIGAvailability listNodes) pod idx cs st).patches = st.patches ++ post ∧
      ∀ op ∈ post, ∃ j c w, idx ≤ j ∧ cs[j - idx]? = some c ∧
        op ∈ iterBlock listNodes pod j c w := by
  induction cs with
  | nil => intro idx st; exact ⟨[], by simp [containerLoop], by simp⟩
  | cons c cs ih =>
    intro idx st
    obtain ⟨post, hp, hmem⟩ := ih (idx + 1) (loopBody (checkMIGAvailability listNodes) pod idx c st)
    refine ⟨iterBlock listNodes pod idx c st.world ++ post, ?_, ?_⟩
    · simp only [containerLoop]
      rw [hp, loopBody_patches, List.append_assoc]
    · intro op hop
      rcases List.mem_append.1 hop with h | h
      · exact ⟨idx, c, st.world, le_refl _, by simp, h⟩
      · obtain ⟨j, c', w, hj, hc, hin⟩ := hmem op h
        refine ⟨j, c', w, by omega, ?_, hin⟩
        have : j - idx = (j - (idx + 1)) + 1 := by omega
        rw [this]; simpa using hc

theorem containerLoop_split {σ : Type} (listNodes : NodeLister σ) (pod : Pod)
    (cs : List Container) : ∀ (idx : Nat) (st : LoopState σ) (i : Nat) (c : Container),
    idx ≤ i → cs[i - idx]? = some c →
    ∃ pre post w, (containerLoop (checkMIGAvailability listNodes) pod idx cs st).patches
        = st.patches ++ pre ++ iterBlock listNodes pod i c w ++ post ∧
      ∀ op ∈ pre ++ post, ∃ j c1 w1, j ≠ i ∧ op ∈ iterBlock listNodes pod j c1 w1 := by
  induction cs with
  | nil => intro idx st i c _ h; simp at h
  | cons c0 cs ih =>
    intro idx st i c hle hc
    by_cases hi : i = idx
    · subst hi
      simp at hc
      subst hc
      obtain ⟨post, hp, hmem⟩ :=
        containerLoop_patches listNodes pod cs (i + 1) (loopBody (checkMIGAvailability listNodes) pod i c0 st)
      refine ⟨[], post, st.world, ?_, ?_⟩
      · simp only [containerLoop]
        rw [hp, loopBody_patches]; simp
      · intro op hop
        simp at hop
        obtain ⟨j, c1, w1, hj, _, hin⟩ := hmem op hop
        exact ⟨j, c1, w1, by omega, hin⟩
    · have hlt : idx + 1 ≤ i := by omega
      have hc1 : cs[i - (idx + 1)]? = some c := by
        have : i - idx = (i - (idx + 1)) + 1 := by omega
        rw [this] at hc; simpa using hc
      obtain ⟨pre, post, w, hp, hmem⟩ :=
        ih (idx + 1) (loopBody (checkMIGAvailability listNodes) pod idx c0 st) i c hlt hc1
      refine ⟨iterBlock listNodes pod idx c0 st.world ++ pre, post, w, ?_, ?_⟩
      · simp only [containerLoop]
        rw [hp, loopBody_patches]; simp
      · intro op hop
        rcases List.mem_append.1 hop with h | h
        · rcases List.mem_append.1 h with h1 | h1
          · exact ⟨idx, c0, st.world, by omega, h1⟩
          · exact hmem op (List.mem_append.2 (Or.inl h1))
        · exact hmem op (List.mem_append.2 (Or.inr h))

theorem loopBody_modified {σ : Type} (listNodes : NodeLister σ) (pod : Pod) (idx : Nat)
    (c : Container) (st : LoopState σ) (h : st.modified = true ↔ st.patches ≠ []) :
    (loopBody (checkMIGAvailability listNodes) pod idx c st).modified = true ↔
      (loopBody (checkMIGAvailability listNodes) pod idx c st).patches ≠ [] := by
  unfold loopBody
  cases hr : c.Resources.Requests with
  | none => simpa using h
  | some requests =>
    cases hq : requests.lookup "nvidia.com/mig-2g.20gb" with
    | none => simpa [hq] using h
    | some qty =>
      by_cases hz : qty.IsZero = true
      · simpa [hq, hz] using h
      · by_cases ha : (checkMIGAvailability listNodes "nvidia.com/mig-2g.20gb" st.world).1.1 = true
        · simpa [hq, hz, ha] using h
        · simp only [hq, hz, ha, Bool.false_eq_true, if_false, Bool.not_eq_true, Bool.not_false,
            if_true, true_iff]
          rw [appendFallback_append, appendFallback_nil]
          simp

theorem containerLoop_modified {σ : Type} (listNodes : NodeLister σ) (pod : Pod)
    (cs : List Container) : ∀ (idx : Nat) (st : LoopState σ),
    (st.modified = true ↔ st.patches ≠ []) →
    ((containerLoop (checkMIGAvailability listNodes) pod idx cs st).modified = true ↔
      (containerLoop (checkMIGAvailability listNodes) pod idx cs st).patches ≠ []) := by
  induction cs with
  | nil => intro idx st h; simpa [containerLoop] using h
  | cons c cs ih =>
    intro idx st h
    simp only [containerLoop]
    exact ih _ _ (loopBody_modified listNodes pod idx c st h)

theorem runLoop_modified {σ : Type} (listNodes : NodeLister σ) (pod : Pod) (s : σ) :
    (runLoop (checkMIGAvailability listNodes) pod s).modified = true ↔ emittedPatches listNodes pod s ≠ [] := by
  unfold emittedPatches runLoop
  exact containerLoop_modified listNodes pod _ 0 _ (by simp)

theorem handleMutate_decoded {σ : Type} (listNodes : NodeLister σ) (uid : String) (pod : Pod)
    (s : σ) :
    handleMutate listNodes ⟨⟨uid, Except.ok pod⟩⟩ s =
      if emittedPatches listNodes pod s = [] then
        { UID := uid, Allowed := true, Result := none, Patch := none, PatchType := none }
      else
        { UID := uid, Allowed := true, Result := none,
          Patch := some (emittedPatches listNodes pod s),
          PatchType := some PatchType.JSONPatch } := by
  have hm := runLoop_modified listNodes pod s
  by_cases he : emittedPatches listNodes pod s = []
  · have : (runLoop (checkMIGAvailability listNodes) pod s).modified = false := by
      cases h : (runLoop (checkMIGAvailability listNodes) pod s).modified with
      | false => rfl
      | true => exact absurd he (hm.1 h)
    simp [handleMutate, respond, this, he]
  · have : (runLoop (checkMIGAvailability listNodes) pod s).modified = true := hm.2 he
    rw [if_neg he]
    simp [handleMutate, respond, this, jsonMarshal, emittedPatches]

theorem emittedPatches_split {σ : Type} (listNodes : NodeLister σ) (pod : Pod) (s : σ)
    (i : Nat) (c : Container) (hc : pod.Spec.Containers[i]? = some c) :
    ∃ pre post w, emittedPatches listNodes pod s
        = pre ++ iterBlock listNodes pod i c w ++ post ∧
      ∀ op ∈ pre ++ post, ∃ j c1 w1, j ≠ i ∧ op ∈ iterBlock listNodes pod j c1 w1 := by
  obtain ⟨pre, post, w, hp, hmem⟩ := containerLoop_split listNodes pod pod.Spec.Containers 0
    { patches := [], modified := false, world := s } i c (Nat.zero_le _)
    (by simpa using hc)
  exact ⟨pre, post, w, by simpa [emittedPatches, runLoop] using hp, hmem⟩

theorem emittedPatches_mem {σ : Type} (listNodes : NodeLister σ) (pod : Pod) (s : σ)
    (op : PatchOp) (hop : op ∈ emittedPatches listNodes pod s) :
    ∃ j c w, pod.Spec.Containers[j]? = some c ∧ op ∈ iterBlock listNodes pod j c w := by
  obtain ⟨post, hp, hmem⟩ := containerLoop_patches listNodes pod pod.Spec.Containers 0
    { patches := [], modified := false, world := s }
  have : emittedPatches listNodes pod s = post := by simpa [emittedPatches, runLoop] using hp
  rw [this] at hop
  obtain ⟨j, c, w, _, hc, hin⟩ := hmem op hop
  exact ⟨j, c, w, by simpa using hc, hin⟩

/-! ### Paths -/

theorem sprintfD_data (a b : String) (d : Nat) :
    (sprintfD a d b).data = a.data ++ (Nat.toDigits 10 d ++ b.data) := by
  simp only [sprintfD, String.data_append, List.append_assoc]
  rfl

theorem sprintfDS_eq (a m x : String) (d : Nat) :
    sprintfDS a d m x = sprintfD a d (m ++ x) := by
  simp [sprintfDS, sprintfD, String.append_assoc]

theorem digits_no_slash (n : Nat) : '/' ∉ Nat.toDigits 10 n := by
  intro h
  have := (toDigits_spec n).2.1 _ h
  exact absurd this (by decide)

theorem prefix_until_slash : ∀ (a b r1 r2 : List Char), '/' ∉ a → '/' ∉ b →
    (a ++ '/' :: r1) <+: (b ++ '/' :: r2) → a = b := by
  intro a
  induction a with
  | nil =>
    intro b r1 r2 _ hb h
    cases b with
    | nil => rfl
    | cons c b =>
      simp only [List.nil_append, List.cons_append, List.cons_prefix_cons] at h
      exact absurd (h.1 ▸ List.mem_cons_self _ _) hb
  | cons x a ih =>
    intro b r1 r2 ha hb h
    cases b with
    | nil =>
      simp only [List.nil_append, List.cons_append, List.cons_prefix_cons] at h
      exact absurd (h.1 ▸ List.mem_cons_self _ _) ha
    | cons c b =>
      simp only [List.cons_append, List.cons_prefix_cons] at h
      have := ih b r1 r2 (fun hm => ha (List.mem_cons_of_mem _ hm))
        (fun hm => hb (List.mem_cons_of_mem _ hm)) h.2
      rw [h.1, this]

/-- A path under `/spec/containers/i` followed by `/…` lies under such a prefix
for `j` exactly when the indices agree and the rest does. -/
theorem liesUnder_sprintfD (i j : Nat) (p q : String) (tp tq : List Char)
    (hp : p.data = '/' :: tp) (hq : q.data = '/' :: tq) :
    liesUnder (sprintfD "/spec/containers/" i p) (sprintfD "/spec/containers/" j q) ↔
      i = j ∧ p.data <+: q.data := by
  unfold liesUnder
  rw [sprintfD_data, sprintfD_data, List.prefix_append_right_inj]
  constructor
  · intro h
    have hd : Nat.toDigits 10 i = Nat.toDigits 10 j := by
      rw [hp, hq] at h
      exact prefix_until_slash _ _ _ _ (digits_no_slash i) (digits_no_slash j) h
    rw [hd, List.prefix_append_right_inj] at h
    exact ⟨toDigits_injective hd, h⟩
  · rintro ⟨rfl, h⟩
    rw [List.prefix_append_right_inj]; exact h

theorem not_liesUnder_metadata (i : Nat) (p rest : String) :
    ¬ liesUnder (sprintfD "/spec/containers/" i p) ("/metadata/annotations" ++ rest) := by
  unfold liesUnder
  rw [sprintfD_data]
  simp

theorem liesUnder_trans {a b c : String} (h1 : liesUnder a b) (h2 : liesUnder b c) :
    liesUnder a c := List.IsPrefix.trans h1 h2

theorem containerPrefix_requestsPrefix (i : Nat) :
    liesUnder (containerPrefix i) (requestsPrefix i) := by
  unfold containerPrefix requestsPrefix
  rw [liesUnder_sprintfD i i _ _ [] _ rfl rfl]
  exact ⟨rfl, by decide⟩

theorem containerPrefix_limitsPrefix (i : Nat) :
    liesUnder (containerPrefix i) (limitsPrefix i) := by
  unfold containerPrefix limitsPrefix
  rw [liesUnder_sprintfD i i _ _ [] _ rfl rfl]
  exact ⟨rfl, by decide⟩

/-- Every operation of the block of container `j` whose path lies under
container `i` has `i = j`. -/
theorem block_index {pod : Pod} {i j : Nat} {c : Container} {qty : Quantity} {f : Bool}
    {op : PatchOp} (hop : op ∈ appendFallback pod j c qty f [])
    (hu : liesUnder (containerPrefix i) op.path) : i = j := by
  rw [appendFallback_nil] at hop
  simp only [List.mem_append, List.mem_cons, List.mem_singleton, List.not_mem_nil, or_false,
    limitsOps, annotationOps] at hop
  unfold containerPrefix at hu
  rcases hop with ((h | h) | h) | h
  · rcases h with h | h
    · rw [h] at hu
      exact ((liesUnder_sprintfD i j _ _ [] _ rfl rfl).1 hu).1
    · rw [h, sprintfDS_eq] at hu
      refine ((liesUnder_sprintfD i j _ _ []
        ("resources/requests/".data ++ (if f then "nvidia.com~1mig-1g.10gb"
          else "nvidia.com~1gpu" : String).data) rfl ?_).1 hu).1
      simp only [String.data_append]; rfl
  · cases hl : mapIndex c.Resources.Limits mediumMIG with
    | none => simp [hl] at h
    | some lq =>
      simp only [hl, List.mem_cons, List.mem_singleton, List.not_mem_nil, or_false] at h
      rcases h with h | h
      · rw [h] at hu
        exact ((liesUnder_sprintfD i j _ _ [] _ rfl rfl).1 hu).1
      · rw [h, sprintfDS_eq] at hu
        refine ((liesUnder_sprintfD i j _ _ []
          ("resources/limits/".data ++ (if f then "nvidia.com~1mig-1g.10gb"
            else "nvidia.com~1gpu" : String).data) rfl ?_).1 hu).1
        simp only [String.data_append]; rfl
  · cases ha : pod.Annotations with
    | none =>
      simp only [ha, List.mem_singleton] at h
      rw [h] at hu
      exact absurd hu (by simpa using not_liesUnder_metadata i "/" "")
    | some m => simp [ha] at h
  · rw [h] at hu
    exact absurd hu (not_liesUnder_metadata i "/" "/gpu-webhook.k8s.io~1fallback")

theorem iterBlock_index {σ : Type} {listNodes : NodeLister σ} {pod : Pod} {i j : Nat}
    {c : Container} {w : σ} {op : PatchOp} (hop : op ∈ iterBlock listNodes pod j c w)
    (hu : liesUnder (containerPrefix i) op.path) : i = j := by
  rcases iterBlock_cases listNodes pod j c w with h | ⟨qty, _, _, h⟩
  · rw [h] at hop; simp at hop
  · rw [h] at hop; exact block_index hop hu


/-! ### Selecting the operations of one container -/

theorem filter_emitted {σ : Type} (listNodes : NodeLister σ) (pod : Pod) (s : σ)
    (i : Nat) (c : Container) (hc : pod.Spec.Containers[i]? = some c) :
    ∃ w, ∀ Q : PatchOp → Bool, (∀ op, Q op = true → liesUnder (containerPrefix i) op.path) →
      (emittedPatches listNodes pod s).filter Q = (iterBlock listNodes pod i c w).filter Q := by
  obtain ⟨pre, post, w, hp, hmem⟩ := emittedPatches_split listNodes pod s i c hc
  refine ⟨w, fun Q hQ => ?_⟩
  have hnone : ∀ l : List PatchOp, (∀ op ∈ l, op ∈ pre ++ post) → l.filter Q = [] := by
    intro l hl
    rw [List.filter_eq_nil_iff]
    intro op hop hq
    obtain ⟨j, c1, w1, hne, hin⟩ := hmem op (hl op hop)
    exact hne (iterBlock_index hin (hQ op hq)).symm
  rw [hp, List.filter_append, List.filter_append,
    hnone pre (fun op h => List.mem_append.2 (Or.inl h)),
    hnone post (fun op h => List.mem_append.2 (Or.inr h))]
  simp

theorem filter_emitted_out_of_range {σ : Type} (listNodes : NodeLister σ) (pod : Pod) (s : σ)
    (i : Nat) (hc : pod.Spec.Containers[i]? = none) (op : PatchOp)
    (hop : op ∈ emittedPatches listNodes pod s) : ¬ liesUnder (containerPrefix i) op.path := by
  intro hu
  obtain ⟨j, c, w, hj, hin⟩ := emittedPatches_mem listNodes pod s op hop
  have := iterBlock_index hin hu
  subst this
  rw [hc] at hj; exact absurd hj (by simp)

theorem under_requests_self (i : Nat) (x : String) :
    liesUnder (requestsPrefix i) (sprintfDS "/spec/containers/" i "/resources/requests/" x) := by
  rw [sprintfDS_eq]; unfold requestsPrefix
  rw [liesUnder_sprintfD i i _ _ "resources/requests/".data
    ("resources/requests/".data ++ x.data) rfl (by simp only [String.data_append]; rfl)]
  exact ⟨rfl, by simp⟩

theorem under_limits_self (i : Nat) (x : String) :
    liesUnder (limitsPrefix i) (sprintfDS "/spec/containers/" i "/resources/limits/" x) := by
  rw [sprintfDS_eq]; unfold limitsPrefix
  rw [liesUnder_sprintfD i i _ _ "resources/limits/".data
    ("resources/limits/".data ++ x.data) rfl (by simp only [String.data_append]; rfl)]
  exact ⟨rfl, by simp⟩

theorem not_under_requests_limits (i j : Nat) (x : String) :
    ¬ liesUnder (requestsPrefix i) (sprintfDS "/spec/containers/" j "/resources/limits/" x) := by
  rw [sprintfDS_eq]; unfold requestsPrefix
  rw [liesUnder_sprintfD i j _ _ "resources/requests/".data
    ("resources/limits/".data ++ x.data) rfl (by simp only [String.data_append]; rfl)]
  rintro ⟨_, h⟩
  simp at h

theorem not_under_limits_requests (i j : Nat) (x : String) :
    ¬ liesUnder (limitsPrefix i) (sprintfDS "/spec/containers/" j "/resources/requests/" x) := by
  rw [sprintfDS_eq]; unfold limitsPrefix
  rw [liesUnder_sprintfD i j _ _ "resources/limits/".data
    ("resources/requests/".data ++ x.data) rfl (by simp only [String.data_append]; rfl)]
  rintro ⟨_, h⟩
  simp at h

theorem sprintfD_requests (i : Nat) (x : String) :
    sprintfD "/spec/containers/" i ("/resources/requests/" ++ x)
      = sprintfDS "/spec/containers/" i "/resources/requests/" x := (sprintfDS_eq _ _ _ _).symm

theorem sprintfD_limits (i : Nat) (x : String) :
    sprintfD "/spec/containers/" i ("/resources/limits/" ++ x)
      = sprintfDS "/spec/containers/" i "/resources/limits/" x := (sprintfDS_eq _ _ _ _).symm

theorem removeRequests_eq (i : Nat) :
    sprintfD "/spec/containers/" i "/resources/requests/nvidia.com~1mig-2g.20gb"
      = sprintfDS "/spec/containers/" i "/resources/requests/" "nvidia.com~1mig-2g.20gb" := by
  rw [sprintfDS_eq]; rfl

theorem removeLimits_eq (i : Nat) :
    sprintfD "/spec/containers/" i "/resources/limits/nvidia.com~1mig-2g.20gb"
      = sprintfDS "/spec/containers/" i "/resources/limits/" "nvidia.com~1mig-2g.20gb" := by
  rw [sprintfDS_eq]; rfl

theorem not_under_requests_metadata (i : Nat) (rest : String) :
    ¬ liesUnder (requestsPrefix i) ("/metadata/annotations" ++ rest) :=
  not_liesUnder_metadata i _ rest

theorem not_under_limits_metadata (i : Nat) (rest : String) :
    ¬ liesUnder (limitsPrefix i) ("/metadata/annotations" ++ rest) :=
  not_liesUnder_metadata i _ rest

/-! ### The block of one substituted container -/

theorem sprintfD_ne_metadata (i : Nat) (x rest : String) :
    sprintfD "/spec/containers/" i x ≠ "/metadata/annotations" ++ rest := by
  intro h
  have hd := congrArg String.data h
  rw [sprintfD_data] at hd
  simp at hd

theorem sprintfDS_ne_metadata (i : Nat) (m x rest : String) :
    sprintfDS "/spec/containers/" i m x ≠ "/metadata/annotations" ++ rest := by
  rw [sprintfDS_eq]; exact sprintfD_ne_metadata i _ rest

theorem not_under_requests_annotations (i : Nat) :
    ¬ liesUnder (requestsPrefix i) "/metadata/annotations" :=
  not_liesUnder_metadata i _ ""

theorem not_under_requests_provenance (i : Nat) :
    ¬ liesUnder (requestsPrefix i) "/metadata/annotations/gpu-webhook.k8s.io~1fallback" :=
  not_liesUnder_metadata i _ "/gpu-webhook.k8s.io~1fallback"

theorem not_under_limits_annotations (i : Nat) :
    ¬ liesUnder (limitsPrefix i) "/metadata/annotations" :=
  not_liesUnder_metadata i _ ""

theorem not_under_limits_provenance (i : Nat) :
    ¬ liesUnder (limitsPrefix i) "/metadata/annotations/gpu-webhook.k8s.io~1fallback" :=
  not_liesUnder_metadata i _ "/gpu-webhook.k8s.io~1fallback"

theorem block_provenance {pod : Pod} {j : Nat} {c : Container} {qty : Quantity} {f : Bool}
    {op : PatchOp} (hop : op ∈ appendFallback pod j c qty f [])
    (hp : op.path = provenancePath) :
    op = { op := "add", path := provenancePath,
           value := some (PatchValue.str (if f then labelSmall else labelGPU)) } := by
  rw [appendFallback_nil] at hop
  simp only [List.mem_append, List.mem_cons, List.mem_singleton, List.not_mem_nil, or_false,
    limitsOps, annotationOps] at hop
  rcases hop with ((h | h) | h) | h
  · rcases h with h | h
    · rw [h] at hp
      exact absurd hp (sprintfD_ne_metadata j _ "/gpu-webhook.k8s.io~1fallback")
    · rw [h] at hp
      exact absurd hp (sprintfDS_ne_metadata j _ _ "/gpu-webhook.k8s.io~1fallback")
  · cases hl : mapIndex c.Resources.Limits mediumMIG with
    | none => simp [hl] at h
    | some lq =>
      simp only [hl, List.mem_cons, List.mem_singleton, List.not_mem_nil, or_false] at h
      rcases h with h | h
      · rw [h] at hp
        exact absurd hp (sprintfD_ne_metadata j _ "/gpu-webhook.k8s.io~1fallback")
      · rw [h] at hp
        exact absurd hp (sprintfDS_ne_metadata j _ _ "/gpu-webhook.k8s.io~1fallback")
  · cases ha : pod.Annotations with
    | none =>
      simp only [ha, List.mem_singleton] at h
      rw [h] at hp
      exact absurd hp (by decide)
    | some m => simp [ha] at h
  · rw [h]; rfl

theorem limitsOps_no_provenance (i : Nat) (c : Container) (esc : String) :
    ∀ op ∈ limitsOps i c esc, op.path ≠ provenancePath := by
  intro op hop
  unfold limitsOps at hop
  cases hl : mapIndex c.Resources.Limits mediumMIG with
  | none => simp [hl] at hop
  | some lq =>
    simp only [hl, List.mem_cons, List.mem_singleton, List.not_mem_nil, or_false] at hop
    rcases hop with h | h
    · rw [h]; exact sprintfD_ne_metadata i _ "/gpu-webhook.k8s.io~1fallback"
    · rw [h]; exact sprintfDS_ne_metadata i _ _ "/gpu-webhook.k8s.io~1fallback"

theorem annotationOps_no_provenance (pod : Pod) :
    ∀ op ∈ annotationOps pod, op.path ≠ provenancePath := by
  intro op hop
  unfold annotationOps at hop
  cases ha : pod.Annotations with
  | none =>
    simp only [ha, List.mem_singleton] at hop
    rw [hop]; decide
  | some m => simp [ha] at hop

theorem filter_requests_adds_block (pod : Pod) (i : Nat) (c : Container) (qty : Quantity)
    (f : Bool) :
    (appendFallback pod i c qty f []).filter
        (fun op => decide (op.op = "add" ∧ liesUnder (requestsPrefix i) op.path))
      = [{ op := "add",
           path := sprintfDS "/spec/containers/" i "/resources/requests/"
             (if f then "nvidia.com~1mig-1g.10gb" else "nvidia.com~1gpu"),
           value := some (PatchValue.str qty.String) }] := by
  rw [appendFallback_nil]
  unfold limitsOps annotationOps
  cases hl : mapIndex c.Resources.Limits mediumMIG <;> cases ha : pod.Annotations <;>
    simp [List.filter_cons, under_requests_self, not_under_requests_limits,
      not_under_requests_annotations, not_under_requests_provenance]

theorem filter_limits_block (pod : Pod) (i : Nat) (c : Container) (qty : Quantity)
    (f : Bool) :
    (appendFallback pod i c qty f []).filter
        (fun op => decide (liesUnder (limitsPrefix i) op.path))
      = limitsOps i c (if f then "nvidia.com~1mig-1g.10gb" else "nvidia.com~1gpu") := by
  rw [appendFallback_nil]
  unfold limitsOps annotationOps
  cases hl : mapIndex c.Resources.Limits mediumMIG <;> cases ha : pod.Annotations <;>
    simp [List.filter_cons, under_limits_self, not_under_limits_requests, removeRequests_eq,
      removeLimits_eq, not_under_limits_annotations, not_under_limits_provenance]

/-- The substitution of one container when every query answers the same way:
medium-MIG unavailable and small-MIG available or not as `f` says. -/
theorem rung_fallback {σ : Type} (listNodes : NodeLister σ) (pod : Pod) (s : σ) (i : Nat)
    (c : Container) (qty : Quantity) (f : Bool)
    (hc : pod.Spec.Containers[i]? = some c) (hq : requestsMedium c qty)
    (hmed : ∀ w, (checkMIGAvailability listNodes mediumMIG w).1.1 = false)
    (hsmall : ∀ w, (checkMIGAvailability listNodes smallMIG w).1.1 = f) :
    (emittedPatches listNodes pod s).filter
        (fun op => decide (op.op = "add" ∧ liesUnder (requestsPrefix i) op.path))
      = [{ op := "add",
           path := sprintfDS "/spec/containers/" i "/resources/requests/"
             (if f then "nvidia.com~1mig-1g.10gb" else "nvidia.com~1gpu"),
           value := some (PatchValue.str qty.String) }] ∧
    (∃ pre mid post, emittedPatches listNodes pod s =
        pre ++ ([{ op := "remove",
                   path := sprintfD "/spec/containers/" i
                     "/resources/requests/nvidia.com~1mig-2g.20gb",
                   value := none },
                 { op := "add",
                   path := sprintfDS "/spec/containers/" i "/resources/requests/"
                     (if f then "nvidia.com~1mig-1g.10gb" else "nvidia.com~1gpu"),
                   value := some (PatchValue.str qty.String) }]
          ++ mid
          ++ [{ op := "add", path := provenancePath,
                value := some (PatchValue.str (if f then labelSmall else labelGPU)) }])
        ++ post ∧
      ∀ op ∈ mid, op.path ≠ provenancePath) ∧
    (∀ op ∈ emittedPatches listNodes pod s, op.path = provenancePath →
      op = { op := "add", path := provenancePath,
             value := some (PatchValue.str (if f then labelSmall else labelGPU)) }) := by
  refine ⟨?_, ?_, ?_⟩
  · obtain ⟨w, hw⟩ := filter_emitted listNodes pod s i c hc
    rw [hw _ (fun op h => liesUnder_trans (containerPrefix_requestsPrefix i)
      (of_decide_eq_true h).2)]
    rw [iterBlock_of_substituted listNodes pod i c w qty hq (hmed w), hsmall]
    exact filter_requests_adds_block pod i c qty f
  · obtain ⟨pre, post, w, hp, _⟩ := emittedPatches_split listNodes pod s i c hc
    rw [iterBlock_of_substituted listNodes pod i c w qty hq (hmed w), hsmall,
      appendFallback_nil] at hp
    refine ⟨pre, limitsOps i c (if f then "nvidia.com~1mig-1g.10gb" else "nvidia.com~1gpu")
      ++ annotationOps pod, post, ?_, ?_⟩
    · rw [hp]; simp [provenancePath]
    · intro op hop
      rcases List.mem_append.1 hop with h | h
      · exact limitsOps_no_provenance _ _ _ op h
      · exact annotationOps_no_provenance _ op h
  · intro op hop hpath
    obtain ⟨j, c1, w, _, hin⟩ := emittedPatches_mem listNodes pod s op hop
    rcases iterBlock_cases listNodes pod j c1 w with h | ⟨q1, _, _, h⟩
    · rw [h] at hin; simp at hin
    · rw [h, hsmall] at hin
      exact block_provenance hin hpath

theorem substituted_block {σ : Type} (listNodes : NodeLister σ) (pod : Pod) (s : σ) (i : Nat)
    (c : Container) (hc : pod.Spec.Containers[i]? = some c)
    (hsub : substituted listNodes pod s i) :
    ∃ qty f, requestsMedium c qty ∧
      ∀ Q : PatchOp → Bool, (∀ op, Q op = true → liesUnder (containerPrefix i) op.path) →
        (emittedPatches listNodes pod s).filter Q
          = (appendFallback pod i c qty f []).filter Q := by
  obtain ⟨w, hw⟩ := filter_emitted listNodes pod s i c hc
  obtain ⟨op, hop, hu⟩ := hsub
  have hmem : op ∈ (emittedPatches listNodes pod s).filter
      (fun o => decide (liesUnder (containerPrefix i) o.path)) :=
    List.mem_filter.2 ⟨hop, decide_eq_true hu⟩
  rw [hw _ (fun o h => of_decide_eq_true h)] at hmem
  rcases iterBlock_cases listNodes pod i c w with h | ⟨qty, hq, _, h⟩
  · rw [h] at hmem; simp at hmem
  · exact ⟨qty, _, hq, fun Q hQ => by rw [hw Q hQ, h]⟩

theorem filter_limits_adds_block (pod : Pod) (i : Nat) (c : Container) (qty : Quantity)
    (f : Bool) :
    (appendFallback pod i c qty f []).filter
        (fun op => decide (op.op = "add" ∧ liesUnder (limitsPrefix i) op.path))
      = match mapIndex c.Resources.Limits mediumMIG with
        | none => []
        | some limitQty =>
          [{ op := "add",
             path := sprintfDS "/spec/containers/" i "/resources/limits/"
               (if f then "nvidia.com~1mig-1g.10gb" else "nvidia.com~1gpu"),
             value := some (PatchValue.str limitQty.String) }] := by
  rw [appendFallback_nil]
  unfold limitsOps annotationOps
  cases hl : mapIndex c.Resources.Limits mediumMIG <;> cases ha : pod.Annotations <;>
    simp [List.filter_cons, under_limits_self, not_under_limits_requests, removeRequests_eq,
      removeLimits_eq, not_under_limits_annotations, not_under_limits_provenance]

/-! ### JSON Pointer resolution of the emitted paths -/

theorem splitSlash_ne_nil (l : List Char) : splitSlash l ≠ [] := by
  cases l with
  | nil => simp [splitSlash]
  | cons c cs =>
    unfold splitSlash
    by_cases h : c = '/'
    · simp [h]
    · simp only [h, if_false]
      cases splitSlash cs <;> simp

theorem splitSlash_no_slash (a : List Char) (ha : '/' ∉ a) : splitSlash a = [a] := by
  induction a with
  | nil => rfl
  | cons c a ih =>
    have hc : c ≠ '/' := fun h => ha (h ▸ List.mem_cons_self _ _)
    have := ih (fun hm => ha (List.mem_cons_of_mem _ hm))
    simp [splitSlash, hc, this]

theorem splitSlash_append_slash (a b : List Char) (ha : '/' ∉ a) :
    splitSlash (a ++ '/' :: b) = a :: splitSlash b := by
  induction a with
  | nil => simp [splitSlash]
  | cons c a ih =>
    have hc : c ≠ '/' := fun h => ha (h ▸ List.mem_cons_self _ _)
    have := ih (fun hm => ha (List.mem_cons_of_mem _ hm))
    simp [splitSlash, hc, this]

theorem replacePair_of_not_mem (a b r : Char) : ∀ (l : List Char), a ∉ l →
    replacePair a b r l = l := by
  intro l
  induction l with
  | nil => intro _; rfl
  | cons x l ih =>
    intro h
    have hx : x ≠ a := fun e => h (e ▸ List.mem_cons_self _ _)
    have hl := ih (fun hm => h (List.mem_cons_of_mem _ hm))
    cases l with
    | nil => rfl
    | cons y cs =>
      simp only [replacePair, hx, false_and, if_false]
      rw [hl]

theorem digits_no_tilde (n : Nat) : '~' ∉ Nat.toDigits 10 n := by
  intro h
  have := (toDigits_spec n).2.1 _ h
  exact absurd this (by decide)

theorem unescapeToken_digits (n : Nat) :
    unescapeToken (Nat.toDigits 10 n) = Nat.toDigits 10 n := by
  unfold unescapeToken
  rw [replacePair_of_not_mem _ _ _ _ (digits_no_tilde n),
    replacePair_of_not_mem _ _ _ _ (digits_no_tilde n)]

theorem parseIndex_toString (n : Nat) : parseIndex (toString n) = some n := by
  have hs := toDigits_spec n
  have hdata : (toString n).data = Nat.toDigits 10 n := rfl
  unfold parseIndex
  rw [hdata]
  cases hd : Nat.toDigits 10 n with
  | nil => exact absurd hd hs.2.2.1
  | cons c cs =>
    rw [hd] at hs
    have hall : (c :: cs).all Char.isDigit = true := by
      rw [List.all_eq_true]; exact hs.2.1
    have hzero : c = '0' → cs = [] := by
      intro hc
      by_cases hn : n = 0
      · subst hn
        have : Nat.toDigits 10 0 = ['0'] := by decide
        rw [this] at hd
        simp at hd
        exact hd.2
      · have := hs.2.2.2 hn
        simp [hc] at this
    simp only [hall, true_and]
    rw [if_pos hzero, hs.1]

/-- The tokens of a path into the resources of container `i`. -/
theorem pointerTokens_resource (i : Nat) (sec x : String) (hsec : '/' ∉ sec.data)
    (hx : '/' ∉ x.data) :
    pointerTokens (sprintfDS "/spec/containers/" i ("/resources/" ++ sec ++ "/") x)
      = some ["spec", "containers", toString i, "resources",
          String.mk (unescapeToken sec.data), String.mk (unescapeToken x.data)] := by
  have hdata : (sprintfDS "/spec/containers/" i ("/resources/" ++ sec ++ "/") x).data
      = '/' :: ("spec".data ++ '/' :: ("containers".data ++ '/' :: (Nat.toDigits 10 i ++
          '/' :: ("resources".data ++ '/' :: (sec.data ++ '/' :: x.data))))) := by
    rw [sprintfDS_eq, sprintfD_data]
    simp [String.data_append]
  unfold pointerTokens
  rw [hdata]
  simp only [if_true]
  rw [splitSlash_append_slash _ _ (by decide), splitSlash_append_slash _ _ (by decide),
    splitSlash_append_slash _ _ (digits_no_slash i), splitSlash_append_slash _ _ (by decide),
    splitSlash_append_slash _ _ hsec, splitSlash_no_slash _ hx]
  simp only [List.map, unescapeToken_digits]
  rfl

theorem pointerTokens_requests (i : Nat) (x : String) (hx : '/' ∉ x.data) :
    pointerTokens (sprintfDS "/spec/containers/" i "/resources/requests/" x)
      = some ["spec", "containers", toString i, "resources", "requests",
          String.mk (unescapeToken x.data)] :=
  pointerTokens_resource i "requests" x (by decide) hx

theorem pointerTokens_limits (i : Nat) (x : String) (hx : '/' ∉ x.data) :
    pointerTokens (sprintfDS "/spec/containers/" i "/resources/limits/" x)
      = some ["spec", "containers", toString i, "resources", "limits",
          String.mk (unescapeToken x.data)] :=
  pointerTokens_resource i "limits" x (by decide) hx

/-! ### Applying the block of one container -/

theorem applyPatch_append (l1 l2 : List PatchOp) : ∀ doc : PodDoc,
    applyPatch doc (l1 ++ l2) = (applyPatch doc l1).bind (fun d => applyPatch d l2) := by
  induction l1 with
  | nil => intro doc; simp [applyPatch]
  | cons op l1 ih =>
    intro doc
    simp only [List.cons_append, applyPatch]
    cases applyOp doc op with
    | none => simp
    | some d => simp [ih]

theorem lookup_render (kvs : ResourceList) (k : String) :
    (kvs.map (fun e => (e.1, e.2.String))).lookup k = (kvs.lookup k).map Quantity.String := by
  induction kvs with
  | nil => rfl
  | cons e kvs ih =>
    simp only [List.map, List.lookup]
    cases h : (k == e.1) <;> simp [ih]

theorem mapIndex_render (m : Option ResourceList) (k : String) :
    mapIndex (renderResources m) k = (mapIndex m k).map Quantity.String := by
  cases m with
  | none => rfl
  | some kvs => simp [mapIndex, renderResources, lookup_render]

theorem applyOp_requests (doc : PodDoc) (i : Nat) (cd : ContainerDoc)
    (m : List (String × String)) (o x : String) (v : Option PatchValue)
    (hc : doc.containers[i]? = some cd) (hm : cd.requests = some m) (hx : '/' ∉ x.data) :
    applyOp doc ⟨o, sprintfDS "/spec/containers/" i "/resources/requests/" x, v⟩
      = (applyToObject ⟨o, sprintfDS "/spec/containers/" i "/resources/requests/" x, v⟩
          (String.mk (unescapeToken x.data)) m).map
        (fun m1 => { doc with containers := doc.containers.set i { cd with requests := some m1 } }) := by
  unfold applyOp
  simp only [pointerTokens_requests i x hx]
  simp [parseIndex_toString, hc, hm]

theorem applyOp_limits (doc : PodDoc) (i : Nat) (cd : ContainerDoc)
    (m : List (String × String)) (o x : String) (v : Option PatchValue)
    (hc : doc.containers[i]? = some cd) (hm : cd.limits = some m) (hx : '/' ∉ x.data) :
    applyOp doc ⟨o, sprintfDS "/spec/containers/" i "/resources/limits/" x, v⟩
      = (applyToObject ⟨o, sprintfDS "/spec/containers/" i "/resources/limits/" x, v⟩
          (String.mk (unescapeToken x.data)) m).map
        (fun m1 => { doc with containers := doc.containers.set i { cd with limits := some m1 } }) := by
  unfold applyOp
  simp only [pointerTokens_limits i x hx]
  simp [parseIndex_toString, hc, hm]

theorem fallbackEscaped_spec (f : Bool) :
    '/' ∉ (fallbackEscaped f).data ∧
      String.mk (unescapeToken (fallbackEscaped f).data) = fallbackKey f := by
  cases f <;> exact ⟨by decide, by decide⟩

/-- The pair of operations on one object of a container: delete the
medium-MIG member, set the replacement. -/
theorem apply_requests_pair (doc : PodDoc) (i : Nat) (cd : ContainerDoc)
    (m : List (String × String)) (f : Bool) (v : String)
    (hc : doc.containers[i]? = some cd) (hm : cd.requests = some m)
    (hk : (m.lookup "nvidia.com/mig-2g.20gb").isSome = true) :
    applyPatch doc
        [⟨"remove", sprintfD "/spec/containers/" i
            "/resources/requests/nvidia.com~1mig-2g.20gb", none⟩,
         ⟨"add", sprintfDS "/spec/containers/" i "/resources/requests/" (fallbackEscaped f),
            some (PatchValue.str v)⟩]
      = some { doc with containers :=
          doc.containers.set i { cd with requests := some (substituteObject m f v) } } := by
  have hlt : i < doc.containers.length := (List.getElem?_eq_some_iff.1 hc).1
  have hesc := fallbackEscaped_spec f
  rw [removeRequests_eq]
  simp only [applyPatch]
  rw [applyOp_requests doc i cd m _ _ _ hc hm (by decide)]
  have hun : String.mk (unescapeToken "nvidia.com~1mig-2g.20gb".data)
      = "nvidia.com/mig-2g.20gb" := by decide
  simp only [applyToObject, hun, hk, if_true,
    show ("remove" : String) = "add" ↔ False from by decide, if_false, Option.map_some']
  rw [applyOp_requests _ i { cd with requests := some (eraseKey m "nvidia.com/mig-2g.20gb") }
    (eraseKey m "nvidia.com/mig-2g.20gb") _ _ _ (by simp [hlt]) rfl hesc.1]
  simp [applyToObject, hesc.2, substituteObject, List.set_set]

theorem apply_limits_pair (doc : PodDoc) (i : Nat) (cd : ContainerDoc)
    (m : List (String × String)) (f : Bool) (v : String)
    (hc : doc.containers[i]? = some cd) (hm : cd.limits = some m)
    (hk : (m.lookup "nvidia.com/mig-2g.20gb").isSome = true) :
    applyPatch doc
        [⟨"remove", sprintfD "/spec/containers/" i
            "/resources/limits/nvidia.com~1mig-2g.20gb", none⟩,
         ⟨"add", sprintfDS "/spec/containers/" i "/resources/limits/" (fallbackEscaped f),
            some (PatchValue.str v)⟩]
      = some { doc with containers :=
          doc.containers.set i { cd with limits := some (substituteObject m f v) } } := by
  have hlt : i < doc.containers.length := (List.getElem?_eq_some_iff.1 hc).1
  have hesc := fallbackEscaped_spec f
  rw [removeLimits_eq]
  simp only [applyPatch]
  rw [applyOp_limits doc i cd m _ _ _ hc hm (by decide)]
  have hun : String.mk (unescapeToken "nvidia.com~1mig-2g.20gb".data)
      = "nvidia.com/mig-2g.20gb" := by decide
  simp only [applyToObject, hun, hk, if_true,
    show ("remove" : String) = "add" ↔ False from by decide, if_false, Option.map_some']
  rw [applyOp_limits _ i { cd with limits := some (eraseKey m "nvidia.com/mig-2g.20gb") }
    (eraseKey m "nvidia.com/mig-2g.20gb") _ _ _ (by simp [hlt]) rfl hesc.1]
  simp [applyToObject, hesc.2, substituteObject, List.set_set]

theorem apply_annotation_ops (pod : Pod) (doc : PodDoc) (f : Bool)
    (hann : pod.Annotations.isSome = true → doc.annotations.isSome = true) :
    applyPatch doc (annotationOps pod ++
        [⟨"add", "/metadata/annotations/gpu-webhook.k8s.io~1fallback",
          some (PatchValue.str (fallbackLabel f))⟩])
      = some ⟨some (setKey (annotationBase pod doc) "gpu-webhook.k8s.io/fallback"
          (fallbackLabel f)), doc.containers⟩ := by
  have h1 : pointerTokens "/metadata/annotations" = some ["metadata", "annotations"] := by
    decide
  have h2 : pointerTokens "/metadata/annotations/gpu-webhook.k8s.io~1fallback"
      = some ["metadata", "annotations", "gpu-webhook.k8s.io/fallback"] := by decide
  unfold annotationOps annotationBase
  cases ha : pod.Annotations with
  | none =>
    simp [applyPatch, applyOp, h1, h2, applyToObject]
  | some a =>
    have hs := hann (by simp [ha])
    cases hd : doc.annotations with
    | none => rw [hd] at hs; exact absurd hs (by decide)
    | some m =>
      simp [applyPatch, applyOp, h2, applyToObject, hd]

theorem apply_limits_ops (doc : PodDoc) (i : Nat) (c : Container) (qty : Quantity) (f : Bool)
    (hlt : i < doc.containers.length) :
    applyPatch
        ⟨doc.annotations, doc.containers.set i
          ⟨c.toDoc.limits, (renderResources c.Resources.Requests).map
            (fun m => substituteObject m f qty.String)⟩⟩
        (limitsOps i c (fallbackEscaped f))
      = some ⟨doc.annotations, doc.containers.set i (substitutedDoc c qty f)⟩ := by
  unfold limitsOps substitutedDoc
  cases hl : mapIndex c.Resources.Limits mediumMIG with
  | none => simp [applyPatch, Container.toDoc]
  | some lq =>
    cases hL : c.Resources.Limits with
    | none => simp [mapIndex, hL] at hl
    | some limits =>
      have hk : ((limits.map (fun e => (e.1, e.2.String))).lookup
          "nvidia.com/mig-2g.20gb").isSome = true := by
        rw [lookup_render]
        simp only [mapIndex, hL, mediumMIG] at hl
        simp [hl]
      simp only []
      rw [apply_limits_pair _ i
        ⟨c.toDoc.limits, (renderResources c.Resources.Requests).map
          (fun m => substituteObject m f qty.String)⟩
        (limits.map (fun e => (e.1, e.2.String))) f lq.String
        (List.getElem?_set_self hlt) (by simp [Container.toDoc, renderResources, hL]) hk]
      simp [List.set_set, renderResources, hL]

/-- The block of a substituted container applies, and gives `afterBlock`. -/
theorem apply_block (pod : Pod) (doc : PodDoc) (i : Nat) (c : Container) (qty : Quantity)
    (f : Bool) (hc : doc.containers[i]? = some c.toDoc) (hq : requestsMedium c qty)
    (hann : pod.Annotations.isSome = true → doc.annotations.isSome = true) :
    applyPatch doc (appendFallback pod i c qty f []) = some (afterBlock pod doc i c qty f) := by
  have hlt : i < doc.containers.length := (List.getElem?_eq_some_iff.1 hc).1
  obtain ⟨hq1, _⟩ := hq
  cases hR : c.Resources.Requests with
  | none => simp [mapIndex, hR] at hq1
  | some requests =>
    have hk : ((requests.map (fun e => (e.1, e.2.String))).lookup
        "nvidia.com/mig-2g.20gb").isSome = true := by
      rw [lookup_render]
      simp only [mapIndex, hR, mediumMIG] at hq1
      simp [hq1]
    have hlab : (if f then labelSmall else labelGPU) = fallbackLabel f := by
      cases f <;> rfl
    rw [appendFallback_nil, hlab, List.append_assoc, List.append_assoc, applyPatch_append]
    have hpair := apply_requests_pair doc i c.toDoc (requests.map (fun e => (e.1, e.2.String)))
      f qty.String hc (by simp [Container.toDoc, renderResources, hR]) hk
    have hesc : (if f then "nvidia.com~1mig-1g.10gb" else "nvidia.com~1gpu" : String)
        = fallbackEscaped f := rfl
    rw [hesc, hpair, Option.some_bind, applyPatch_append]
    have hlim := apply_limits_ops doc i c qty f hlt
    simp only [renderResources, hR, Option.map_some'] at hlim
    rw [hlim, Option.some_bind,
      apply_annotation_ops pod ⟨doc.annotations, doc.containers.set i (substitutedDoc c qty f)⟩
        f hann]
    rfl

/-! ### The patch list as a sequence of blocks, and its application -/

theorem worldsFrom_length {σ : Type} (listNodes : NodeLister σ) (pod : Pod)
    (cs : List Container) : ∀ (idx : Nat) (w : σ),
    (worldsFrom listNodes pod idx cs w).length = cs.length := by
  induction cs with
  | nil => intro idx w; rfl
  | cons c cs ih => intro idx w; simp [worldsFrom, ih]

theorem containerLoop_blocks {σ : Type} (listNodes : NodeLister σ) (pod : Pod)
    (cs : List Container) : ∀ (idx : Nat) (st : LoopState σ),
    (containerLoop (checkMIGAvailability listNodes) pod idx cs st).patches
      = st.patches ++ blocksFrom listNodes pod idx cs (worldsFrom listNodes pod idx cs st.world) := by
  induction cs with
  | nil => intro idx st; simp [containerLoop, blocksFrom]
  | cons c cs ih =>
    intro idx st
    simp only [containerLoop, worldsFrom, blocksFrom]
    rw [ih, loopBody_patches, loopBody_world, List.append_assoc]

theorem emittedPatches_blocks {σ : Type} (listNodes : NodeLister σ) (pod : Pod) (s : σ) :
    emittedPatches listNodes pod s
      = blocksFrom listNodes pod 0 pod.Spec.Containers
          (worldsFrom listNodes pod 0 pod.Spec.Containers s) := by
  unfold emittedPatches runLoop
  rw [containerLoop_blocks]; rfl

theorem blocksFrom_mem {σ : Type} (listNodes : NodeLister σ) (pod : Pod)
    (cs : List Container) : ∀ (idx : Nat) (ws : List σ) (op : PatchOp),
    op ∈ blocksFrom listNodes pod idx cs ws →
    ∃ k c w, cs[k]? = some c ∧ ws[k]? = some w ∧
      op ∈ iterBlock listNodes pod (idx + k) c w := by
  induction cs with
  | nil => intro idx ws op h; simp [blocksFrom] at h
  | cons c cs ih =>
    intro idx ws op h
    cases ws with
    | nil => simp [blocksFrom] at h
    | cons w ws =>
      simp only [blocksFrom, List.mem_append] at h
      rcases h with h | h
      · exact ⟨0, c, w, by simp, by simp, h⟩
      · obtain ⟨k, c1, w1, h1, h2, h3⟩ := ih (idx + 1) ws op h
        refine ⟨k + 1, c1, w1, by simpa using h1, by simpa using h2, ?_⟩
        have : idx + (k + 1) = idx + 1 + k := by omega
        rw [this]; exact h3

theorem blocksFrom_filter {σ : Type} (listNodes : NodeLister σ) (pod : Pod)
    (cs : List Container) : ∀ (idx : Nat) (ws : List σ) (k : Nat) (c : Container) (w : σ),
    cs[k]? = some c → ws[k]? = some w →
    ∀ Q : PatchOp → Bool,
      (∀ op, Q op = true → liesUnder (containerPrefix (idx + k)) op.path) →
      (blocksFrom listNodes pod idx cs ws).filter Q
        = (iterBlock listNodes pod (idx + k) c w).filter Q := by
  induction cs with
  | nil => intro idx ws k c w h; simp at h
  | cons c0 cs ih =>
    intro idx ws k c w hc hw Q hQ
    cases ws with
    | nil => simp at hw
    | cons w0 ws =>
      simp only [blocksFrom, List.filter_append]
      cases k with
      | zero =>
        simp at hc hw
        subst hc; subst hw
        have : (blocksFrom listNodes pod (idx + 1) cs ws).filter Q = [] := by
          rw [List.filter_eq_nil_iff]
          intro op hop hq
          obtain ⟨k, c1, w1, _, _, hin⟩ := blocksFrom_mem listNodes pod cs (idx + 1) ws op hop
          have := iterBlock_index hin (hQ op hq)
          omega
        rw [this]; simp
      | succ k =>
        have hidx : idx + (k + 1) = idx + 1 + k := by omega
        have : (iterBlock listNodes pod idx c0 w0).filter Q = [] := by
          rw [List.filter_eq_nil_iff]
          intro op hop hq
          have := iterBlock_index hop (hQ op hq)
          omega
        rw [this, List.nil_append, hidx]
        exact ih (idx + 1) ws k c w (by simpa using hc) (by simpa using hw) Q
          (fun op h => hidx ▸ hQ op h)

theorem lookup_eraseKey_self (m : List (String × String)) (k : String) :
    (eraseKey m k).lookup k = none := by
  induction m with
  | nil => rfl
  | cons e m ih =>
    unfold eraseKey at ih ⊢
    by_cases h : e.1 = k
    · simp [List.filter_cons, h, ih]
    · have hk : (k == e.1) = false := by simpa using fun h1 => h h1.symm
      simp [List.filter_cons, h, List.lookup, hk, ih]

theorem lookup_eraseKey_ne (m : List (String × String)) (k k1 : String) (hne : k1 ≠ k) :
    (eraseKey m k).lookup k1 = m.lookup k1 := by
  induction m with
  | nil => rfl
  | cons e m ih =>
    unfold eraseKey at ih ⊢
    by_cases h : e.1 = k
    · have hk : (k1 == e.1) = false := by simpa [h] using hne
      rw [h] at hk
      simp [List.filter_cons, h, List.lookup, hk, ih]
    · simp only [List.filter_cons, bne_iff_ne, ne_eq, h, not_false_eq_true, decide_True,
        if_true, List.lookup]
      cases hk : (k1 == e.1) <;> simp [ih]

theorem lookup_setKey_self (m : List (String × String)) (k v : String) :
    (setKey m k v).lookup k = some v := by
  simp [setKey, List.lookup]

theorem lookup_setKey_ne (m : List (String × String)) (k v k1 : String) (hne : k1 ≠ k) :
    (setKey m k v).lookup k1 = m.lookup k1 := by
  have hk : (k1 == k) = false := by simpa using hne
  simp [setKey, List.lookup, hk, lookup_eraseKey_ne m k k1 hne]

theorem appendFallback_ne_nil (pod : Pod) (i : Nat) (c : Container) (qty : Quantity) (f : Bool) :
    appendFallback pod i c qty f [] ≠ [] := by
  rw [appendFallback_nil]; simp

theorem provenance_mem_block (pod : Pod) (i : Nat) (c : Container) (qty : Quantity) (f : Bool) :
    (⟨"add", provenancePath, some (PatchValue.str (fallbackLabel f))⟩ : PatchOp)
      ∈ appendFallback pod i c qty f [] := by
  rw [appendFallback_nil]
  have : (if f then labelSmall else labelGPU) = fallbackLabel f := by cases f <;> rfl
  rw [this]
  exact List.mem_append.2 (Or.inr (List.mem_singleton.2 rfl))

theorem appendFallback_rung (pod : Pod) (i : Nat) (c : Container) (qty q1 : Quantity)
    (f f1 : Bool) (h : appendFallback pod i c qty f [] = appendFallback pod i c q1 f1 []) :
    f = f1 := by
  have hm := provenance_mem_block pod i c qty f
  rw [h] at hm
  have := block_provenance hm rfl
  cases f <;> cases f1 <;> first | rfl | (exact absurd this (by decide))

theorem requestsMedium_unique {c : Container} {q1 q2 : Quantity} (h1 : requestsMedium c q1)
    (h2 : requestsMedium c q2) : q1 = q2 :=
  Option.some.inj (h1.1.symm.trans h2.1)

theorem afterBlock_annotation (pod : Pod) (doc : PodDoc) (i : Nat) (c : Container)
    (qty : Quantity) (f : Bool)
    (hframe : pod.Annotations = none → ∀ key, key ≠ fallbackAnnotation →
      mapIndex doc.annotations key = none)
    (hann : pod.Annotations.isSome = true → doc.annotations.isSome = true) :
    mapIndex (afterBlock pod doc i c qty f).annotations fallbackAnnotation
        = some (fallbackLabel f) ∧
      ∀ key, key ≠ fallbackAnnotation →
        mapIndex (afterBlock pod doc i c qty f).annotations key
          = mapIndex doc.annotations key := by
  constructor
  · simp only [afterBlock, mapIndex, fallbackAnnotation]
    exact lookup_setKey_self _ _ _
  · intro key hkey
    simp only [afterBlock, mapIndex]
    rw [lookup_setKey_ne (annotationBase pod doc) "gpu-webhook.k8s.io/fallback"
      (fallbackLabel f) key hkey]
    unfold annotationBase
    cases ha : pod.Annotations with
    | none =>
      have := hframe ha key hkey
      simp only [mapIndex] at this
      simp [this]
    | some a =>
      have hs := hann (by simp [ha])
      cases hd : doc.annotations with
      | none => rw [hd] at hs; exact absurd hs (by decide)
      | some m => simp

/-- The blocks of a run apply one after the other to a document whose
containers from `idx` on are still the original ones. -/
theorem apply_blocks {σ : Type} (listNodes : NodeLister σ) (pod : Pod) (cs : List Container) :
    ∀ (idx : Nat) (ws : List σ) (doc : PodDoc),
    ws.length = cs.length →
    (∀ k c, cs[k]? = some c → doc.containers[idx + k]? = some c.toDoc) →
    (pod.Annotations.isSome = true → doc.annotations.isSome = true) →
    (pod.Annotations = none → ∀ key, key ≠ fallbackAnnotation →
      mapIndex doc.annotations key = none) →
    ∃ doc1, applyPatch doc (blocksFrom listNodes pod idx cs ws) = some doc1 ∧
      doc1.containers.length = doc.containers.length ∧
      (∀ j, j < idx → doc1.containers[j]? = doc.containers[j]?) ∧
      (∀ k c w, cs[k]? = some c → ws[k]? = some w →
        (iterBlock listNodes pod (idx + k) c w = [] →
          doc1.containers[idx + k]? = some c.toDoc) ∧
        (∀ qty f, requestsMedium c qty →
          iterBlock listNodes pod (idx + k) c w = appendFallback pod (idx + k) c qty f [] →
          doc1.containers[idx + k]? = some (substitutedDoc c qty f))) ∧
      (blocksFrom listNodes pod idx cs ws = [] → doc1.annotations = doc.annotations) ∧
      (blocksFrom listNodes pod idx cs ws ≠ [] →
        ∃ f, (⟨"add", provenancePath, some (PatchValue.str (fallbackLabel f))⟩ : PatchOp)
            ∈ blocksFrom listNodes pod idx cs ws ∧
          mapIndex doc1.annotations fallbackAnnotation = some (fallbackLabel f)) ∧
      (∀ key, key ≠ fallbackAnnotation →
        mapIndex doc1.annotations key = mapIndex doc.annotations key) := by
  induction cs with
  | nil =>
    intro idx ws doc _ _ _ _
    refine ⟨doc, by simp [blocksFrom, applyPatch], rfl, fun _ _ => rfl, ?_, fun _ => rfl,
      ?_, fun _ _ => rfl⟩
    · intro k c w h; simp at h
    · intro h; simp [blocksFrom] at h
  | cons c0 cs ih =>
    intro idx ws doc hlen hcont hann hframe
    cases ws with
    | nil => simp at hlen
    | cons w0 ws =>
      have hlen1 : ws.length = cs.length := by simpa using hlen
      have hc0 : doc.containers[idx]? = some c0.toDoc := by
        simpa using hcont 0 c0 (by simp)
      have hlt : idx < doc.containers.length := (List.getElem?_eq_some_iff.1 hc0).1
      simp only [blocksFrom]
      rcases iterBlock_cases listNodes pod idx c0 w0 with hb | ⟨qty0, hq0, _, hb⟩
      · -- the head container is not substituted
        obtain ⟨doc1, happ, hl, hbefore, hper, hnil, hne, hfr⟩ :=
          ih (idx + 1) ws doc hlen1
            (fun k c h => by
              have := hcont (k + 1) c (by simpa using h)
              rwa [show idx + (k + 1) = idx + 1 + k by omega] at this)
            hann hframe
        rw [hb, List.nil_append]
        refine ⟨doc1, happ, hl, fun j hj => hbefore j (by omega), ?_, hnil, hne, hfr⟩
        intro k c w hc hw
        cases k with
        | zero =>
          simp at hc hw
          subst hc; subst hw
          refine ⟨fun _ => ?_, fun qty f _ h => ?_⟩
          · rw [Nat.add_zero, hbefore idx (by omega)]; exact hc0
          · rw [Nat.add_zero, hb] at h
            exact absurd h.symm (appendFallback_ne_nil _ _ _ _ _)
        | succ k =>
          have hidx : idx + (k + 1) = idx + 1 + k := by omega
          rw [hidx]
          exact hper k c w (by simpa using hc) (by simpa using hw)
      · -- the head container is substituted
        have hblock := apply_block pod doc idx c0 qty0
          (checkMIGAvailability listNodes smallMIG
            (checkMIGAvailability listNodes mediumMIG w0).2).1.1 hc0 hq0 hann
        rw [← hb] at hblock
        have han := afterBlock_annotation pod doc idx c0 qty0
          (checkMIGAvailability listNodes smallMIG
            (checkMIGAvailability listNodes mediumMIG w0).2).1.1 hframe hann
        obtain ⟨doc1, happ, hl, hbefore, hper, hnil, hne, hfr⟩ :=
          ih (idx + 1) ws (afterBlock pod doc idx c0 qty0
            (checkMIGAvailability listNodes smallMIG
              (checkMIGAvailability listNodes mediumMIG w0).2).1.1) hlen1
            (fun k c h => by
              have := hcont (k + 1) c (by simpa using h)
              rw [show idx + (k + 1) = idx + 1 + k by omega] at this
              simp only [afterBlock]
              rw [List.getElem?_set_ne (by omega)]
              exact this)
            (fun _ => rfl)
            (fun hnone key hkey => by
              rw [han.2 key hkey]; exact hframe hnone key hkey)
        refine ⟨doc1, ?_, ?_, ?_, ?_, ?_, ?_, ?_⟩
        · rw [applyPatch_append, hblock, Option.some_bind]; exact happ
        · rw [hl]; simp [afterBlock]
        · intro j hj
          rw [hbefore j (by omega)]
          simp only [afterBlock]
          rw [List.getElem?_set_ne (by omega)]
        · intro k c w hc hw
          cases k with
          | zero =>
            simp at hc hw
            subst hc; subst hw
            refine ⟨fun h => ?_, fun qty f hq h => ?_⟩
            · rw [Nat.add_zero, hb] at h
              exact absurd h (appendFallback_ne_nil _ _ _ _ _)
            · rw [Nat.add_zero] at h ⊢
              rw [hb] at h
              have hf := appendFallback_rung _ _ _ _ _ _ _ h
              have hqq := requestsMedium_unique hq0 hq
              rw [hbefore idx (by omega)]
              simp only [afterBlock]
              rw [List.getElem?_set_self hlt, hf, hqq]
          | succ k =>
            have hidx : idx + (k + 1) = idx + 1 + k := by omega
            rw [hidx]
            exact hper k c w (by simpa using hc) (by simpa using hw)
        · intro h
          rw [hb] at h
          exact absurd (List.append_eq_nil.1 h).1 (appendFallback_ne_nil _ _ _ _ _)
        · intro _
          by_cases hrest : blocksFrom listNodes pod (idx + 1) cs ws = []
          · refine ⟨(checkMIGAvailability listNodes smallMIG
                (checkMIGAvailability listNodes mediumMIG w0).2).1.1,
              List.mem_append.2 (Or.inl ?_), ?_⟩
            · rw [hb]; exact provenance_mem_block _ _ _ _ _
            · rw [hnil hrest]; exact han.1
          · obtain ⟨f, hmem, hval⟩ := hne hrest
            exact ⟨f, List.mem_append.2 (Or.inr hmem), hval⟩
        · intro key hkey
          rw [hfr key hkey, han.2 key hkey]

/-- The whole patch list of a run applies to the document of the pod; the
result is described container by container and for the annotations. -/
theorem apply_emitted {σ : Type} (listNodes : NodeLister σ) (pod : Pod) (s : σ) :
    ∃ doc1, applyPatch pod.toDoc (emittedPatches listNodes pod s) = some doc1 ∧
      doc1.containers.length = pod.Spec.Containers.length ∧
      (∀ i c, pod.Spec.Containers[i]? = some c →
        (¬ substituted listNodes pod s i → doc1.containers[i]? = some c.toDoc) ∧
        (substituted listNodes pod s i →
          ∃ qty f, requestsMedium c qty ∧
            (∀ Q : PatchOp → Bool,
              (∀ op, Q op = true → liesUnder (containerPrefix i) op.path) →
              (emittedPatches listNodes pod s).filter Q
                = (appendFallback pod i c qty f []).filter Q) ∧
            doc1.containers[i]? = some (substitutedDoc c qty f))) ∧
      (emittedPatches listNodes pod s = [] → doc1.annotations = pod.Annotations) ∧
      (emittedPatches listNodes pod s ≠ [] →
        ∃ f, (⟨"add", provenancePath, some (PatchValue.str (fallbackLabel f))⟩ : PatchOp)
            ∈ emittedPatches listNodes pod s ∧
          mapIndex doc1.annotations fallbackAnnotation = some (fallbackLabel f)) ∧
      (∀ key, key ≠ fallbackAnnotation →
        mapIndex doc1.annotations key = mapIndex pod.Annotations key) := by
  have hlen := worldsFrom_length listNodes pod pod.Spec.Containers 0 s
  obtain ⟨doc1, happ, hl, _, hper, hnil, hne, hfr⟩ :=
    apply_blocks listNodes pod pod.Spec.Containers 0
      (worldsFrom listNodes pod 0 pod.Spec.Containers s) pod.toDoc hlen
      (fun k c h => by simp [Pod.toDoc, h])
      (fun h => h)
      (fun h key _ => by simp [Pod.toDoc, h, mapIndex])
  rw [← emittedPatches_blocks] at happ hnil hne
  refine ⟨doc1, happ, by simpa [Pod.toDoc] using hl, ?_, hnil, hne, hfr⟩
  intro i c hc
  have hi : i < (worldsFrom listNodes pod 0 pod.Spec.Containers s).length := by
    rw [hlen]; exact (List.getElem?_eq_some_iff.1 hc).1
  obtain ⟨w, hw⟩ : ∃ w, (worldsFrom listNodes pod 0 pod.Spec.Containers s)[i]? = some w :=
    ⟨_, List.getElem?_eq_getElem hi⟩
  have hfil := blocksFrom_filter listNodes pod pod.Spec.Containers 0 _ i c w hc hw
  rw [← emittedPatches_blocks, Nat.zero_add] at hfil
  have hp := hper i c w hc hw
  rw [Nat.zero_add] at hp
  rcases iterBlock_cases listNodes pod i c w with hb | ⟨qty, hq, _, hb⟩
  · constructor
    · intro _; exact hp.1 hb
    · rintro ⟨op, hop, hu⟩
      have hmem : op ∈ (emittedPatches listNodes pod s).filter
          (fun o => decide (liesUnder (containerPrefix i) o.path)) :=
        List.mem_filter.2 ⟨hop, decide_eq_true hu⟩
      rw [hfil _ (fun o h => of_decide_eq_true h), hb] at hmem
      simp at hmem
  · have hsub : substituted listNodes pod s i := by
      have hm : (⟨"add", provenancePath, some (PatchValue.str (fallbackLabel
          (checkMIGAvailability listNodes smallMIG
            (checkMIGAvailability listNodes mediumMIG w).2).1.1))⟩ : PatchOp)
          ∈ iterBlock listNodes pod i c w := by rw [hb]; exact provenance_mem_block _ _ _ _ _
      have hr : (⟨"remove", sprintfD "/spec/containers/" i
          "/resources/requests/nvidia.com~1mig-2g.20gb", none⟩ : PatchOp)
          ∈ iterBlock listNodes pod i c w := by
        rw [hb, appendFallback_nil]; simp
      have hu : liesUnder (containerPrefix i) (sprintfD "/spec/containers/" i
          "/resources/requests/nvidia.com~1mig-2g.20gb") := by
        unfold containerPrefix
        rw [liesUnder_sprintfD i i _ _ [] _ rfl rfl]
        exact ⟨rfl, by decide⟩
      have hmem : (⟨"remove", sprintfD "/spec/containers/" i
          "/resources/requests/nvidia.com~1mig-2g.20gb", none⟩ : PatchOp)
          ∈ (emittedPatches listNodes pod s).filter
            (fun o => decide (liesUnder (containerPrefix i) o.path)) := by
        rw [hfil _ (fun o h => of_decide_eq_true h)]
        exact List.mem_filter.2 ⟨hr, decide_eq_true hu⟩
      exact ⟨_, (List.mem_filter.1 hmem).1, hu⟩
    constructor
    · intro h; exact absurd hsub h
    · intro _
      exact ⟨qty, _, hq, fun Q hQ => by rw [hfil Q hQ, hb], hp.2 qty _ hq hb⟩

theorem substitutedDoc_requests (c : Container) (qty : Quantity) (f : Bool)
    (hq : requestsMedium c qty) :
    mapIndex (substitutedDoc c qty f).requests "nvidia.com/mig-2g.20gb" = none ∧
      mapIndex (substitutedDoc c qty f).requests (fallbackKey f) = some qty.String := by
  obtain ⟨h1, _⟩ := hq
  cases hR : c.Resources.Requests with
  | none => simp [mapIndex, hR] at h1
  | some r =>
    have hne : ("nvidia.com/mig-2g.20gb" : String) ≠ fallbackKey f := by
      cases f <;> decide
    simp only [substitutedDoc, renderResources, hR, Option.map_some', mapIndex,
      substituteObject]
    exact ⟨by rw [lookup_setKey_ne _ _ _ _ hne, lookup_eraseKey_self],
      lookup_setKey_self _ _ _⟩

theorem requests_add_mem {σ : Type} (listNodes : NodeLister σ) (pod : Pod) (s : σ) (i : Nat)
    (c : Container) (qty : Quantity) (f : Bool)
    (hQ : ∀ Q : PatchOp → Bool,
      (∀ op, Q op = true → liesUnder (containerPrefix i) op.path) →
      (emittedPatches listNodes pod s).filter Q = (appendFallback pod i c qty f []).filter Q) :
    (⟨"add", sprintfDS "/spec/containers/" i "/resources/requests/" (fallbackEscaped f),
      some (PatchValue.str qty.String)⟩ : PatchOp) ∈ emittedPatches listNodes pod s := by
  have hreq := hQ (fun op => decide (op.op = "add" ∧ liesUnder (requestsPrefix i) op.path))
    (fun op h => liesUnder_trans (containerPrefix_requestsPrefix i) (of_decide_eq_true h).2)
  rw [filter_requests_adds_block] at hreq
  have : (⟨"add", sprintfDS "/spec/containers/" i "/resources/requests/" (fallbackEscaped f),
      some (PatchValue.str qty.String)⟩ : PatchOp)
      ∈ (emittedPatches listNodes pod s).filter
        (fun op => decide (op.op = "add" ∧ liesUnder (requestsPrefix i) op.path)) := by
    rw [hreq]; exact List.mem_singleton.2 rfl
  exact (List.mem_filter.1 this).1

theorem sprintfDS_inj (a m x y : String) (i : Nat)
    (h : sprintfDS a i m x = sprintfDS a i m y) : x = y := by
  have hd := congrArg String.data h
  simp only [sprintfDS, String.data_append, List.append_assoc] at hd
  have := List.append_cancel_left (List.append_cancel_left (List.append_cancel_left hd))
  exact String.ext this

theorem blocksFrom_sub {σ : Type} (listNodes : NodeLister σ) (pod : Pod)
    (cs : List Container) : ∀ (idx : Nat) (ws : List σ) (k : Nat) (c : Container) (w : σ),
    cs[k]? = some c → ws[k]? = some w →
    ∀ op ∈ iterBlock listNodes pod (idx + k) c w, op ∈ blocksFrom listNodes pod idx cs ws := by
  induction cs with
  | nil => intro idx ws k c w h; simp at h
  | cons c0 cs ih =>
    intro idx ws k c w hc hw op hop
    cases ws with
    | nil => simp at hw
    | cons w0 ws =>
      simp only [blocksFrom, List.mem_append]
      cases k with
      | zero =>
        simp at hc hw
        subst hc; subst hw
        exact Or.inl hop
      | succ k =>
        have hidx : idx + (k + 1) = idx + 1 + k := by omega
        rw [hidx] at hop
        exact Or.inr (ih (idx + 1) ws k c w (by simpa using hc) (by simpa using hw) op hop)

/-- An emitted operation belongs to the block of some container, and that
whole block is part of the patch list. -/
theorem emittedPatches_mem_block {σ : Type} (listNodes : NodeLister σ) (pod : Pod) (s : σ)
    (op : PatchOp) (hop : op ∈ emittedPatches listNodes pod s) :
    ∃ j c w, pod.Spec.Containers[j]? = some c ∧ op ∈ iterBlock listNodes pod j c w ∧
      ∀ o ∈ iterBlock listNodes pod j c w, o ∈ emittedPatches listNodes pod s := by
  rw [emittedPatches_blocks] at hop ⊢
  obtain ⟨k, c, w, hc, hw, hin⟩ := blocksFrom_mem listNodes pod _ 0 _ op hop
  refine ⟨k, c, w, hc, by simpa using hin, ?_⟩
  intro o ho
  exact blocksFrom_sub listNodes pod _ 0 _ k c w hc hw o (by simpa using ho)

/-- The rung of the block a provenance operation of the patch list belongs to
is the rung of a requests `add` of the list. -/
theorem provenance_rung {σ : Type} (listNodes : NodeLister σ) (pod : Pod) (s : σ) (f : Bool)
    (hop : (⟨"add", provenancePath, some (PatchValue.str (fallbackLabel f))⟩ : PatchOp)
      ∈ emittedPatches listNodes pod s) :
    ∃ (j : Nat) (qty : Quantity), j < pod.Spec.Containers.length ∧
      (⟨"add", sprintfDS "/spec/containers/" j "/resources/requests/" (fallbackEscaped f),
        some (PatchValue.str qty.String)⟩ : PatchOp) ∈ emittedPatches listNodes pod s := by
  obtain ⟨j, c, w, hc, hin, hall⟩ := emittedPatches_mem_block listNodes pod s _ hop
  rcases iterBlock_cases listNodes pod j c w with hb | ⟨qty, _, _, hb⟩
  · rw [hb] at hin; simp at hin
  · rw [hb] at hin
    have hp := block_provenance hin rfl
    have hf : f = (checkMIGAvailability listNodes smallMIG
        (checkMIGAvailability listNodes mediumMIG w).2).1.1 := by
      generalize (checkMIGAvailability listNodes smallMIG
        (checkMIGAvailability listNodes mediumMIG w).2).1.1 = g at hp
      have hv := congrArg PatchOp.value hp
      cases f <;> cases g <;> first | rfl | (exact absurd hv (by decide))
    refine ⟨j, qty, (List.getElem?_eq_some_iff.1 hc).1, hall _ ?_⟩
    rw [hb, ← hf, appendFallback_nil]
    simp [fallbackEscaped]

/-! ### The shape of the emitted paths -/

theorem sprintfDS_prefix (a m x : String) (i : Nat) :
    sprintfDS a i m x = sprintfD a i m ++ x := rfl

theorem block_paths {pod : Pod} {j : Nat} {c : Container} {qty : Quantity} {f : Bool}
    {op : PatchOp} (hop : op ∈ appendFallback pod j c qty f []) :
    (∃ k, (k = "nvidia.com/mig-2g.20gb" ∨ k = "nvidia.com/mig-1g.10gb" ∨ k = "nvidia.com/gpu") ∧
      (op.path = requestsPrefix j ++ escape k ∨ op.path = limitsPrefix j ++ escape k)) ∨
    op.path = "/metadata/annotations" ∨
    op.path = "/metadata/annotations/" ++ escape "gpu-webhook.k8s.io/fallback" := by
  have hm : escape "nvidia.com/mig-2g.20gb" = "nvidia.com~1mig-2g.20gb" := by decide
  have hs : escape "nvidia.com/mig-1g.10gb" = "nvidia.com~1mig-1g.10gb" := by decide
  have hg : escape "nvidia.com/gpu" = "nvidia.com~1gpu" := by decide
  have hesc : ∃ k, (k = "nvidia.com/mig-2g.20gb" ∨ k = "nvidia.com/mig-1g.10gb" ∨
      k = "nvidia.com/gpu") ∧
      (if f then "nvidia.com~1mig-1g.10gb" else "nvidia.com~1gpu" : String) = escape k := by
    cases f
    · exact ⟨_, Or.inr (Or.inr rfl), hg.symm⟩
    · exact ⟨_, Or.inr (Or.inl rfl), hs.symm⟩
  rw [appendFallback_nil] at hop
  simp only [List.mem_append, List.mem_cons, List.mem_singleton, List.not_mem_nil, or_false,
    limitsOps, annotationOps] at hop
  rcases hop with ((h | h) | h) | h
  · left
    rcases h with h | h
    · refine ⟨_, Or.inl rfl, Or.inl ?_⟩
      rw [h, hm]; exact removeRequests_eq j
    · obtain ⟨k, hk, he⟩ := hesc
      refine ⟨k, hk, Or.inl ?_⟩
      rw [h, ← he]; rfl
  · cases hl : mapIndex c.Resources.Limits mediumMIG with
    | none => simp [hl] at h
    | some lq =>
      simp only [hl, List.mem_cons, List.mem_singleton, List.not_mem_nil, or_false] at h
      left
      rcases h with h | h
      · refine ⟨_, Or.inl rfl, Or.inr ?_⟩
        rw [h, hm]; exact removeLimits_eq j
      · obtain ⟨k, hk, he⟩ := hesc
        refine ⟨k, hk, Or.inr ?_⟩
        rw [h, ← he]; rfl
  · cases ha : pod.Annotations with
    | none =>
      simp only [ha, List.mem_singleton] at h
      right; left; rw [h]
    | some m => simp [ha] at h
  · right; right
    rw [h]
    show "/metadata/annotations/gpu-webhook.k8s.io~1fallback"
      = "/metadata/annotations/" ++ escape "gpu-webhook.k8s.io/fallback"
    decide

/-! ### The order of the annotation operations -/

theorem createOp_before {X pre post : List PatchOp} {p op : PatchOp}
    (h : X ++ [p] = pre ++ op :: post) (hop : op.path = provenancePath)
    (hX : ∀ x ∈ X, x.path ≠ provenancePath) : pre = X := by
  rcases List.append_eq_append_iff.1 h with ⟨a, h1, h2⟩ | ⟨c, h1, h2⟩
  · cases a with
    | nil => simpa using h1
    | cons x a =>
      have := congrArg List.length h2
      simp at this
  · cases c with
    | nil => simpa using h1.symm
    | cons x c =>
      simp only [List.cons_append, List.cons.injEq] at h2
      have : op ∈ X := by rw [h1, ← h2.1]; simp
      exact absurd hop (hX op this)

theorem block_front_no_provenance (pod : Pod) (i : Nat) (c : Container) (qty : Quantity)
    (f : Bool) :
    ∀ x ∈ [(⟨"remove",
          sprintfD "/spec/containers/" i "/resources/requests/nvidia.com~1mig-2g.20gb",
          none⟩ : PatchOp),
        ⟨"add", sprintfDS "/spec/containers/" i "/resources/requests/"
          (if f then "nvidia.com~1mig-1g.10gb" else "nvidia.com~1gpu"),
          some (PatchValue.str qty.String)⟩]
      ++ limitsOps i c (if f then "nvidia.com~1mig-1g.10gb" else "nvidia.com~1gpu")
      ++ annotationOps pod, x.path ≠ provenancePath := by
  intro x hx
  rcases List.mem_append.1 hx with h1 | h1
  · rcases List.mem_append.1 h1 with h2 | h2
    · simp only [List.mem_cons, List.mem_singleton, List.not_mem_nil, or_false] at h2
      rcases h2 with h2 | h2
      · rw [h2]; exact sprintfD_ne_metadata i _ "/gpu-webhook.k8s.io~1fallback"
      · rw [h2]; exact sprintfDS_ne_metadata i _ _ "/gpu-webhook.k8s.io~1fallback"
    · exact limitsOps_no_provenance _ _ _ x h2
  · exact annotationOps_no_provenance _ x h1

theorem block_created_before (pod : Pod) (i : Nat) (c : Container) (qty : Quantity) (f : Bool)
    (ha : pod.Annotations = none) (pre post : List PatchOp) (op : PatchOp)
    (h : appendFallback pod i c qty f [] = pre ++ op :: post)
    (hop : op.path = provenancePath) :
    (⟨"add", "/metadata/annotations", some PatchValue.emptyMap⟩ : PatchOp) ∈ pre := by
  rw [appendFallback_nil] at h
  have hpre := createOp_before h hop (block_front_no_provenance pod i c qty f)
  rw [hpre]
  refine List.mem_append.2 (Or.inr ?_)
  simp [annotationOps, ha]

theorem blocksFrom_created_before {σ : Type} (listNodes : NodeLister σ) (pod : Pod)
    (ha : pod.Annotations = none) (cs : List Container) :
    ∀ (idx : Nat) (ws : List σ) (pre post : List PatchOp) (op : PatchOp),
    blocksFrom listNodes pod idx cs ws = pre ++ op :: post → op.path = provenancePath →
    (⟨"add", "/metadata/annotations", some PatchValue.emptyMap⟩ : PatchOp) ∈ pre := by
  induction cs with
  | nil =>
    intro idx ws pre post op h
    simp [blocksFrom] at h
  | cons c cs ih =>
    intro idx ws pre post op h hop
    cases ws with
    | nil => simp [blocksFrom] at h
    | cons w ws =>
      simp only [blocksFrom] at h
      rcases List.append_eq_append_iff.1 h with ⟨a, h1, h2⟩ | ⟨b, h1, h2⟩
      · rw [h1]
        exact List.mem_append.2 (Or.inr (ih (idx + 1) ws a post op h2 hop))
      · cases b with
        | nil =>
          have := ih (idx + 1) ws [] post op (by simpa using h2.symm) hop
          simp at this
        | cons x b =>
          simp only [List.cons_append, List.cons.injEq] at h2
          rw [← h2.1] at h1
          rcases iterBlock_cases listNodes pod idx c w with hb | ⟨qty, _, _, hb⟩
          · rw [hb] at h1
            have := congrArg List.length h1
            simp at this
            omega
          · rw [hb] at h1
            exact block_created_before pod idx c qty _ ha pre b op h1 hop

theorem block_no_create {pod : Pod} {j : Nat} {c : Container} {qty : Quantity} {f : Bool}
    {op : PatchOp} (ha : pod.Annotations ≠ none) (hop : op ∈ appendFallback pod j c qty f []) :
    op.path ≠ "/metadata/annotations" := by
  rw [appendFallback_nil] at hop
  simp only [List.mem_append, List.mem_cons, List.mem_singleton, List.not_mem_nil, or_false,
    limitsOps, annotationOps] at hop
  rcases hop with ((h | h) | h) | h
  · rcases h with h | h
    · rw [h]; exact sprintfD_ne_metadata j _ ""
    · rw [h]; exact sprintfDS_ne_metadata j _ _ ""
  · cases hl : mapIndex c.Resources.Limits mediumMIG with
    | none => simp [hl] at h
    | some lq =>
      simp only [hl, List.mem_cons, List.mem_singleton, List.not_mem_nil, or_false] at h
      rcases h with h | h
      · rw [h]; exact sprintfD_ne_metadata j _ ""
      · rw [h]; exact sprintfDS_ne_metadata j _ _ ""
  · cases ha1 : pod.Annotations with
    | none => exact absurd ha1 ha
    | some m => simp [ha1] at h
  · rw [h]
    show ("/metadata/annotations/gpu-webhook.k8s.io~1fallback" : String)
      ≠ "/metadata/annotations"
    decide

/-! ### The capacity inspector -/

theorem cmp_ge_iff (q y : Quantity) : q.Cmp y ≥ 0 ↔ y.nano ≤ q.nano := by
  unfold Quantity.Cmp
  by_cases h1 : q.nano < y.nano
  · simp [h1]
  · by_cases h2 : q.nano = y.nano
    · simp [h2]
    · simp [h1, h2]; omega

theorem scanNodes_iff (resourceName : String) (nodes : List Node) :
    scanNodes resourceName nodes = true ↔
      ∃ node ∈ nodes, ∃ q, mapIndex node.Allocatable resourceName = some q ∧
        (Quantity.ofUnits 1).nano ≤ q.nano := by
  induction nodes with
  | nil => simp [scanNodes]
  | cons node rest ih =>
    unfold scanNodes
    cases hm : mapIndex node.Allocatable resourceName with
    | none =>
      simp only [ih, List.mem_cons, exists_eq_or_imp, hm]
      simp
    | some a =>
      simp only [List.mem_cons, exists_eq_or_imp, hm]
      by_cases hc : a.Cmp (Quantity.ofUnits 1) ≥ 0
      · simp only [hc, if_true, true_iff]
        exact Or.inl ⟨a, rfl, (cmp_ge_iff _ _).1 hc⟩
      · simp only [hc, if_false, ih]
        constructor
        · intro h; exact Or.inr h
        · rintro (⟨q, hq, hle⟩ | h)
          · have : a = q := Option.some.inj hq
            subst this
            exact absurd ((cmp_ge_iff _ _).2 hle) hc
          · exact h

/-! ### Listers that differ only in the error they report -/

theorem loopBody_congr {σ : Type} (l1 l2 : NodeLister σ)
    (hagree : ∀ r w, (checkMIGAvailability l1 r w).1.1 = (checkMIGAvailability l2 r w).1.1 ∧
      (checkMIGAvailability l1 r w).2 = (checkMIGAvailability l2 r w).2)
    (pod : Pod) (idx : Nat) (c : Container) (st : LoopState σ) :
    loopBody (checkMIGAvailability l1) pod idx c st = loopBody (checkMIGAvailability l2) pod idx c st := by
  unfold loopBody
  cases hr : c.Resources.Requests with
  | none => rfl
  | some requests =>
    cases hq : requests.lookup "nvidia.com/mig-2g.20gb" with
    | none => simp [hq]
    | some qty =>
      simp only [hq]
      rw [(hagree "nvidia.com/mig-2g.20gb" st.world).1,
        (hagree "nvidia.com/mig-2g.20gb" st.world).2,
        (hagree "nvidia.com/mig-1g.10gb" _).1, (hagree "nvidia.com/mig-1g.10gb" _).2]

theorem containerLoop_congr {σ : Type} (l1 l2 : NodeLister σ)
    (hagree : ∀ r w, (checkMIGAvailability l1 r w).1.1 = (checkMIGAvailability l2 r w).1.1 ∧
      (checkMIGAvailability l1 r w).2 = (checkMIGAvailability l2 r w).2)
    (pod : Pod) (cs : List Container) : ∀ (idx : Nat) (st : LoopState σ),
    containerLoop (checkMIGAvailability l1) pod idx cs st = containerLoop (checkMIGAvailability l2) pod idx cs st := by
  induction cs with
  | nil => intro idx st; rfl
  | cons c cs ih =>
    intro idx st
    simp only [containerLoop]
    rw [loopBody_congr l1 l2 hagree, ih]

theorem error_gives_false {σ : Type} (listNodes : NodeLister σ) (r : String) (w : σ)
    (h : ∃ err w1, listNodes w = (Except.error err, w1)) :
    (checkMIGAvailability listNodes r w).1.1 = false := by
  obtain ⟨err, w1, h⟩ := h
  simp [checkMIGAvailability, h]

/-! ### The trace of availability queries -/

theorem loggingCheck_counting {σ : Type} (listNodes : NodeLister σ) (r : String)
    (s : (σ × Nat) × List String) :
    loggingCheck (checkMIGAvailability (countingLister listNodes)) r s
      = ((checkMIGAvailability listNodes r s.1.1).1,
          (((checkMIGAvailability listNodes r s.1.1).2, s.1.2 + 1), s.2 ++ [r])) := by
  unfold loggingCheck checkMIGAvailability countingLister
  rcases h : listNodes s.1.1 with ⟨res, w1⟩
  cases res <;> simp [h]

theorem loopBody_observed {σ : Type} (listNodes : NodeLister σ) (pod : Pod) (idx : Nat)
    (c : Container) (st : LoopState ((σ × Nat) × List String)) :
    (loopBody (loggingCheck (checkMIGAvailability (countingLister listNodes)))
        pod idx c st).unobserved
      = loopBody (checkMIGAvailability listNodes) pod idx c st.unobserved ∧
    (loopBody (loggingCheck (checkMIGAvailability (countingLister listNodes)))
        pod idx c st).world.2
      = st.world.2 ++ containerQueries listNodes c st.world.1.1 ∧
    (loopBody (loggingCheck (checkMIGAvailability (countingLister listNodes)))
        pod idx c st).world.1.2
      = st.world.1.2 + (containerQueries listNodes c st.world.1.1).length := by
  unfold loopBody containerQueries mapIndex LoopState.unobserved
  cases hr : c.Resources.Requests with
  | none => simp
  | some requests =>
    cases hq : requests.lookup "nvidia.com/mig-2g.20gb" with
    | none => simp [hq]
    | some qty =>
      by_cases hz : qty.IsZero = true
      · simp [hq, hz]
      · by_cases ha : (checkMIGAvailability listNodes "nvidia.com/mig-2g.20gb" st.world.1.1).1.1 = true
        · simp [hq, hz, ha, loggingCheck_counting]
        · simp [hq, hz, ha, loggingCheck_counting]

theorem containerLoop_observed {σ : Type} (listNodes : NodeLister σ) (pod : Pod)
    (cs : List Container) : ∀ (idx : Nat) (st : LoopState ((σ × Nat) × List String)),
    (containerLoop (loggingCheck (checkMIGAvailability (countingLister listNodes)))
        pod idx cs st).unobserved
      = containerLoop (checkMIGAvailability listNodes) pod idx cs st.unobserved ∧
    (containerLoop (loggingCheck (checkMIGAvailability (countingLister listNodes)))
        pod idx cs st).world.2
      = st.world.2 ++ queriesFrom listNodes cs (worldsFrom listNodes pod idx cs st.world.1.1) ∧
    (containerLoop (loggingCheck (checkMIGAvailability (countingLister listNodes)))
        pod idx cs st).world.1.2
      = st.world.1.2
        + (queriesFrom listNodes cs (worldsFrom listNodes pod idx cs st.world.1.1)).length := by
  induction cs with
  | nil => intro idx st; simp [containerLoop, queriesFrom]
  | cons c cs ih =>
    intro idx st
    obtain ⟨h1, h2, h3⟩ := loopBody_observed listNodes pod idx c st
    obtain ⟨i1, i2, i3⟩ := ih (idx + 1)
      (loopBody (loggingCheck (checkMIGAvailability (countingLister listNodes))) pod idx c st)
    have hw : (loopBody (loggingCheck (checkMIGAvailability (countingLister listNodes)))
        pod idx c st).world.1.1
        = (loopBody (checkMIGAvailability listNodes) pod idx c
            { patches := [], modified := false, world := st.world.1.1 }).world := by
      have := congrArg LoopState.world h1
      rw [loopBody_world] at this
      exact this
    simp only [containerLoop, worldsFrom, queriesFrom]
    refine ⟨?_, ?_, ?_⟩
    · rw [i1, h1]
    · rw [i2, h2, hw, List.append_assoc]
    · rw [i3, h3, hw, List.length_append, Nat.add_assoc]

theorem observedLoop_spec {σ : Type} (listNodes : NodeLister σ) (pod : Pod) (s : σ) :
    (observedLoop listNodes pod s).unobserved = runLoop (checkMIGAvailability listNodes) pod s ∧
    issuedQueries listNodes pod s
      = queriesFrom listNodes pod.Spec.Containers
          (worldsFrom listNodes pod 0 pod.Spec.Containers s) ∧
    issuedListings listNodes pod s = (issuedQueries listNodes pod s).length := by
  obtain ⟨h1, h2, h3⟩ := containerLoop_observed listNodes pod pod.Spec.Containers 0
    { patches := [], modified := false, world := ((s, 0), []) }
  have hq : issuedQueries listNodes pod s
      = queriesFrom listNodes pod.Spec.Containers
          (worldsFrom listNodes pod 0 pod.Spec.Containers s) := by
    unfold issuedQueries observedLoop runLoop
    rw [h2]; rfl
  refine ⟨?_, hq, ?_⟩
  · unfold observedLoop runLoop
    rw [h1]; rfl
  · rw [hq]
    unfold issuedListings observedLoop runLoop
    rw [h3]; simp

theorem containerQueries_mem {σ : Type} (listNodes : NodeLister σ) (c : Container) (w : σ)
    (q : String) (hq : q ∈ containerQueries listNodes c w) :
    q = "nvidia.com/mig-2g.20gb" ∨ q = "nvidia.com/mig-1g.10gb" := by
  unfold containerQueries at hq
  cases hm : mapIndex c.Resources.Requests "nvidia.com/mig-2g.20gb" with
  | none => simp [hm] at hq
  | some qty =>
    simp only [hm] at hq
    by_cases hz : qty.IsZero = true
    · simp [hz] at hq
    · by_cases ha : (checkMIGAvailability listNodes "nvidia.com/mig-2g.20gb" w).1.1 = true
      · simp [hz, ha] at hq; exact Or.inl hq
      · simp [hz, ha] at hq; exact hq

theorem queriesFrom_mem {σ : Type} (listNodes : NodeLister σ) (cs : List Container) :
    ∀ (ws : List σ) (q : String), q ∈ queriesFrom listNodes cs ws →
    q = "nvidia.com/mig-2g.20gb" ∨ q = "nvidia.com/mig-1g.10gb" := by
  induction cs with
  | nil => intro ws q h; simp [queriesFrom] at h
  | cons c cs ih =>
    intro ws q h
    cases ws with
    | nil => simp [queriesFrom] at h
    | cons w ws =>
      simp only [queriesFrom, List.mem_append] at h
      rcases h with h | h
      · exact containerQueries_mem listNodes c w q h
      · exact ih ws q h

/-! ### The patch list against its specification -/

theorem specBlock_eq (pod : Pod) (i : Nat) (c : Container) (qty : Quantity) (f : Bool) :
    appendFallback pod i c qty f [] = specBlock pod i c qty f := by
  have hm : escape "nvidia.com/mig-2g.20gb" = "nvidia.com~1mig-2g.20gb" := by decide
  have hk : escape (fallbackKey f)
      = (if f then "nvidia.com~1mig-1g.10gb" else "nvidia.com~1gpu" : String) := by
    cases f <;> decide
  have hp : "/metadata/annotations/" ++ escape "gpu-webhook.k8s.io/fallback"
      = "/metadata/annotations/gpu-webhook.k8s.io~1fallback" := by decide
  have hl : (if f then labelSmall else labelGPU) = fallbackLabel f := by cases f <;> rfl
  rw [appendFallback_nil, specBlock, hm, hk, hp, hl]
  unfold limitsOps annotationOps
  simp only [mediumMIG, removeRequests_eq, removeLimits_eq, sprintfDS_prefix, requestsPrefix,
    limitsPrefix]
  cases hq : mapIndex c.Resources.Limits "nvidia.com/mig-2g.20gb" <;>
    cases ha : pod.Annotations <;> rfl

theorem iterBlock_eq_decided {σ : Type} (listNodes : NodeLister σ) (pod : Pod) (i : Nat)
    (c : Container) (w : σ) :
    iterBlock listNodes pod i c w = decidedBlock listNodes pod i c w := by
  unfold decidedBlock fallbackDecision
  cases hm : mapIndex c.Resources.Requests "nvidia.com/mig-2g.20gb" with
  | none =>
    exact iterBlock_of_not_requested listNodes pod i c w
      (fun qty hq => by have := hq.1; simp [mediumMIG, hm] at this)
  | some qty =>
    by_cases hz : qty.IsZero = true
    · simp only [hz, if_true]
      exact iterBlock_of_not_requested listNodes pod i c w
        (fun q hq => by
          have h1 := hq.1
          have h2 := hq.2
          simp only [mediumMIG, hm, Option.some.injEq] at h1
          rw [← h1, hz] at h2
          exact absurd h2 (by decide))
    · by_cases ha : (checkMIGAvailability listNodes "nvidia.com/mig-2g.20gb" w).1.1 = true
      · simp only [hz, ha, if_true, Bool.false_eq_true, if_false]
        exact iterBlock_of_available listNodes pod i c w ha
      · simp only [hz, ha, Bool.false_eq_true, if_false]
        rw [← specBlock_eq]
        exact iterBlock_of_substituted listNodes pod i c w qty ⟨hm, by simpa using hz⟩
          (by simpa [mediumMIG] using ha)

theorem blocksFrom_eq_flatten {σ : Type} (listNodes : NodeLister σ) (pod : Pod)
    (cs : List Container) : ∀ (idx : Nat) (ws : List σ), ws.length = cs.length →
    blocksFrom listNodes pod idx cs ws
      = ((List.range cs.length).map (blockAt listNodes pod cs ws idx)).flatten := by
  induction cs with
  | nil => intro idx ws _; simp [blocksFrom]
  | cons c cs ih =>
    intro idx ws hlen
    cases ws with
    | nil => simp at hlen
    | cons w ws =>
      have hlen1 : ws.length = cs.length := by simpa using hlen
      simp only [blocksFrom, List.length_cons, List.range_succ_eq_map, List.map_cons,
        List.flatten_cons, List.map_map]
      rw [ih (idx + 1) ws hlen1, iterBlock_eq_decided]
      have h0 : blockAt listNodes pod (c :: cs) (w :: ws) idx 0
          = decidedBlock listNodes pod idx c w := by
        simp [blockAt]
      have hmap : List.map (blockAt listNodes pod cs ws (idx + 1)) (List.range cs.length)
          = List.map (blockAt listNodes pod (c :: cs) (w :: ws) idx ∘ Nat.succ)
              (List.range cs.length) := by
        apply List.map_congr_left
        intro k _
        simp only [Function.comp, blockAt, List.getElem?_cons_succ, Nat.succ_eq_add_one]
        rw [show idx + 1 + k = idx + (k + 1) by omega]
      rw [h0, hmap]

/-! ### Stepwise application and the frame of a substitution -/

theorem applyPatch_step (doc doc1 : PodDoc) (pre post : List PatchOp) (op : PatchOp)
    (h : applyPatch doc (pre ++ op :: post) = some doc1) :
    ∃ d d1, applyPatch doc pre = some d ∧ applyOp d op = some d1 ∧
      applyPatch d1 post = some doc1 := by
  rw [applyPatch_append] at h
  cases hp : applyPatch doc pre with
  | none => rw [hp] at h; simp at h
  | some d =>
    rw [hp, Option.some_bind] at h
    simp only [applyPatch] at h
    cases ho : applyOp d op with
    | none => rw [ho] at h; simp at h
    | some d1 =>
      rw [ho] at h
      exact ⟨d, d1, rfl, ho, h⟩

theorem lookup_rendered (kvs : List (String × String)) (f : Bool) (v key : String)
    (h1 : key ≠ "nvidia.com/mig-2g.20gb") (h2 : key ≠ fallbackKey f) :
    (substituteObject kvs f v).lookup key = kvs.lookup key := by
  unfold substituteObject
  rw [lookup_setKey_ne _ _ _ _ h2, lookup_eraseKey_ne _ _ _ h1]

theorem substitutedDoc_frame (c : Container) (qty : Quantity) (f : Bool) :
    (∀ key, key ≠ "nvidia.com/mig-2g.20gb" → key ≠ fallbackKey f →
      mapIndex (substitutedDoc c qty f).requests key = mapIndex c.toDoc.requests key ∧
      mapIndex (substitutedDoc c qty f).limits key = mapIndex c.toDoc.limits key) ∧
    (mapIndex c.Resources.Limits "nvidia.com/mig-2g.20gb" = none →
      (substitutedDoc c qty f).limits = c.toDoc.limits) := by
  constructor
  · intro key h1 h2
    constructor
    · simp only [substitutedDoc, Container.toDoc]
      cases hr : renderResources c.Resources.Requests with
      | none => rfl
      | some m => simp only [Option.map_some', mapIndex]; exact lookup_rendered m f _ key h1 h2
    · simp only [substitutedDoc, Container.toDoc]
      cases hl : mapIndex c.Resources.Limits mediumMIG with
      | none => rfl
      | some lq =>
        simp only []
        cases hr : renderResources c.Resources.Limits with
        | none => rfl
        | some m =>
          simp only [Option.map_some', mapIndex]; exact lookup_rendered m f _ key h1 h2
  · intro h
    simp only [substitutedDoc, Container.toDoc]
    have : mapIndex c.Resources.Limits mediumMIG = none := h
    rw [this]

/-! ### The text of a quantity reads back as the quantity -/

theorem removeFactors10_spec : ∀ (fuel m : Nat),
    (removeFactors10 fuel m).1 * 10 ^ (removeFactors10 fuel m).2 = m := by
  intro fuel
  induction fuel with
  | zero => intro m; simp [removeFactors10]
  | succ fuel ih =>
    intro m
    unfold removeFactors10
    split
    · rename_i h
      have := ih (m / 10)
      simp only [pow_succ, ← Nat.mul_assoc, this]
      omega
    · simp

theorem removeFactors1024_spec : ∀ (fuel m : Nat),
    (removeFactors1024 fuel m).1 * 1024 ^ (removeFactors1024 fuel m).2 = m := by
  intro fuel
  induction fuel with
  | zero => intro m; simp [removeFactors1024]
  | succ fuel ih =>
    intro m
    unfold removeFactors1024
    split
    · rename_i h
      have := ih (m / 1024)
      simp only [pow_succ, ← Nat.mul_assoc, this]
      omega
    · simp

theorem span_digits (ds suffix : List Char) (hd : ∀ c ∈ ds, c.isDigit = true)
    (hs : (suffix.head?.all (fun c => !c.isDigit && c != '.')) = true) :
    (ds ++ suffix).takeWhile Char.isDigit = ds ∧
      (ds ++ suffix).dropWhile Char.isDigit = suffix := by
  induction ds with
  | nil =>
    cases suffix with
    | nil => simp
    | cons c t =>
      have hc : c.isDigit = false := by
        simp [Option.all] at hs
        exact hs.1
      simp [List.takeWhile, List.dropWhile, hc]
  | cons d ds ih =>
    have hdd := hd d (List.mem_cons_self _ _)
    have := ih (fun c hc => hd c (List.mem_cons_of_mem _ hc))
    simp [List.takeWhile, List.dropWhile, hdd, this]

theorem no_fraction (suffix : List Char)
    (hs : (suffix.head?.all (fun c => !c.isDigit && c != '.')) = true) :
    fractionOf suffix = [] ∧ suffixOf suffix = suffix := by
  unfold fractionOf suffixOf
  constructor
  · split
    · simp [Option.all] at hs
    · rfl
  · split
    · simp [Option.all] at hs
    · rfl

theorem readUnsigned_digits (n : Nat) (suffix : List Char) (mult : Nat)
    (hs : (suffix.head?.all (fun c => !c.isDigit && c != '.')) = true)
    (hm : readSuffix suffix = some mult) :
    readUnsigned (Nat.toDigits 10 n ++ suffix) = some (n * mult) := by
  obtain ⟨hv, hd, hne, _⟩ := toDigits_spec n
  obtain ⟨ht, hdr⟩ := span_digits _ suffix hd hs
  obtain ⟨hf, hsf⟩ := no_fraction suffix hs
  unfold readUnsigned
  simp only [ht, hdr, hf, hsf, hm, List.append_nil, hv]
  simp [hne, Nat.mod_one]

theorem readChars_unsigned (cs : List Char) (h1 : cs.head? ≠ some '-')
    (h2 : cs.head? ≠ some '+') :
    readChars cs = (readUnsigned cs).map (fun (n : Nat) => (n : Int)) := by
  unfold readChars
  split
  · simp at h1
  · simp at h2
  · rfl

theorem digits_head (n : Nat) (suffix : List Char) :
    (Nat.toDigits 10 n ++ suffix).head? ≠ some '-' ∧
      (Nat.toDigits 10 n ++ suffix).head? ≠ some '+' := by
  obtain ⟨_, hd, hne, _⟩ := toDigits_spec n
  cases h : Nat.toDigits 10 n with
  | nil => exact absurd h hne
  | cons c t =>
    have hc : c.isDigit = true := hd c (by rw [h]; exact List.mem_cons_self _ _)
    constructor
    · intro he
      simp at he
      rw [he] at hc
      exact absurd hc (by decide)
    · intro he
      simp at he
      rw [he] at hc
      exact absurd hc (by decide)

theorem readText_signed (q : Quantity) (n : Nat) (suffix : String) (mult : Nat)
    (hs : (suffix.data.head?.all (fun c => !c.isDigit && c != '.')) = true)
    (hm : readSuffix suffix.data = some mult) (hv : n * mult = q.nano.natAbs) :
    readText (q.signText ++ toString n ++ suffix) = some q.nano := by
  have hdata : (q.signText ++ toString n ++ suffix).data
      = q.signText.data ++ (Nat.toDigits 10 n ++ suffix.data) := by
    simp only [String.data_append, List.append_assoc]
    rfl
  unfold readText
  rw [hdata]
  have hu := readUnsigned_digits n suffix.data mult hs hm
  by_cases hneg : q.nano < 0
  · have : q.signText = "-" := by simp [Quantity.signText, hneg]
    rw [this]
    show readChars ('-' :: (Nat.toDigits 10 n ++ suffix.data)) = some q.nano
    simp only [readChars, hu, Option.map_some']
    have hc : ((n * mult : Nat) : Int) = (q.nano.natAbs : Int) := by rw [hv]
    rw [hc]
    congr 1
    omega
  · have : q.signText = "" := by simp [Quantity.signText, hneg]
    rw [this]
    show readChars (Nat.toDigits 10 n ++ suffix.data) = some q.nano
    rw [readChars_unsigned _ (digits_head n _).1 (digits_head n _).2, hu]
    have hc : ((n * mult : Nat) : Int) = (q.nano.natAbs : Int) := by rw [hv]
    rw [Option.map_some', hc]
    congr 1
    omega

theorem decimalAmount_spec (q : Quantity) :
    q.decimalAmount.1 * 10 ^ (9 + q.decimalAmount.2).toNat = q.nano.natAbs ∧
      -9 ≤ q.decimalAmount.2 ∧ q.decimalAmount.2 % 3 = 0 := by
  have hr := removeFactors10_spec q.nano.natAbs q.nano.natAbs
  simp only [Quantity.decimalAmount]
  generalize removeFactors10 q.nano.natAbs q.nano.natAbs = r at hr ⊢
  obtain ⟨a, k⟩ := r
  simp only at hr ⊢
  have hsh : ((-9 + (k : Int)) % 3).toNat ≤ k := by omega
  have hexp : (9 + (-9 + (k : Int) - (((-9 + (k : Int)) % 3).toNat : Int))).toNat
      = k - ((-9 + (k : Int)) % 3).toNat := by omega
  refine ⟨?_, by omega, by omega⟩
  rw [hexp, Nat.mul_assoc, ← pow_add, Nat.add_sub_cancel' hsh, hr]

theorem readSuffix_si (e : Int) (h1 : -9 ≤ e) (h2 : e ≤ 18) (h3 : e % 3 = 0) :
    readSuffix (siSuffix e).data = some (10 ^ (9 + e).toNat) ∧
      ((siSuffix e).data.head?.all (fun c => !c.isDigit && c != '.')) = true := by
  have : e = -9 ∨ e = -6 ∨ e = -3 ∨ e = 0 ∨ e = 3 ∨ e = 6 ∨ e = 9 ∨ e = 12 ∨ e = 15 ∨
      e = 18 := by omega
  rcases this with h | h | h | h | h | h | h | h | h | h <;> subst h <;> decide

theorem readSuffix_binary (p : Nat) (h : p ≤ 6) :
    readSuffix (binarySuffix p).data = some (1024 ^ p * 1000000000) ∧
      ((binarySuffix p).data.head?.all (fun c => !c.isDigit && c != '.')) = true := by
  interval_cases p <;> decide

theorem exponentMultiplier_unsigned (n : Nat) :
    exponentMultiplier (Nat.toDigits 10 n) = some (10 ^ (9 + n)) := by
  obtain ⟨hv, hd, hne, _⟩ := toDigits_spec n
  have hh := digits_head n []
  rw [List.append_nil] at hh
  have hall : (Nat.toDigits 10 n).all Char.isDigit = true := by
    rw [List.all_eq_true]; exact hd
  unfold exponentMultiplier
  split
  · rename_i ds he
    rw [he] at hh
    simp at hh
  · rename_i ds he
    rw [he] at hh
    simp at hh
  · simp [hne, hall, hv]

theorem readSuffix_exponent (e : Int) (h1 : -9 ≤ e) :
    readSuffix (exponentSuffix e).data = some (10 ^ (9 + e).toNat) ∧
      ((exponentSuffix e).data.head?.all (fun c => !c.isDigit && c != '.')) = true := by
  by_cases hpos : 0 < e
  · obtain ⟨n, hn⟩ := Int.eq_ofNat_of_zero_le (Int.le_of_lt hpos)
    subst hn
    have hdata : (exponentSuffix (n : Int)).data = 'e' :: Nat.toDigits 10 n := by
      have hne : ¬ ((n : Int) = 0) := by omega
      simp only [exponentSuffix, hne, if_false, String.data_append]
      rfl
    have hexp : (9 + (n : Int)).toNat = 9 + n := by omega
    rw [hdata, hexp]
    refine ⟨?_, rfl⟩
    have hnone : suffixMultiplier ('e' :: Nat.toDigits 10 n) = none := by
      simp [suffixMultiplier]
    simp only [readSuffix, hnone]
    exact exponentMultiplier_unsigned n
  · have : e = -9 ∨ e = -8 ∨ e = -7 ∨ e = -6 ∨ e = -5 ∨ e = -4 ∨ e = -3 ∨ e = -2 ∨
        e = -1 ∨ e = 0 := by omega
    rcases this with h | h | h | h | h | h | h | h | h | h <;> subst h <;> decide

theorem readText_decimal (q : Quantity) (suffix : Int → String)
    (hs : readSuffix (suffix q.decimalAmount.2).data
        = some (10 ^ (9 + q.decimalAmount.2).toNat) ∧
      ((suffix q.decimalAmount.2).data.head?.all (fun c => !c.isDigit && c != '.')) = true) :
    readText (q.decimalText suffix) = some q.nano :=
  readText_signed q _ _ _ hs.2 hs.1 (decimalAmount_spec q).1

theorem readText_binary (q : Quantity) (h1 : q.nano % 1000000000 = 0)
    (h2 : q.binaryAmount.2 ≤ 6) :
    readText q.binaryText = some q.nano := by
  have hs := readSuffix_binary _ h2
  refine readText_signed q _ _ _ hs.2 hs.1 ?_
  have hr := removeFactors1024_spec (q.nano.natAbs / 1000000000) (q.nano.natAbs / 1000000000)
  unfold Quantity.binaryAmount
  rw [← Nat.mul_assoc, hr]
  omega

theorem readText_canonical (q : Quantity) (hs : q.hasSuffix = true) :
    readText q.canonical = some q.nano := by
  unfold Quantity.canonical
  by_cases h0 : q.nano = 0
  · rw [if_pos h0, h0]; decide
  · rw [if_neg h0]
    have hd := decimalAmount_spec q
    unfold Quantity.hasSuffix at hs
    cases hf : q.format with
    | DecimalSI =>
      simp only [hf, decide_eq_true_eq] at hs
      exact readText_decimal q siSuffix (readSuffix_si _ hd.2.1 hs hd.2.2)
    | DecimalExponent =>
      exact readText_decimal q exponentSuffix (readSuffix_exponent _ hd.2.1)
    | BinarySI =>
      simp only [hf] at hs
      cases hb : q.binaryAsDecimal with
      | true =>
        simp only [hb, if_true, decide_eq_true_eq] at hs
        simp only [if_true]
        exact readText_decimal q siSuffix (readSuffix_si _ hd.2.1 hs hd.2.2)
      | false =>
        simp only [hb, Bool.false_eq_true, if_false, decide_eq_true_eq] at hs
        simp only [Bool.false_eq_true, if_false]
        have hexact : q.nano % 1000000000 = 0 := by
          simp only [Quantity.binaryAsDecimal, Bool.or_eq_false_iff, decide_eq_false_iff_not,
            ne_eq, not_not] at hb
          exact hb.2
        exact readText_binary q hexact hs

theorem readText_String (q : Quantity) (hp : q.printable) :
    readText q.String = some q.nano := by
  unfold Quantity.printable at hp
  unfold Quantity.String
  by_cases hc : q.s.length = 0
  · rw [if_pos hc] at hp ⊢
    exact readText_canonical q hp
  · rw [if_neg hc] at hp ⊢
    exact hp

theorem cmp_zero_iff (q y : Quantity) : q.Cmp y = 0 ↔ q.nano = y.nano := by
  unfold Quantity.Cmp
  split
  · constructor
    · intro h; exact absurd h (by decide)
    · intro h; omega
  · split
    · simp [*]
    · constructor
      · intro h; exact absurd h (by decide)
      · intro h; contradiction


/-! ## The claims -/

/-- C1: when every query for `nvidia.com/mig-2g.20gb` answers available (true,
no error), `handleMutate` builds no patch operation for any container of a
decoded pod, and the response is `Allowed = true` with no `Patch` and no
`PatchType`. -/
theorem medium_available_no_patch {σ : Type} (listNodes : NodeLister σ) (uid : String)
    (pod : Pod) (s : σ)
    (havail : ∀ w, (checkMIGAvailability listNodes mediumMIG w).1 = (true, none)) :
    emittedPatches listNodes pod s = [] ∧
      handleMutate listNodes ⟨⟨uid, Except.ok pod⟩⟩ s =
        { UID := uid, Allowed := true, Result := none, Patch := none, PatchType := none } := by
  have hnil : emittedPatches listNodes pod s = [] := by
    rw [List.eq_nil_iff_forall_not_mem]
    intro op hop
    obtain ⟨j, c, w, _, hin⟩ := emittedPatches_mem listNodes pod s op hop
    rw [iterBlock_of_available listNodes pod j c w (by rw [havail w])] at hin
    simp at hin
  refine ⟨hnil, ?_⟩
  rw [handleMutate_decoded, if_pos hnil]

/-- Witness of C1: a pod requesting one medium MIG partition on a cluster that
offers one. -/
theorem medium_available_no_patch_witness :
    (∀ w, (checkMIGAvailability clusterMedium mediumMIG w).1 = (true, none)) ∧
      emittedPatches clusterMedium podMedium () = [] ∧
      handleMutate clusterMedium ⟨⟨"uid-1", Except.ok podMedium⟩⟩ () =
        { UID := "uid-1", Allowed := true, Result := none, Patch := none, PatchType := none } :=
  ⟨fun _ => rfl,
    medium_available_no_patch clusterMedium "uid-1" podMedium () (fun _ => rfl)⟩

/-- C2: for a decoded pod and a container at index `i` requesting a non-zero
`nvidia.com/mig-2g.20gb` quantity, when the queries answer medium-MIG
unavailable and small-MIG available, the patch list holds exactly one requests
`add` for index `i`, at
`/spec/containers/i/resources/requests/nvidia.com~1mig-1g.10gb`; the requests
pair of that container is followed, with no other provenance operation in
between, by the provenance `add` with value `2g.20gb->1g.10gb`, and every
provenance operation of the list has that value. -/
theorem small_rung_substitution {σ : Type} (listNodes : NodeLister σ) (pod : Pod) (s : σ)
    (i : Nat) (c : Container) (qty : Quantity)
    (hc : pod.Spec.Containers[i]? = some c) (hq : requestsMedium c qty)
    (hmed : ∀ w, (checkMIGAvailability listNodes mediumMIG w).1.1 = false)
    (hsmall : ∀ w, (checkMIGAvailability listNodes smallMIG w).1.1 = true) :
    (emittedPatches listNodes pod s).filter
        (fun op => decide (op.op = "add" ∧ liesUnder (requestsPrefix i) op.path))
      = [{ op := "add",
           path := sprintfD "/spec/containers/" i
             "/resources/requests/nvidia.com~1mig-1g.10gb",
           value := some (PatchValue.str qty.String) }] ∧
    (∃ pre mid post, emittedPatches listNodes pod s =
        pre ++ ([{ op := "remove",
                   path := sprintfD "/spec/containers/" i
                     "/resources/requests/nvidia.com~1mig-2g.20gb",
                   value := none },
                 { op := "add",
                   path := sprintfD "/spec/containers/" i
                     "/resources/requests/nvidia.com~1mig-1g.10gb",
                   value := some (PatchValue.str qty.String) }]
          ++ mid
          ++ [{ op := "add", path := "/metadata/annotations/gpu-webhook.k8s.io~1fallback",
                value := some (PatchValue.str "2g.20gb->1g.10gb") }])
        ++ post ∧
      ∀ op ∈ mid, op.path ≠ "/metadata/annotations/gpu-webhook.k8s.io~1fallback") ∧
    (∀ op ∈ emittedPatches listNodes pod s,
      op.path = "/metadata/annotations/gpu-webhook.k8s.io~1fallback" →
      op.op = "add" ∧ op.value = some (PatchValue.str "2g.20gb->1g.10gb")) := by
  have h := rung_fallback listNodes pod s i c qty true hc hq hmed hsmall
  have hp : sprintfDS "/spec/containers/" i "/resources/requests/" "nvidia.com~1mig-1g.10gb"
      = sprintfD "/spec/containers/" i "/resources/requests/nvidia.com~1mig-1g.10gb" := by
    rw [sprintfDS_eq]; rfl
  simp only [if_true, hp] at h
  refine ⟨h.1, h.2.1, ?_⟩
  intro op hop hpath
  have := h.2.2 op hop hpath
  rw [this]; exact ⟨rfl, rfl⟩

/-- Witness of C2: one container requesting one medium MIG partition, on a
cluster that offers only a small one. -/
theorem small_rung_substitution_witness :
    emittedPatches clusterSmall podMedium () =
      [{ op := "remove", path := "/spec/containers/0/resources/requests/nvidia.com~1mig-2g.20gb",
         value := none },
       { op := "add", path := "/spec/containers/0/resources/requests/nvidia.com~1mig-1g.10gb",
         value := some (PatchValue.str "1") },
       { op := "add", path := "/metadata/annotations", value := some PatchValue.emptyMap },
       { op := "add", path := "/metadata/annotations/gpu-webhook.k8s.io~1fallback",
         value := some (PatchValue.str "2g.20gb->1g.10gb") }] ∧
    (emittedPatches clusterSmall podMedium ()).filter
        (fun op => decide (op.op = "add" ∧ liesUnder (requestsPrefix 0) op.path))
      = [{ op := "add",
           path := sprintfD "/spec/containers/" 0
             "/resources/requests/nvidia.com~1mig-1g.10gb",
           value := some (PatchValue.str (Quantity.ofUnits 1).String) }] :=
  ⟨by decide,
    (small_rung_substitution clusterSmall podMedium () 0 containerMedium (Quantity.ofUnits 1)
      rfl ⟨rfl, rfl⟩ (fun _ => rfl) (fun _ => rfl)).1⟩

/-- C3: for a decoded pod and a container at index `i` requesting a non-zero
`nvidia.com/mig-2g.20gb` quantity, when the queries answer medium-MIG and
small-MIG unavailable (false, which a failed listing also gives), the patch
list holds for index `i` one requests `add`, at
`/spec/containers/i/resources/requests/nvidia.com~1gpu`, followed in the same
block by the provenance `add` with value `2g.20gb->gpu`; nothing is assumed of
`nvidia.com/gpu`. -/
theorem whole_gpu_substitution {σ : Type} (listNodes : NodeLister σ) (pod : Pod) (s : σ)
    (i : Nat) (c : Container) (qty : Quantity)
    (hc : pod.Spec.Containers[i]? = some c) (hq : requestsMedium c qty)
    (hmed : ∀ w, (checkMIGAvailability listNodes mediumMIG w).1.1 = false)
    (hsmall : ∀ w, (checkMIGAvailability listNodes smallMIG w).1.1 = false) :
    (emittedPatches listNodes pod s).filter
        (fun op => decide (op.op = "add" ∧ liesUnder (requestsPrefix i) op.path))
      = [{ op := "add",
           path := sprintfD "/spec/containers/" i "/resources/requests/nvidia.com~1gpu",
           value := some (PatchValue.str qty.String) }] ∧
    (∃ pre mid post, emittedPatches listNodes pod s =
        pre ++ ([{ op := "remove",
                   path := sprintfD "/spec/containers/" i
                     "/resources/requests/nvidia.com~1mig-2g.20gb",
                   value := none },
                 { op := "add",
                   path := sprintfD "/spec/containers/" i
                     "/resources/requests/nvidia.com~1gpu",
                   value := some (PatchValue.str qty.String) }]
          ++ mid
          ++ [{ op := "add", path := "/metadata/annotations/gpu-webhook.k8s.io~1fallback",
                value := some (PatchValue.str "2g.20gb->gpu") }])
        ++ post ∧
      ∀ op ∈ mid, op.path ≠ "/metadata/annotations/gpu-webhook.k8s.io~1fallback") ∧
    (∀ op ∈ emittedPatches listNodes pod s,
      op.path = "/metadata/annotations/gpu-webhook.k8s.io~1fallback" →
      op.op = "add" ∧ op.value = some (PatchValue.str "2g.20gb->gpu")) := by
  have h := rung_fallback listNodes pod s i c qty false hc hq hmed hsmall
  have hp : sprintfDS "/spec/containers/" i "/resources/requests/" "nvidia.com~1gpu"
      = sprintfD "/spec/containers/" i "/resources/requests/nvidia.com~1gpu" := by
    rw [sprintfDS_eq]; rfl
  simp only [Bool.false_eq_true, if_false, hp] at h
  refine ⟨h.1, h.2.1, ?_⟩
  intro op hop hpath
  have := h.2.2 op hop hpath
  rw [this]; exact ⟨rfl, rfl⟩

/-- Witness of C3: one container requesting one medium MIG partition, on a
cluster whose node listing fails. -/
theorem whole_gpu_substitution_witness :
    emittedPatches clusterDown podMedium () =
      [{ op := "remove", path := "/spec/containers/0/resources/requests/nvidia.com~1mig-2g.20gb",
         value := none },
       { op := "add", path := "/spec/containers/0/resources/requests/nvidia.com~1gpu",
         value := some (PatchValue.str "1") },
       { op := "add", path := "/metadata/annotations", value := some PatchValue.emptyMap },
       { op := "add", path := "/metadata/annotations/gpu-webhook.k8s.io~1fallback",
         value := some (PatchValue.str "2g.20gb->gpu") }] ∧
    (emittedPatches clusterDown podMedium ()).filter
        (fun op => decide (op.op = "add" ∧ liesUnder (requestsPrefix 0) op.path))
      = [{ op := "add",
           path := sprintfD "/spec/containers/" 0 "/resources/requests/nvidia.com~1gpu",
           value := some (PatchValue.str (Quantity.ofUnits 1).String) }] :=
  ⟨by decide,
    (whole_gpu_substitution clusterDown podMedium () 0 containerMedium (Quantity.ofUnits 1)
      rfl ⟨rfl, rfl⟩ (fun _ => rfl) (fun _ => rfl)).1⟩

/-- C4, as stated, fails: a review whose pod payload does not decode gets a
response with `Allowed = false`. -/
theorem undecodable_pod_not_allowed :
    (handleMutate clusterEmpty
      ⟨⟨"uid-1", Except.error "unexpected end of JSON input"⟩⟩ ()).Allowed = false := by
  decide

/-- C4, amended: for every review whose pod payload decodes, every cluster and
every state, the response has `Allowed = true`, no `Result` and the UID of the
request; for a payload that does not decode the response carries the decoding
error as `Result.Message` and leaves `Allowed` false. -/
theorem decoded_pod_always_allowed {σ : Type} (listNodes : NodeLister σ) (uid : String)
    (s : σ) :
    (∀ pod : Pod,
      (handleMutate listNodes ⟨⟨uid, Except.ok pod⟩⟩ s).Allowed = true ∧
      (handleMutate listNodes ⟨⟨uid, Except.ok pod⟩⟩ s).Result = none ∧
      (handleMutate listNodes ⟨⟨uid, Except.ok pod⟩⟩ s).UID = uid) ∧
    (∀ err : String,
      handleMutate listNodes ⟨⟨uid, Except.error err⟩⟩ s =
        { UID := "", Allowed := false, Result := some { Message := err },
          Patch := none, PatchType := none }) := by
  refine ⟨fun pod => ?_, fun err => rfl⟩
  rw [handleMutate_decoded]
  by_cases h : emittedPatches listNodes pod s = []
  · rw [if_pos h]; exact ⟨rfl, rfl, rfl⟩
  · rw [if_neg h]; exact ⟨rfl, rfl, rfl⟩

/-- C5: for a decoded pod, every cluster and every state, an operation whose
path lies under `/spec/containers/i/` is emitted only if container `i` exists
and its requests hold `nvidia.com/mig-2g.20gb` with a non-zero quantity; and a
pod none of whose containers has such a request gets `Allowed = true` with no
patch, whatever the cluster offers. -/
theorem only_medium_requests_patched {σ : Type} (listNodes : NodeLister σ) (uid : String)
    (pod : Pod) (s : σ) :
    (∀ op ∈ emittedPatches listNodes pod s, ∀ i, liesUnder (containerPrefix i) op.path →
      ∃ c qty, pod.Spec.Containers[i]? = some c ∧ requestsMedium c qty) ∧
    ((∀ c ∈ pod.Spec.Containers, ∀ qty, ¬ requestsMedium c qty) →
      emittedPatches listNodes pod s = [] ∧
      handleMutate listNodes ⟨⟨uid, Except.ok pod⟩⟩ s =
        { UID := uid, Allowed := true, Result := none, Patch := none, PatchType := none }) := by
  constructor
  · intro op hop i hu
    obtain ⟨j, c, w, hj, hin⟩ := emittedPatches_mem listNodes pod s op hop
    have hij := iterBlock_index hin hu
    subst hij
    rcases iterBlock_cases listNodes pod i c w with h | ⟨qty, hq, _, _⟩
    · rw [h] at hin; simp at hin
    · exact ⟨c, qty, hj, hq⟩
  · intro hno
    have hnil : emittedPatches listNodes pod s = [] := by
      rw [List.eq_nil_iff_forall_not_mem]
      intro op hop
      obtain ⟨j, c, w, hj, hin⟩ := emittedPatches_mem listNodes pod s op hop
      have hc : c ∈ pod.Spec.Containers := by
        obtain ⟨hlt, hget⟩ := List.getElem?_eq_some_iff.1 hj
        exact hget ▸ List.getElem_mem hlt
      rw [iterBlock_of_not_requested listNodes pod j c w (hno c hc)] at hin
      simp at hin
    refine ⟨hnil, ?_⟩
    rw [handleMutate_decoded, if_pos hnil]

/-- Witness of C5: a pod requesting one whole GPU, on a cluster without nodes. -/
theorem only_medium_requests_patched_witness :
    (∀ c ∈ podGPU.Spec.Containers, ∀ qty, ¬ requestsMedium c qty) ∧
      emittedPatches clusterEmpty podGPU () = [] ∧
      handleMutate clusterEmpty ⟨⟨"uid-1", Except.ok podGPU⟩⟩ () =
        { UID := "uid-1", Allowed := true, Result := none, Patch := none, PatchType := none } :=
  have h : ∀ c ∈ podGPU.Spec.Containers, ∀ qty, ¬ requestsMedium c qty := by
    intro c hc qty hq
    have hc1 : c = containerGPU := by simpa [podGPU] using hc
    subst hc1
    have h1 := hq.1
    simp [mapIndex, containerGPU, mediumMIG, List.lookup] at h1
  ⟨h, (only_medium_requests_patched clusterEmpty "uid-1" podGPU ()).2 h⟩

/-- C6, as stated, fails, twice.  For a container whose medium-MIG request was
written `+1`, the requests `add` carries `+1`, the text the quantity has
cached, while the canonical string of the quantity is `1`.  For a container
whose medium-MIG request was written `1000E`, the requests `add` carries `1`:
the canonical exponent 21 has no decimal SI suffix and none is written, so the
emitted text denotes one unit, not ten to the power 21. -/
theorem emitted_text_not_canonical :
    (substituted clusterEmpty podPlus () 0 ∧
      requestsMedium containerPlus quantityPlus ∧
      (emittedPatches clusterEmpty podPlus ()).filter
          (fun op => decide (op.op = "add" ∧ liesUnder (requestsPrefix 0) op.path))
        = [⟨"add", "/spec/containers/0/resources/requests/nvidia.com~1gpu",
            some (PatchValue.str "+1")⟩] ∧
      quantityPlus.canonical = "1") ∧
    (substituted clusterEmpty podHuge () 0 ∧
      requestsMedium containerHuge quantityHuge ∧
      (emittedPatches clusterEmpty podHuge ()).filter
          (fun op => decide (op.op = "add" ∧ liesUnder (requestsPrefix 0) op.path))
        = [⟨"add", "/spec/containers/0/resources/requests/nvidia.com~1gpu",
            some (PatchValue.str "1")⟩] ∧
      readText "1" = some 1000000000 ∧
      quantityHuge.nano = 1000000000000000000000000000000) := by
  decide

/-- C6, amended: for every substituted container `i` of a decoded pod, the patch
list holds exactly one requests `add` for `i`, whose value is the text
`String()` gives for the container's own `nvidia.com/mig-2g.20gb` request
quantity (the text the quantity has cached, else its canonical form), and, when
the limits hold the medium-MIG key, exactly one limits `add` for `i`, whose
value is the text `String()` gives for the container's own medium-MIG limit
quantity (none when they do not); both target the same replacement resource.
The text reads back as the very quantity, nothing scaled or altered, whenever
the quantity is printable: its cached text, if any, denotes it, and else its
canonical exponent has a suffix in the table of its format. -/
theorem like_for_like_quantities {σ : Type} (listNodes : NodeLister σ) (pod : Pod) (s : σ)
    (i : Nat) (c : Container) (hc : pod.Spec.Containers[i]? = some c)
    (hsub : substituted listNodes pod s i) :
    ∃ (qty : Quantity) (esc : String), requestsMedium c qty ∧
      (esc = "nvidia.com~1mig-1g.10gb" ∨ esc = "nvidia.com~1gpu") ∧
      (emittedPatches listNodes pod s).filter
          (fun op => decide (op.op = "add" ∧ liesUnder (requestsPrefix i) op.path))
        = [{ op := "add",
             path := sprintfDS "/spec/containers/" i "/resources/requests/" esc,
             value := some (PatchValue.str qty.String) }] ∧
      qty.String = (if qty.s.length = 0 then qty.canonical else qty.s) ∧
      (qty.printable → readText qty.String = some qty.nano) ∧
      match mapIndex c.Resources.Limits mediumMIG with
      | none =>
        (emittedPatches listNodes pod s).filter
            (fun op => decide (op.op = "add" ∧ liesUnder (limitsPrefix i) op.path)) = []
      | some limitQty =>
        (emittedPatches listNodes pod s).filter
            (fun op => decide (op.op = "add" ∧ liesUnder (limitsPrefix i) op.path))
          = [{ op := "add",
               path := sprintfDS "/spec/containers/" i "/resources/limits/" esc,
               value := some (PatchValue.str limitQty.String) }] ∧
        limitQty.String = (if limitQty.s.length = 0 then limitQty.canonical else limitQty.s) ∧
        (limitQty.printable → readText limitQty.String = some limitQty.nano) := by
  obtain ⟨qty, f, hq, hQ⟩ := substituted_block listNodes pod s i c hc hsub
  have hlim := hQ (fun op => decide (op.op = "add" ∧ liesUnder (limitsPrefix i) op.path))
    (fun op h => liesUnder_trans (containerPrefix_limitsPrefix i) (of_decide_eq_true h).2)
  rw [filter_limits_adds_block] at hlim
  refine ⟨qty, if f then "nvidia.com~1mig-1g.10gb" else "nvidia.com~1gpu", hq, ?_, ?_, rfl,
    readText_String qty, ?_⟩
  · cases f <;> simp
  · rw [hQ _ (fun op h => liesUnder_trans (containerPrefix_requestsPrefix i)
      (of_decide_eq_true h).2)]
    exact filter_requests_adds_block pod i c qty f
  · cases hl : mapIndex c.Resources.Limits mediumMIG with
    | none => simpa [hl] using hlim
    | some limitQty =>
      rw [hl] at hlim
      exact ⟨hlim, rfl, readText_String limitQty⟩

/-- Witness of C6: a container whose medium-MIG request was written `1024` and
whose medium-MIG limit was written `1Ki`, on a cluster without nodes: the two
`add` operations carry `1024` and `1Ki`. -/
theorem like_for_like_quantities_witness :
    substituted clusterEmpty podKi () 0 ∧
    (emittedPatches clusterEmpty podKi ()).filter
        (fun op => decide (op.op = "add" ∧ liesUnder (requestsPrefix 0) op.path))
      = [⟨"add", "/spec/containers/0/resources/requests/nvidia.com~1gpu",
          some (PatchValue.str "1024")⟩] ∧
    (emittedPatches clusterEmpty podKi ()).filter
        (fun op => decide (op.op = "add" ∧ liesUnder (limitsPrefix 0) op.path))
      = [⟨"add", "/spec/containers/0/resources/limits/nvidia.com~1gpu",
          some (PatchValue.str "1Ki")⟩] ∧
    quantity1024.printable ∧ quantityKi.printable ∧
    ∃ (qty : Quantity) (esc : String), requestsMedium containerKi qty ∧
      (esc = "nvidia.com~1mig-1g.10gb" ∨ esc = "nvidia.com~1gpu") ∧
      (emittedPatches clusterEmpty podKi ()).filter
          (fun op => decide (op.op = "add" ∧ liesUnder (requestsPrefix 0) op.path))
        = [{ op := "add",
             path := sprintfDS "/spec/containers/" 0 "/resources/requests/" esc,
             value := some (PatchValue.str qty.String) }] ∧
      qty.String = (if qty.s.length = 0 then qty.canonical else qty.s) ∧
      (qty.printable → readText qty.String = some qty.nano) ∧
      match mapIndex containerKi.Resources.Limits mediumMIG with
      | none =>
        (emittedPatches clusterEmpty podKi ()).filter
            (fun op => decide (op.op = "add" ∧ liesUnder (limitsPrefix 0) op.path)) = []
      | some limitQty =>
        (emittedPatches clusterEmpty podKi ()).filter
            (fun op => decide (op.op = "add" ∧ liesUnder (limitsPrefix 0) op.path))
          = [{ op := "add",
               path := sprintfDS "/spec/containers/" 0 "/resources/limits/" esc,
               value := some (PatchValue.str limitQty.String) }] ∧
        limitQty.String = (if limitQty.s.length = 0 then limitQty.canonical else limitQty.s) ∧
        (limitQty.printable → readText limitQty.String = some limitQty.nano) :=
  ⟨by decide, by decide, by decide, by decide, by decide,
    like_for_like_quantities clusterEmpty podKi () 0 containerKi rfl (by decide)⟩

/-- C7, as stated, fails, twice.  For a container requesting one medium MIG
partition with a limit of two, the one limits `add` carries `2`, which denotes
two units, not the one unit of the request.  For a container whose medium-MIG
request was written `1000E`, the one requests `add` carries `1`, which denotes
one unit, not the ten to the power 21 units of the request. -/
theorem limits_add_not_request_quantity :
    (substituted clusterEmpty podLimited () 0 ∧
      requestsMedium containerLimited (Quantity.ofUnits 1) ∧
      (emittedPatches clusterEmpty podLimited ()).filter
          (fun op => decide (op.op = "add" ∧ liesUnder (limitsPrefix 0) op.path))
        = [⟨"add", "/spec/containers/0/resources/limits/nvidia.com~1gpu",
            some (PatchValue.str "2")⟩] ∧
      readText "2" = some 2000000000 ∧
      (Quantity.ofUnits 1).nano = 1000000000) ∧
    (substituted clusterEmpty podHuge () 0 ∧
      requestsMedium containerHuge quantityHuge ∧
      (emittedPatches clusterEmpty podHuge ()).filter
          (fun op => decide (op.op = "add" ∧ liesUnder (requestsPrefix 0) op.path))
        = [⟨"add", "/spec/containers/0/resources/requests/nvidia.com~1gpu",
            some (PatchValue.str "1")⟩] ∧
      readText "1" = some 1000000000 ∧
      quantityHuge.nano = 1000000000000000000000000000000) := by
  decide

/-- C7, amended: for every substituted container `i` of a decoded pod, with
`qty` its non-zero medium-MIG request quantity, the patch list holds exactly
one requests `add` for `i`, and its value, the text of `qty`, denotes the
numeric value of `qty` whenever `qty` is printable.  When the limits hold the
medium-MIG key, the patch list holds exactly one limits `add` for `i`; its
value is the text of the container's own limit quantity, which (for a printable
limit) denotes the numeric value of the limit, and so that of the request
exactly when the container declares a limit numerically equal to the request,
whatever the two texts. -/
theorem request_quantity_preserved {σ : Type} (listNodes : NodeLister σ) (pod : Pod) (s : σ)
    (i : Nat) (c : Container) (hc : pod.Spec.Containers[i]? = some c)
    (hsub : substituted listNodes pod s i) :
    ∃ (qty : Quantity) (esc : String), requestsMedium c qty ∧
      (emittedPatches listNodes pod s).filter
          (fun op => decide (op.op = "add" ∧ liesUnder (requestsPrefix i) op.path))
        = [{ op := "add",
             path := sprintfDS "/spec/containers/" i "/resources/requests/" esc,
             value := some (PatchValue.str qty.String) }] ∧
      (qty.printable → readText qty.String = some qty.nano) ∧
      ∀ limitQty, mapIndex c.Resources.Limits mediumMIG = some limitQty →
        (emittedPatches listNodes pod s).filter
            (fun op => decide (op.op = "add" ∧ liesUnder (limitsPrefix i) op.path))
          = [{ op := "add",
               path := sprintfDS "/spec/containers/" i "/resources/limits/" esc,
               value := some (PatchValue.str limitQty.String) }] ∧
        (limitQty.printable →
          readText limitQty.String = some limitQty.nano ∧
          (readText limitQty.String = some qty.nano ↔ limitQty.Cmp qty = 0)) := by
  obtain ⟨qty, f, hq, hQ⟩ := substituted_block listNodes pod s i c hc hsub
  have hlim := hQ (fun op => decide (op.op = "add" ∧ liesUnder (limitsPrefix i) op.path))
    (fun op h => liesUnder_trans (containerPrefix_limitsPrefix i) (of_decide_eq_true h).2)
  rw [filter_limits_adds_block] at hlim
  refine ⟨qty, if f then "nvidia.com~1mig-1g.10gb" else "nvidia.com~1gpu", hq, ?_,
    readText_String qty, ?_⟩
  · rw [hQ _ (fun op h => liesUnder_trans (containerPrefix_requestsPrefix i)
      (of_decide_eq_true h).2)]
    exact filter_requests_adds_block pod i c qty f
  · intro limitQty hl
    rw [hl] at hlim
    refine ⟨hlim, fun hp => ?_⟩
    have hr := readText_String limitQty hp
    refine ⟨hr, ?_⟩
    rw [hr, cmp_zero_iff]
    exact ⟨fun h => Option.some.inj h, fun h => by rw [h]⟩

/-- Witness of C7: a container whose medium-MIG request was written `1024` and
whose medium-MIG limit was written `1Ki`, on a cluster without nodes: the
requests `add` carries `1024`, the limits `add` carries `1Ki`, and both texts
denote 1024 units. -/
theorem request_quantity_preserved_witness :
    substituted clusterEmpty podKi () 0 ∧
    (emittedPatches clusterEmpty podKi ()).filter
        (fun op => decide (op.op = "add" ∧ liesUnder (requestsPrefix 0) op.path))
      = [⟨"add", "/spec/containers/0/resources/requests/nvidia.com~1gpu",
          some (PatchValue.str "1024")⟩] ∧
    (emittedPatches clusterEmpty podKi ()).filter
        (fun op => decide (op.op = "add" ∧ liesUnder (limitsPrefix 0) op.path))
      = [⟨"add", "/spec/containers/0/resources/limits/nvidia.com~1gpu",
          some (PatchValue.str "1Ki")⟩] ∧
    readText "1024" = some 1024000000000 ∧ readText "1Ki" = some 1024000000000 ∧
    quantityKi.printable ∧ quantityKi.Cmp quantity1024 = 0 ∧
    ∃ (qty : Quantity) (esc : String), requestsMedium containerKi qty ∧
      (emittedPatches clusterEmpty podKi ()).filter
          (fun op => decide (op.op = "add" ∧ liesUnder (requestsPrefix 0) op.path))
        = [{ op := "add",
             path := sprintfDS "/spec/containers/" 0 "/resources/requests/" esc,
             value := some (PatchValue.str qty.String) }] ∧
      (qty.printable → readText qty.String = some qty.nano) ∧
      ∀ limitQty, mapIndex containerKi.Resources.Limits mediumMIG = some limitQty →
        (emittedPatches clusterEmpty podKi ()).filter
            (fun op => decide (op.op = "add" ∧ liesUnder (limitsPrefix 0) op.path))
          = [{ op := "add",
               path := sprintfDS "/spec/containers/" 0 "/resources/limits/" esc,
               value := some (PatchValue.str limitQty.String) }] ∧
        (limitQty.printable →
          readText limitQty.String = some limitQty.nano ∧
          (readText limitQty.String = some qty.nano ↔ limitQty.Cmp qty = 0)) :=
  ⟨by decide, by decide, by decide, by decide, by decide, by decide, by decide,
    request_quantity_preserved clusterEmpty podKi () 0 containerKi rfl (by decide)⟩

/-- C8: for every substituted container `i` of a decoded pod, operations under
`/spec/containers/i/resources/limits/` are emitted if and only if the limits map
holds the key `nvidia.com/mig-2g.20gb` (with any quantity); when it does they are
exactly the `remove` of the medium-MIG limits key followed by the `add` of the
replacement key with the limit quantity, the replacement being that of the
requests `add`; when it does not (limits nil or key absent) there is none. -/
theorem limits_patched_iff_declared {σ : Type} (listNodes : NodeLister σ) (pod : Pod) (s : σ)
    (i : Nat) (c : Container) (hc : pod.Spec.Containers[i]? = some c)
    (hsub : substituted listNodes pod s i) :
    ((∃ op ∈ emittedPatches listNodes pod s, liesUnder (limitsPrefix i) op.path) ↔
      (mapIndex c.Resources.Limits mediumMIG).isSome = true) ∧
    ∃ (qty : Quantity) (esc : String),
      (esc = "nvidia.com~1mig-1g.10gb" ∨ esc = "nvidia.com~1gpu") ∧
      ({ op := "add",
         path := sprintfDS "/spec/containers/" i "/resources/requests/" esc,
         value := some (PatchValue.str qty.String) } : PatchOp)
        ∈ emittedPatches listNodes pod s ∧
      (emittedPatches listNodes pod s).filter
          (fun op => decide (liesUnder (limitsPrefix i) op.path))
        = match mapIndex c.Resources.Limits mediumMIG with
          | none => []
          | some limitQty =>
            [{ op := "remove",
               path := sprintfD "/spec/containers/" i
                 "/resources/limits/nvidia.com~1mig-2g.20gb",
               value := none },
             { op := "add",
               path := sprintfDS "/spec/containers/" i "/resources/limits/" esc,
               value := some (PatchValue.str limitQty.String) }] := by
  obtain ⟨qty, f, hq, hQ⟩ := substituted_block listNodes pod s i c hc hsub
  have hlim : (emittedPatches listNodes pod s).filter
      (fun op => decide (liesUnder (limitsPrefix i) op.path))
      = limitsOps i c (if f then "nvidia.com~1mig-1g.10gb" else "nvidia.com~1gpu") := by
    rw [hQ _ (fun op h => liesUnder_trans (containerPrefix_limitsPrefix i)
      (of_decide_eq_true h))]
    exact filter_limits_block pod i c qty f
  constructor
  · constructor
    · rintro ⟨op, hop, hu⟩
      have hmem : op ∈ (emittedPatches listNodes pod s).filter
          (fun o => decide (liesUnder (limitsPrefix i) o.path)) :=
        List.mem_filter.2 ⟨hop, decide_eq_true hu⟩
      rw [hlim] at hmem
      unfold limitsOps at hmem
      cases hl : mapIndex c.Resources.Limits mediumMIG with
      | none => simp [hl] at hmem
      | some lq => rfl
    · intro hsome
      cases hl : mapIndex c.Resources.Limits mediumMIG with
      | none => rw [hl] at hsome; exact absurd hsome (by decide)
      | some lq =>
        have hmem : (⟨"remove",
            sprintfD "/spec/containers/" i "/resources/limits/nvidia.com~1mig-2g.20gb",
            none⟩ : PatchOp) ∈ (emittedPatches listNodes pod s).filter
              (fun o => decide (liesUnder (limitsPrefix i) o.path)) := by
          rw [hlim]; simp [limitsOps, hl]
        obtain ⟨h1, h2⟩ := List.mem_filter.1 hmem
        exact ⟨_, h1, of_decide_eq_true h2⟩
  · refine ⟨qty, if f then "nvidia.com~1mig-1g.10gb" else "nvidia.com~1gpu", ?_, ?_, ?_⟩
    · cases f <;> simp
    · have hreq := hQ (fun op => decide (op.op = "add" ∧ liesUnder (requestsPrefix i) op.path))
        (fun op h => liesUnder_trans (containerPrefix_requestsPrefix i)
          (of_decide_eq_true h).2)
      rw [filter_requests_adds_block] at hreq
      have : (⟨"add", sprintfDS "/spec/containers/" i "/resources/requests/"
            (if f then "nvidia.com~1mig-1g.10gb" else "nvidia.com~1gpu"),
          some (PatchValue.str qty.String)⟩ : PatchOp)
          ∈ (emittedPatches listNodes pod s).filter
            (fun op => decide (op.op = "add" ∧ liesUnder (requestsPrefix i) op.path)) := by
        rw [hreq]; exact List.mem_singleton.2 rfl
      exact (List.mem_filter.1 this).1
    · rw [hlim]; rfl

/-- Witness of C8: a container with a medium-MIG limit, on a cluster without
nodes. -/
theorem limits_patched_iff_declared_witness :
    substituted clusterEmpty podLimited () 0 ∧
    ((∃ op ∈ emittedPatches clusterEmpty podLimited (), liesUnder (limitsPrefix 0) op.path) ↔
      (mapIndex containerLimited.Resources.Limits mediumMIG).isSome = true) :=
  ⟨by decide, (limits_patched_iff_declared clusterEmpty podLimited () 0 containerLimited rfl
    (by decide)).1⟩

/-- C9, as stated, fails: for a container whose medium-MIG request was written
`1000E`, on a cluster without nodes, the patched pod holds the replacement key
`nvidia.com/gpu` with the text `1`, which denotes one unit, not the ten to the
power 21 units of the original request. -/
theorem patched_request_loses_magnitude :
    substituted clusterEmpty podHuge () 0 ∧
    requestsMedium containerHuge quantityHuge ∧
    applyPatch podHuge.toDoc (emittedPatches clusterEmpty podHuge ()) =
      some { annotations := some [("gpu-webhook.k8s.io/fallback", "2g.20gb->gpu")],
             containers := [{ limits := some [("nvidia.com/gpu", "1")],
                              requests := some [("nvidia.com/gpu", "1")] }] } ∧
    readText "1" = some 1000000000 ∧
    quantityHuge.nano = 1000000000000000000000000000000 := by
  decide

/-- C9, amended: for every decoded pod (any number of containers), cluster and
state, the emitted patch list applies in order to the document of the pod, and
in the resulting document the requests of every substituted container no longer
hold `nvidia.com/mig-2g.20gb` and hold the replacement resource of that
container (the one its requests `add` targets) with the text `String()` gives
for its original medium-MIG request quantity; that text denotes the original
quantity whenever the quantity is printable (its cached text, if any, denotes
it, and else its canonical exponent has a suffix in the table of its format).
Nothing is assumed of the requests the container already had for the
replacement resource. -/
theorem patched_requests_hold_replacement {σ : Type} (listNodes : NodeLister σ) (pod : Pod)
    (s : σ) :
    ∃ doc1, applyPatch pod.toDoc (emittedPatches listNodes pod s) = some doc1 ∧
      ∀ i c, pod.Spec.Containers[i]? = some c → substituted listNodes pod s i →
        ∃ (qty : Quantity) (f : Bool) (cd : ContainerDoc) (text : String),
          requestsMedium c qty ∧
          (⟨"add", sprintfDS "/spec/containers/" i "/resources/requests/"
              (fallbackEscaped f), some (PatchValue.str text)⟩ : PatchOp)
            ∈ emittedPatches listNodes pod s ∧
          doc1.containers[i]? = some cd ∧
          mapIndex cd.requests "nvidia.com/mig-2g.20gb" = none ∧
          mapIndex cd.requests (fallbackKey f) = some text ∧
          text = qty.String ∧
          (qty.printable → readText text = some qty.nano) := by
  obtain ⟨doc1, happ, _, hper, _⟩ := apply_emitted listNodes pod s
  refine ⟨doc1, happ, ?_⟩
  intro i c hc hsub
  obtain ⟨qty, f, hq, hQ, hdoc⟩ := (hper i c hc).2 hsub
  have hreq := substitutedDoc_requests c qty f hq
  exact ⟨qty, f, _, qty.String, hq, requests_add_mem listNodes pod s i c qty f hQ, hdoc,
    hreq.1, hreq.2, rfl, readText_String qty⟩

/-- Witness of C9: two containers, the first already requesting a whole GPU
beside two medium MIG partitions, on a cluster without nodes. -/
theorem patched_requests_hold_replacement_witness :
    substituted clusterEmpty podBoth () 0 ∧
    applyPatch podBoth.toDoc (emittedPatches clusterEmpty podBoth ()) =
      some { annotations := some [("gpu-webhook.k8s.io/fallback", "2g.20gb->gpu"),
                                  ("team", "ml")],
             containers := [{ limits := none, requests := some [("nvidia.com/gpu", "2")] },
                            { limits := some [("nvidia.com/gpu", "2")],
                              requests := some [("nvidia.com/gpu", "1")] }] } ∧
    readText "2" = some 2000000000 ∧
    (Quantity.ofUnits 2).printable ∧
    ∃ doc1, applyPatch podBoth.toDoc (emittedPatches clusterEmpty podBoth ()) = some doc1 ∧
      ∃ (qty : Quantity) (f : Bool) (cd : ContainerDoc) (text : String),
        requestsMedium containerBoth qty ∧
        (⟨"add", sprintfDS "/spec/containers/" 0 "/resources/requests/"
            (fallbackEscaped f), some (PatchValue.str text)⟩ : PatchOp)
          ∈ emittedPatches clusterEmpty podBoth () ∧
        doc1.containers[0]? = some cd ∧
        mapIndex cd.requests "nvidia.com/mig-2g.20gb" = none ∧
        mapIndex cd.requests (fallbackKey f) = some text ∧
        text = qty.String ∧
        (qty.printable → readText text = some qty.nano) :=
  ⟨by decide, by decide, by decide, by decide,
    (patched_requests_hold_replacement clusterEmpty podBoth ()).imp
      (fun _ h => ⟨h.1, h.2 0 containerBoth rfl (by decide)⟩)⟩

/-- C10: for every decoded pod, cluster and state for which at least one
container is substituted, the emitted patch list applies in order to the
document of the pod, and the annotations of the result hold the key
`gpu-webhook.k8s.io/fallback` with a value that is `2g.20gb->1g.10gb` or
`2g.20gb->gpu` and nothing else: the first when every substituted container
used the small-MIG rung, the second when every one used the whole-GPU rung. -/
theorem provenance_annotation_set {σ : Type} (listNodes : NodeLister σ) (pod : Pod) (s : σ)
    (hsub : emittedPatches listNodes pod s ≠ []) :
    ∃ doc1, applyPatch pod.toDoc (emittedPatches listNodes pod s) = some doc1 ∧
      ∃ v, mapIndex doc1.annotations "gpu-webhook.k8s.io/fallback" = some v ∧
        (v = "2g.20gb->1g.10gb" ∨ v = "2g.20gb->gpu") ∧
        (usedRung listNodes pod s true → v = "2g.20gb->1g.10gb") ∧
        (usedRung listNodes pod s false → v = "2g.20gb->gpu") := by
  obtain ⟨doc1, happ, _, _, _, hne, _⟩ := apply_emitted listNodes pod s
  obtain ⟨f, hmem, hval⟩ := hne hsub
  obtain ⟨j, qty, hj, hadd⟩ := provenance_rung listNodes pod s f hmem
  have hrung : ∀ b, usedRung listNodes pod s b → f = b := by
    intro b hb
    have hpath := hb _ hadd rfl j hj (under_requests_self j _)
    have hesc := sprintfDS_inj _ _ _ _ _ hpath
    cases f <;> cases b <;> first | rfl | (exact absurd hesc (by decide))
  refine ⟨doc1, happ, fallbackLabel f, hval, ?_, ?_, ?_⟩
  · cases f
    · exact Or.inr rfl
    · exact Or.inl rfl
  · intro h; rw [hrung true h]; rfl
  · intro h; rw [hrung false h]; rfl

/-- Witness of C10: a pod without annotations on a cluster that offers only a
small MIG partition. -/
theorem provenance_annotation_set_witness :
    emittedPatches clusterSmall podMedium () ≠ [] ∧ usedRung clusterSmall podMedium () true ∧
    ∃ doc1, applyPatch podMedium.toDoc (emittedPatches clusterSmall podMedium ()) = some doc1 ∧
      ∃ v, mapIndex doc1.annotations "gpu-webhook.k8s.io/fallback" = some v ∧
        v = "2g.20gb->1g.10gb" :=
  ⟨by decide, by decide,
    (provenance_annotation_set clusterSmall podMedium () (by decide)).imp
      (fun _ h => ⟨h.1, h.2.imp (fun _ hv => ⟨hv.1, hv.2.2.1 (by decide)⟩)⟩)⟩

/-- C11: with `escape` the RFC 6901 escaping (every `~` replaced by `~0`, then
every `/` by `~1`), every path of the emitted patch list is
`/spec/containers/i/resources/requests/` or `/spec/containers/i/resources/limits/`
(for a container index `i` of the pod) followed by `escape k` for `k` one of
`nvidia.com/mig-2g.20gb`, `nvidia.com/mig-1g.10gb`, `nvidia.com/gpu`, or is
`/metadata/annotations`, or is `/metadata/annotations/` followed by
`escape "gpu-webhook.k8s.io/fallback"`; the hard-coded escaping of the fallback
resource agrees with `escape` on both values the resource can take; and each of
the four keys escapes to a single token, free of `/`, that unescapes to the key. -/
theorem emitted_paths_escaped {σ : Type} (listNodes : NodeLister σ) (pod : Pod) (s : σ) :
    (∀ op ∈ emittedPatches listNodes pod s,
      (∃ i k, i < pod.Spec.Containers.length ∧
        (k = "nvidia.com/mig-2g.20gb" ∨ k = "nvidia.com/mig-1g.10gb" ∨ k = "nvidia.com/gpu") ∧
        (op.path = requestsPrefix i ++ escape k ∨ op.path = limitsPrefix i ++ escape k)) ∨
      op.path = "/metadata/annotations" ∨
      op.path = "/metadata/annotations/" ++ escape "gpu-webhook.k8s.io/fallback") ∧
    (∀ fallbackResource : String,
      fallbackResource = "nvidia.com/gpu" ∨ fallbackResource = "nvidia.com/mig-1g.10gb" →
      escapeFallback fallbackResource = escape fallbackResource) ∧
    (∀ k : String,
      k = "nvidia.com/mig-2g.20gb" ∨ k = "nvidia.com/mig-1g.10gb" ∨ k = "nvidia.com/gpu" ∨
        k = "gpu-webhook.k8s.io/fallback" →
      '/' ∉ (escape k).data ∧ String.mk (unescapeToken (escape k).data) = k) := by
  refine ⟨?_, ?_, ?_⟩
  · intro op hop
    obtain ⟨j, c, w, hj, hin⟩ := emittedPatches_mem listNodes pod s op hop
    rcases iterBlock_cases listNodes pod j c w with hb | ⟨qty, _, _, hb⟩
    · rw [hb] at hin; simp at hin
    · rw [hb] at hin
      rcases block_paths hin with ⟨k, hk, hp⟩ | h | h
      · exact Or.inl ⟨j, k, (List.getElem?_eq_some_iff.1 hj).1, hk, hp⟩
      · exact Or.inr (Or.inl h)
      · exact Or.inr (Or.inr h)
  · rintro r (rfl | rfl) <;> decide
  · rintro k (rfl | rfl | rfl | rfl) <;> exact ⟨by decide, by decide⟩

/-- Witness of C11: the paths emitted for a container with a medium-MIG limit,
on a cluster that offers only a small MIG partition. -/
theorem emitted_paths_escaped_witness :
    (emittedPatches clusterSmall podLimited ()).map PatchOp.path =
      ["/spec/containers/0/resources/requests/nvidia.com~1mig-2g.20gb",
       "/spec/containers/0/resources/requests/nvidia.com~1mig-1g.10gb",
       "/spec/containers/0/resources/limits/nvidia.com~1mig-2g.20gb",
       "/spec/containers/0/resources/limits/nvidia.com~1mig-1g.10gb",
       "/metadata/annotations",
       "/metadata/annotations/gpu-webhook.k8s.io~1fallback"] ∧
    escapeFallback "nvidia.com/gpu" = escape "nvidia.com/gpu" ∧
    escapeFallback "nvidia.com/mig-1g.10gb" = escape "nvidia.com/mig-1g.10gb" :=
  ⟨by decide,
    (emitted_paths_escaped clusterSmall podLimited ()).2.1 _ (Or.inl rfl),
    (emitted_paths_escaped clusterSmall podLimited ()).2.1 _ (Or.inr rfl)⟩

/-- C12: for a decoded pod without annotations map, every operation of the
emitted list at `/metadata/annotations/gpu-webhook.k8s.io~1fallback` has the
`add` of an empty mapping at `/metadata/annotations` at a strictly smaller
position; for a pod whose annotations map is present (even empty), no operation
at `/metadata/annotations` itself is emitted. -/
theorem annotations_created_before_provenance {σ : Type} (listNodes : NodeLister σ)
    (pod : Pod) (s : σ) :
    (pod.Annotations = none →
      ∀ pre op post, emittedPatches listNodes pod s = pre ++ op :: post →
        op.path = "/metadata/annotations/gpu-webhook.k8s.io~1fallback" →
        (⟨"add", "/metadata/annotations", some PatchValue.emptyMap⟩ : PatchOp) ∈ pre) ∧
    (pod.Annotations ≠ none →
      ∀ op ∈ emittedPatches listNodes pod s, op.path ≠ "/metadata/annotations") := by
  constructor
  · intro ha pre op post h hop
    rw [emittedPatches_blocks] at h
    exact blocksFrom_created_before listNodes pod ha _ 0 _ pre post op h hop
  · intro ha op hop
    obtain ⟨j, c, w, _, hin⟩ := emittedPatches_mem listNodes pod s op hop
    rcases iterBlock_cases listNodes pod j c w with hb | ⟨qty, _, _, hb⟩
    · rw [hb] at hin; simp at hin
    · rw [hb] at hin; exact block_no_create ha hin

/-- Witness of C12: a pod without annotations on a cluster without nodes; the
provenance `add` is the fourth operation, the creation of the map the third. -/
theorem annotations_created_before_provenance_witness :
    podMedium.Annotations = none ∧
    emittedPatches clusterEmpty podMedium () =
      [⟨"remove", "/spec/containers/0/resources/requests/nvidia.com~1mig-2g.20gb", none⟩,
       ⟨"add", "/spec/containers/0/resources/requests/nvidia.com~1gpu",
         some (PatchValue.str "1")⟩,
       ⟨"add", "/metadata/annotations", some PatchValue.emptyMap⟩]
      ++ ⟨"add", "/metadata/annotations/gpu-webhook.k8s.io~1fallback",
           some (PatchValue.str "2g.20gb->gpu")⟩ :: [] ∧
    (⟨"add", "/metadata/annotations", some PatchValue.emptyMap⟩ : PatchOp) ∈
      [(⟨"remove", "/spec/containers/0/resources/requests/nvidia.com~1mig-2g.20gb",
          none⟩ : PatchOp),
       ⟨"add", "/spec/containers/0/resources/requests/nvidia.com~1gpu",
         some (PatchValue.str "1")⟩,
       ⟨"add", "/metadata/annotations", some PatchValue.emptyMap⟩] :=
  ⟨rfl, by decide,
    (annotations_created_before_provenance clusterEmpty podMedium ()).1 rfl
      [⟨"remove", "/spec/containers/0/resources/requests/nvidia.com~1mig-2g.20gb", none⟩,
       ⟨"add", "/spec/containers/0/resources/requests/nvidia.com~1gpu",
         some (PatchValue.str "1")⟩,
       ⟨"add", "/metadata/annotations", some PatchValue.emptyMap⟩]
      ⟨"add", "/metadata/annotations/gpu-webhook.k8s.io~1fallback",
        some (PatchValue.str "2g.20gb->gpu")⟩ [] (by decide) rfl⟩

/-- C13: when the node listing succeeds, `checkMIGAvailability` returns
`(true, nil)` if and only if some node has an allocatable entry for the
resource whose quantity is at least one unit, and `(false, nil)` otherwise (so
also for an empty node list, and when every entry is absent, zero or below
one); when the listing fails it returns `false` with the error. -/
theorem checkMIGAvailability_spec {σ : Type} (listNodes : NodeLister σ)
    (resourceName : String) (s : σ) :
    (∀ nodes s1, listNodes s = (Except.ok nodes, s1) →
      ((checkMIGAvailability listNodes resourceName s).1 = (true, none) ↔
        ∃ node ∈ nodes, ∃ q, mapIndex node.Allocatable resourceName = some q ∧
          (Quantity.ofUnits 1).nano ≤ q.nano) ∧
      ((checkMIGAvailability listNodes resourceName s).1 ≠ (true, none) →
        (checkMIGAvailability listNodes resourceName s).1 = (false, none)) ∧
      (nodes = [] → (checkMIGAvailability listNodes resourceName s).1 = (false, none)) ∧
      (checkMIGAvailability listNodes resourceName s).2 = s1) ∧
    (∀ err s1, listNodes s = (Except.error err, s1) →
      checkMIGAvailability listNodes resourceName s = ((false, some err), s1)) := by
  constructor
  · intro nodes s1 h
    have hc : checkMIGAvailability listNodes resourceName s
        = ((scanNodes resourceName nodes, none), s1) := by
      simp [checkMIGAvailability, h]
    rw [hc]
    refine ⟨?_, ?_, ?_, rfl⟩
    · rw [← scanNodes_iff]; simp
    · intro hne
      cases hsn : scanNodes resourceName nodes with
      | false => rfl
      | true => rw [hsn] at hne; exact absurd rfl hne
    · intro hn; rw [hn]; rfl
  · intro err s1 h
    simp [checkMIGAvailability, h]

/-- Witness of C13: a cluster whose nodes offer half a medium MIG partition,
zero, and no table at all: unavailable; and a cluster offering one: available. -/
theorem checkMIGAvailability_spec_witness :
    (checkMIGAvailability clusterHalf "nvidia.com/mig-2g.20gb" ()).1 = (false, none) ∧
    (checkMIGAvailability clusterMedium "nvidia.com/mig-2g.20gb" ()).1 = (true, none) ∧
    checkMIGAvailability clusterDown "nvidia.com/mig-2g.20gb" ()
      = ((false, some "connection refused"), ()) :=
  ⟨((checkMIGAvailability_spec clusterHalf "nvidia.com/mig-2g.20gb" ()).1 _ _ rfl).2.1
      (by decide),
    by decide,
    (checkMIGAvailability_spec clusterDown "nvidia.com/mig-2g.20gb" ()).2 _ _ rfl⟩

/-- C14: a failed capacity query counts as unavailable and goes no further.
For a decoded pod, two clusters whose queries give the same boolean and the
same next state in every state (so one may fail with an error where the other
answers false) get the same response; the response has `Allowed = true` and no
`Result`; and on a cluster whose every listing fails, each container requesting
a non-zero medium-MIG quantity gets the whole-GPU substitution. -/
theorem query_error_as_unavailable {σ : Type} (l1 l2 : NodeLister σ) (uid : String)
    (pod : Pod) (s : σ)
    (hagree : ∀ r w, (checkMIGAvailability l1 r w).1.1 = (checkMIGAvailability l2 r w).1.1 ∧
      (checkMIGAvailability l1 r w).2 = (checkMIGAvailability l2 r w).2) :
    handleMutate l1 ⟨⟨uid, Except.ok pod⟩⟩ s = handleMutate l2 ⟨⟨uid, Except.ok pod⟩⟩ s ∧
    (handleMutate l1 ⟨⟨uid, Except.ok pod⟩⟩ s).Allowed = true ∧
    (handleMutate l1 ⟨⟨uid, Except.ok pod⟩⟩ s).Result = none ∧
    ((∀ w, ∃ err w1, l1 w = (Except.error err, w1)) →
      ∀ i c qty, pod.Spec.Containers[i]? = some c → requestsMedium c qty →
        (emittedPatches l1 pod s).filter
            (fun op => decide (op.op = "add" ∧ liesUnder (requestsPrefix i) op.path))
          = [{ op := "add",
               path := sprintfD "/spec/containers/" i "/resources/requests/nvidia.com~1gpu",
               value := some (PatchValue.str qty.String) }] ∧
        ∀ op ∈ emittedPatches l1 pod s,
          op.path = "/metadata/annotations/gpu-webhook.k8s.io~1fallback" →
          op.value = some (PatchValue.str "2g.20gb->gpu")) := by
  refine ⟨?_, ?_, ?_, ?_⟩
  · simp only [handleMutate, runLoop]
    rw [containerLoop_congr l1 l2 hagree]
  · rw [handleMutate_decoded]
    by_cases h : emittedPatches l1 pod s = []
    · rw [if_pos h]
    · rw [if_neg h]
  · rw [handleMutate_decoded]
    by_cases h : emittedPatches l1 pod s = []
    · rw [if_pos h]
    · rw [if_neg h]
  · intro hfail i c qty hc hq
    have h := rung_fallback l1 pod s i c qty false hc hq
      (fun w => error_gives_false l1 _ w (hfail w))
      (fun w => error_gives_false l1 _ w (hfail w))
    have hp : sprintfDS "/spec/containers/" i "/resources/requests/" "nvidia.com~1gpu"
        = sprintfD "/spec/containers/" i "/resources/requests/nvidia.com~1gpu" := by
      rw [sprintfDS_eq]; rfl
    simp only [Bool.false_eq_true, if_false, hp] at h
    refine ⟨h.1, ?_⟩
    intro op hop hpath
    rw [h.2.2 op hop hpath]; rfl

/-- Witness of C14: a cluster whose listing fails against a cluster without
nodes, for a pod requesting one medium MIG partition. -/
theorem query_error_as_unavailable_witness :
    handleMutate clusterDown ⟨⟨"uid-1", Except.ok podMedium⟩⟩ ()
      = handleMutate clusterEmpty ⟨⟨"uid-1", Except.ok podMedium⟩⟩ () ∧
    (handleMutate clusterDown ⟨⟨"uid-1", Except.ok podMedium⟩⟩ ()).Allowed = true ∧
    (handleMutate clusterDown ⟨⟨"uid-1", Except.ok podMedium⟩⟩ ()).Result = none ∧
    (emittedPatches clusterDown podMedium ()).filter
        (fun op => decide (op.op = "add" ∧ liesUnder (requestsPrefix 0) op.path))
      = [{ op := "add",
           path := sprintfD "/spec/containers/" 0 "/resources/requests/nvidia.com~1gpu",
           value := some (PatchValue.str (Quantity.ofUnits 1).String) }] :=
  have h := query_error_as_unavailable clusterDown clusterEmpty "uid-1" podMedium ()
    (fun _ _ => ⟨rfl, rfl⟩)
  ⟨h.1, h.2.1, h.2.2.1,
    (h.2.2.2 (fun w => ⟨"connection refused", w, rfl⟩) 0 containerMedium (Quantity.ofUnits 1)
      rfl ⟨rfl, rfl⟩).1⟩

/-- C15: the availability queries of `handleMutate` for a decoded pod are the
resource names of the calls of `checkMIGAvailability` its loop makes, logged
call by call while the listings of nodes are counted; the logged loop is the
loop of `handleMutate` (it gives the response of `handleMutate` and leaves the
world in the same state), and every logged call lists the nodes exactly once.
The log is, in order, that of the containers one after the other, each at the
state of the world its iteration starts in: no query for a container that does
not request a non-zero `nvidia.com/mig-2g.20gb` quantity; for a container that
does, first one query for `nvidia.com/mig-2g.20gb` and then, only if that
answered unavailable, one for `nvidia.com/mig-1g.10gb`, so at most two; and no
query is ever for `nvidia.com/gpu`. -/
theorem availability_query_trace {σ : Type} (listNodes : NodeLister σ) (uid : String)
    (pod : Pod) (s : σ) :
    handleMutate listNodes ⟨⟨uid, Except.ok pod⟩⟩ s
      = respond uid (observedLoop listNodes pod s).patches
          (observedLoop listNodes pod s).modified ∧
    (observedLoop listNodes pod s).world.1.1
      = (runLoop (checkMIGAvailability listNodes) pod s).world ∧
    issuedListings listNodes pod s = (issuedQueries listNodes pod s).length ∧
    issuedQueries listNodes pod s
      = queriesFrom listNodes pod.Spec.Containers
          (worldsFrom listNodes pod 0 pod.Spec.Containers s) ∧
    (∀ (c : Container) (w : σ), (∀ qty, ¬ requestsMedium c qty) →
      containerQueries listNodes c w = []) ∧
    (∀ (c : Container) (w : σ) (qty : Quantity), requestsMedium c qty →
      containerQueries listNodes c w =
        (if (checkMIGAvailability listNodes "nvidia.com/mig-2g.20gb" w).1.1 then
          ["nvidia.com/mig-2g.20gb"]
        else ["nvidia.com/mig-2g.20gb", "nvidia.com/mig-1g.10gb"]) ∧
      (containerQueries listNodes c w).length ≤ 2) ∧
    (∀ q ∈ issuedQueries listNodes pod s,
      (q = "nvidia.com/mig-2g.20gb" ∨ q = "nvidia.com/mig-1g.10gb") ∧ q ≠ "nvidia.com/gpu") := by
  obtain ⟨hrun, htrace, hcount⟩ := observedLoop_spec listNodes pod s
  refine ⟨?_, ?_, hcount, htrace, ?_, ?_, ?_⟩
  · have hp := congrArg LoopState.patches hrun
    have hm := congrArg LoopState.modified hrun
    simp only [LoopState.unobserved] at hp hm
    simp only [handleMutate]
    rw [hp, hm]
  · have hw := congrArg LoopState.world hrun
    simpa only [LoopState.unobserved] using hw
  · intro c w hno
    unfold containerQueries
    cases hm : mapIndex c.Resources.Requests "nvidia.com/mig-2g.20gb" with
    | none => rfl
    | some qty =>
      by_cases hz : qty.IsZero = true
      · simp [hz]
      · exact absurd ⟨hm, by simpa using hz⟩ (hno qty)
  · intro c w qty hq
    have h1 : mapIndex c.Resources.Requests "nvidia.com/mig-2g.20gb" = some qty := hq.1
    have hcq : containerQueries listNodes c w =
        (if (checkMIGAvailability listNodes "nvidia.com/mig-2g.20gb" w).1.1 then
          ["nvidia.com/mig-2g.20gb"]
        else ["nvidia.com/mig-2g.20gb", "nvidia.com/mig-1g.10gb"]) := by
      unfold containerQueries
      simp [h1, hq.2]
    refine ⟨hcq, ?_⟩
    rw [hcq]
    split <;> simp
  · intro q hq
    rw [htrace] at hq
    have := queriesFrom_mem listNodes _ _ q hq
    refine ⟨this, ?_⟩
    rcases this with h | h <;> rw [h] <;> decide

/-- Witness of C15: a pod with a whole-GPU container and two medium-MIG
containers, on a cluster that offers only a small MIG partition (four calls,
four listings) and on one that offers a medium MIG partition (two calls, two
listings). -/
theorem availability_query_trace_witness :
    issuedQueries clusterSmall podThree () =
      ["nvidia.com/mig-2g.20gb", "nvidia.com/mig-1g.10gb",
       "nvidia.com/mig-2g.20gb", "nvidia.com/mig-1g.10gb"] ∧
    issuedListings clusterSmall podThree () = 4 ∧
    issuedQueries clusterMedium podThree ()
      = ["nvidia.com/mig-2g.20gb", "nvidia.com/mig-2g.20gb"] ∧
    issuedListings clusterMedium podThree () = 2 ∧
    containerQueries clusterSmall containerGPU () = [] ∧
    (containerQueries clusterSmall containerMedium ()).length ≤ 2 :=
  ⟨by decide, by decide, by decide, by decide,
    (availability_query_trace clusterSmall "uid-1" podThree ()).2.2.2.2.1 containerGPU ()
      (fun qty hq => by
        have h1 := hq.1
        simp [mapIndex, containerGPU, mediumMIG, List.lookup] at h1),
    ((availability_query_trace clusterSmall "uid-1" podThree ()).2.2.2.2.2.1 containerMedium ()
      (Quantity.ofUnits 1) ⟨rfl, rfl⟩).2⟩

/-- C16: for every decoded pod, cluster and state, the emitted patch list is the
concatenation, in increasing container index, of one block per container
position: empty when the fallback policy takes no decision for the container,
and otherwise exactly `specBlock`: the `remove` of the medium-MIG request, the
`add` of the replacement request, then (if and only if the limits declare
medium-MIG) the `remove` and `add` under the limits, then (if and only if the pod
has no annotations map) the `add` of an empty `/metadata/annotations`, then the
`add` of the provenance annotation; every path of the block of position `i`
uses the index `i`. -/
theorem patch_list_structure {σ : Type} (listNodes : NodeLister σ) (pod : Pod) (s : σ) :
    emittedPatches listNodes pod s
      = ((List.range pod.Spec.Containers.length).map
          (blockAt listNodes pod pod.Spec.Containers
            (worldsFrom listNodes pod 0 pod.Spec.Containers s) 0)).flatten ∧
    (∀ (i : Nat) (c : Container) (w : σ),
      (fallbackDecision listNodes c w = none ∧ decidedBlock listNodes pod i c w = []) ∨
      (∃ qty f, requestsMedium c qty ∧ fallbackDecision listNodes c w = some (qty, f) ∧
        decidedBlock listNodes pod i c w = specBlock pod i c qty f)) := by
  constructor
  · rw [emittedPatches_blocks]
    exact blocksFrom_eq_flatten listNodes pod _ 0 _ (worldsFrom_length listNodes pod _ 0 s)
  · intro i c w
    unfold decidedBlock
    cases hd : fallbackDecision listNodes c w with
    | none => exact Or.inl ⟨rfl, rfl⟩
    | some d =>
      right
      refine ⟨d.1, d.2, ?_, rfl, rfl⟩
      unfold fallbackDecision at hd
      cases hm : mapIndex c.Resources.Requests "nvidia.com/mig-2g.20gb" with
      | none => simp [hm] at hd
      | some qty =>
        simp only [hm] at hd
        by_cases hz : qty.IsZero = true
        · simp [hz] at hd
        · by_cases ha : (checkMIGAvailability listNodes "nvidia.com/mig-2g.20gb" w).1.1 = true
          · simp [hz, ha] at hd
          · simp only [hz, ha, Bool.false_eq_true, if_false, Option.some.injEq] at hd
            rw [← hd]
            exact ⟨hm, by simpa using hz⟩

/-- Witness of C16: three containers, the first not substituted, the third with
a medium-MIG limit, on a cluster that offers only a small MIG partition. -/
theorem patch_list_structure_witness :
    ((List.range podThree.Spec.Containers.length).map
      (blockAt clusterSmall podThree podThree.Spec.Containers
        (worldsFrom clusterSmall podThree 0 podThree.Spec.Containers ()) 0)).flatten =
      [⟨"remove", "/spec/containers/1/resources/requests/nvidia.com~1mig-2g.20gb", none⟩,
       ⟨"add", "/spec/containers/1/resources/requests/nvidia.com~1mig-1g.10gb",
         some (PatchValue.str "1")⟩,
       ⟨"add", "/metadata/annotations", some PatchValue.emptyMap⟩,
       ⟨"add", "/metadata/annotations/gpu-webhook.k8s.io~1fallback",
         some (PatchValue.str "2g.20gb->1g.10gb")⟩,
       ⟨"remove", "/spec/containers/2/resources/requests/nvidia.com~1mig-2g.20gb", none⟩,
       ⟨"add", "/spec/containers/2/resources/requests/nvidia.com~1mig-1g.10gb",
         some (PatchValue.str "1")⟩,
       ⟨"remove", "/spec/containers/2/resources/limits/nvidia.com~1mig-2g.20gb", none⟩,
       ⟨"add", "/spec/containers/2/resources/limits/nvidia.com~1mig-1g.10gb",
         some (PatchValue.str "2")⟩,
       ⟨"add", "/metadata/annotations", some PatchValue.emptyMap⟩,
       ⟨"add", "/metadata/annotations/gpu-webhook.k8s.io~1fallback",
         some (PatchValue.str "2g.20gb->1g.10gb")⟩] :=
  (patch_list_structure clusterSmall podThree ()).1.symm.trans (by decide)

/-- C17 fails on the code: for a pod without annotations whose two containers
are both substituted, the second block emits the `add` of an empty
`/metadata/annotations` again, after the provenance `add` of the first block;
applied in order, that operation replaces the annotations map the first block
had filled by an empty one. -/
theorem second_block_recreates_annotations :
    emittedPatches clusterEmpty podTwo () =
      [⟨"remove", "/spec/containers/0/resources/requests/nvidia.com~1mig-2g.20gb", none⟩,
       ⟨"add", "/spec/containers/0/resources/requests/nvidia.com~1gpu",
         some (PatchValue.str "1")⟩,
       ⟨"add", "/metadata/annotations", some PatchValue.emptyMap⟩,
       ⟨"add", "/metadata/annotations/gpu-webhook.k8s.io~1fallback",
         some (PatchValue.str "2g.20gb->gpu")⟩,
       ⟨"remove", "/spec/containers/1/resources/requests/nvidia.com~1mig-2g.20gb", none⟩,
       ⟨"add", "/spec/containers/1/resources/requests/nvidia.com~1gpu",
         some (PatchValue.str "1")⟩,
       ⟨"add", "/metadata/annotations", some PatchValue.emptyMap⟩,
       ⟨"add", "/metadata/annotations/gpu-webhook.k8s.io~1fallback",
         some (PatchValue.str "2g.20gb->gpu")⟩] ∧
    (applyPatch podTwo.toDoc ((emittedPatches clusterEmpty podTwo ()).take 6)).map
        PodDoc.annotations
      = some (some [("gpu-webhook.k8s.io/fallback", "2g.20gb->gpu")]) ∧
    (applyPatch podTwo.toDoc ((emittedPatches clusterEmpty podTwo ()).take 7)).map
        PodDoc.annotations
      = some (some []) ∧
    ¬ (∀ pre op post, emittedPatches clusterEmpty podTwo () = pre ++ op :: post →
        op.op = "add" → op.path = "/metadata/annotations" →
        ∀ x ∈ pre, ¬ liesUnder "/metadata/annotations/" x.path) := by
  refine ⟨by decide, by decide, by decide, ?_⟩
  intro h
  exact h ((emittedPatches clusterEmpty podTwo ()).take 6)
    ⟨"add", "/metadata/annotations", some PatchValue.emptyMap⟩
    ((emittedPatches clusterEmpty podTwo ()).drop 7) (by decide) rfl rfl
    ⟨"add", "/metadata/annotations/gpu-webhook.k8s.io~1fallback",
      some (PatchValue.str "2g.20gb->gpu")⟩ (by decide) (by decide)

/-- C18: for every decoded pod, cluster and state, the emitted patch list
applies to the document of the pod without failing, operation by operation:
whenever the list is `pre ++ op :: post`, the operations of `pre` apply and `op`
applies to their result, so every `remove` finds its member and every `add`
finds the object it adds to. -/
theorem patch_always_applies {σ : Type} (listNodes : NodeLister σ) (pod : Pod) (s : σ) :
    (∃ doc1, applyPatch pod.toDoc (emittedPatches listNodes pod s) = some doc1) ∧
    (∀ pre op post, emittedPatches listNodes pod s = pre ++ op :: post →
      ∃ d d1, applyPatch pod.toDoc pre = some d ∧ applyOp d op = some d1) := by
  obtain ⟨doc1, happ, _⟩ := apply_emitted listNodes pod s
  refine ⟨⟨doc1, happ⟩, ?_⟩
  intro pre op post h
  rw [h] at happ
  obtain ⟨d, d1, h1, h2, _⟩ := applyPatch_step _ _ _ _ _ happ
  exact ⟨d, d1, h1, h2⟩

/-- Witness of C18: two substituted containers, with limits and pre-existing
annotations, on a cluster without nodes. -/
theorem patch_always_applies_witness :
    (∃ doc1, applyPatch podBoth.toDoc (emittedPatches clusterEmpty podBoth ()) = some doc1) ∧
    (applyPatch podTwo.toDoc (emittedPatches clusterEmpty podTwo ())).isSome = true :=
  ⟨(patch_always_applies clusterEmpty podBoth ()).1, by decide⟩

/-- C19: for every decoded pod, cluster and state, the emitted patch list
applies to the document of the pod and changes only what a substitution is
about: the number of containers is kept; a container that is not substituted
keeps its document; in a substituted container every request and every limit
under a key other than `nvidia.com/mig-2g.20gb` and the replacement resource
keeps its value, and the limits are untouched when they do not declare
medium-MIG; and every annotation under a key other than
`gpu-webhook.k8s.io/fallback` keeps its value. -/
theorem patch_frame {σ : Type} (listNodes : NodeLister σ) (pod : Pod) (s : σ) :
    ∃ doc1, applyPatch pod.toDoc (emittedPatches listNodes pod s) = some doc1 ∧
      doc1.containers.length = pod.Spec.Containers.length ∧
      (∀ i c, pod.Spec.Containers[i]? = some c → ¬ substituted listNodes pod s i →
        doc1.containers[i]? = some c.toDoc) ∧
      (∀ i c, pod.Spec.Containers[i]? = some c → substituted listNodes pod s i →
        ∃ (qty : Quantity) (f : Bool) (cd : ContainerDoc),
          doc1.containers[i]? = some cd ∧
          (⟨"add", sprintfDS "/spec/containers/" i "/resources/requests/"
              (fallbackEscaped f), some (PatchValue.str qty.String)⟩ : PatchOp)
            ∈ emittedPatches listNodes pod s ∧
          (∀ key, key ≠ "nvidia.com/mig-2g.20gb" → key ≠ fallbackKey f →
            mapIndex cd.requests key = mapIndex c.toDoc.requests key ∧
            mapIndex cd.limits key = mapIndex c.toDoc.limits key) ∧
          (mapIndex c.Resources.Limits "nvidia.com/mig-2g.20gb" = none →
            cd.limits = c.toDoc.limits)) ∧
      (∀ key, key ≠ "gpu-webhook.k8s.io/fallback" →
        mapIndex doc1.annotations key = mapIndex pod.Annotations key) := by
  obtain ⟨doc1, happ, hlen, hper, _, _, hfr⟩ := apply_emitted listNodes pod s
  refine ⟨doc1, happ, hlen, ?_, ?_, hfr⟩
  · intro i c hc hns
    exact (hper i c hc).1 hns
  · intro i c hc hsub
    obtain ⟨qty, f, _, hQ, hdoc⟩ := (hper i c hc).2 hsub
    have hframe := substitutedDoc_frame c qty f
    exact ⟨qty, f, _, hdoc, requests_add_mem listNodes pod s i c qty f hQ, hframe.1, hframe.2⟩

/-- Witness of C19: a pod with an annotation `team`, whose first container
already requests a whole GPU, on a cluster without nodes: the annotation is
kept, and so is the length of the container list. -/
theorem patch_frame_witness :
    ∃ doc1, applyPatch podBoth.toDoc (emittedPatches clusterEmpty podBoth ()) = some doc1 ∧
      doc1.containers.length = 2 ∧ mapIndex doc1.annotations "team" = some "ml" :=
  (patch_frame clusterEmpty podBoth ()).imp
    (fun _ h => ⟨h.1, h.2.1, (h.2.2.2.2 "team" (by decide)).trans rfl⟩)

end GpuWebhook
